import Mathlib

/-!
# Verification of the pg-transit message broker core

Shallow embedding of the pg-transit relational message broker
(topics / messages / subscriptions / subscription-messages /
scheduled-messages) and proofs about its operations.

Conventions of the embedding:
* timestamps are naturals (milliseconds);
* UUIDs are naturals (the library uses v7, time-ordered UUIDs);
* each SQL transaction of the source becomes one pure function
  `DB → DB` (plus returned values);
* `JSONB` payloads are strings (their content is never inspected
  by the broker);
* SQL `NULL`-able columns become `Option`.
-/

namespace PgTransit

/-- `pg_transit_message_status` enum. -/
inductive MessageStatus
  | waiting
  | processing
  | completed
  | failed
deriving DecidableEq, Repr

/-- `consumption_mode` column of `pg_transit_subscriptions`. -/
inductive ConsumptionMode
  | sequential
  | parallel
deriving DecidableEq, Repr

/-- `start_position` column of `pg_transit_subscriptions`. -/
inductive StartPosition
  | earliest
  | latest
deriving DecidableEq, Repr

/-- `retry_strategy` column of `pg_transit_subscriptions`. -/
inductive RetryStrategy
  | linear
  | exponential
deriving DecidableEq, Repr

/-- A row of `pg_transit_messages`. -/
structure MessageRow where
  id : Nat
  topicId : Nat
  data : String
  createdAt : Nat
  deliverAt : Option Nat
  priority : Option Int
deriving DecidableEq, Repr

/-- A row of `pg_transit_subscriptions`. -/
structure SubscriptionRow where
  id : Nat
  topicId : Nat
  name : String
  processing : Bool
  consumptionMode : ConsumptionMode
  startPosition : StartPosition
  maxAttempts : Nat
  retryStrategy : RetryStrategy
  retryDelay : Nat
deriving DecidableEq, Repr

/-- A row of `pg_transit_subscription_messages`. -/
structure SubMsgRow where
  subscriptionId : Nat
  messageId : Nat
  status : MessageStatus
  attempts : Nat
  availableAt : Option Nat
  errorStack : Option String
  lastHeartbeatAt : Option Nat
  progress : Option String
  staleCount : Nat
deriving DecidableEq, Repr

/-- A row of `pg_transit_scheduled_messages`. -/
structure SchedRow where
  topicId : Nat
  name : String
  data : String
  createdAt : Nat
  nextOccurrenceAt : Nat
  cron : String
  deliverInMs : Option Nat
  deliverAt : Option Nat
  priority : Option Int
  repeats : Option Nat
  repeatsMade : Nat
deriving DecidableEq, Repr

/-- The database state (the four relations the claims are about). -/
structure DB where
  messages : List MessageRow
  subscriptions : List SubscriptionRow
  subMessages : List SubMsgRow
  scheduled : List SchedRow
deriving DecidableEq, Repr

/-- The empty database (state right after the migrations ran). -/
def DB.empty : DB := ⟨[], [], [], []⟩

/-! ## A structurally recursive sort

SQL `ORDER BY` is modeled as an insertion sort on a boolean comparison
(structural recursion, so concrete states evaluate inside the kernel).
On duplicate keys it fixes one of the orders Postgres may return; the
claims that depend on order carry distinct-key hypotheses.
-/

/-- Insert into a sorted list. -/
def insertLe {α} (le : α → α → Bool) (a : α) : List α → List α
  | [] => [a]
  | b :: t => if le a b then a :: b :: t else b :: insertLe le a t

/-- Insertion sort by a boolean comparison. -/
def sortLe {α} (le : α → α → Bool) : List α → List α
  | [] => []
  | a :: t => insertLe le a (sortLe le t)

theorem insertLe_perm {α} (le : α → α → Bool) (a : α) :
    ∀ l : List α, (insertLe le a l).Perm (a :: l)
  | [] => List.Perm.refl _
  | b :: t => by
    unfold insertLe
    by_cases h : le a b
    · rw [if_pos h]
    · rw [if_neg h]
      exact List.Perm.trans (List.Perm.cons b (insertLe_perm le a t))
        (List.Perm.swap a b t)

theorem sortLe_perm {α} (le : α → α → Bool) :
    ∀ l : List α, (sortLe le l).Perm l
  | [] => List.Perm.refl _
  | a :: t => by
    unfold sortLe
    exact List.Perm.trans (insertLe_perm le a _)
      (List.Perm.cons a (sortLe_perm le t))

theorem pairwise_insertLe {α} {le : α → α → Bool}
    (htot : ∀ a b, (le a b || le b a) = true)
    (htrans : ∀ a b c, le a b = true → le b c = true → le a c = true)
    (a : α) : ∀ {l : List α}, l.Pairwise (fun x y => le x y = true) →
      (insertLe le a l).Pairwise (fun x y => le x y = true)
  | [], _ => by simp [insertLe]
  | b :: t, h => by
    unfold insertLe
    rw [List.pairwise_cons] at h
    by_cases hab : le a b
    · rw [if_pos hab]
      rw [List.pairwise_cons]
      refine ⟨?_, List.pairwise_cons.mpr h⟩
      intro x hx
      rcases List.mem_cons.mp hx with hx | hx
      · rw [hx]
        exact hab
      · exact htrans a b x hab (h.1 x hx)
    · rw [if_neg hab]
      rw [List.pairwise_cons]
      have hba : le b a = true := by
        have := htot a b
        rw [Bool.or_eq_true] at this
        rcases this with h1 | h1
        · exact absurd h1 hab
        · exact h1
      refine ⟨?_, pairwise_insertLe htot htrans a h.2⟩
      intro x hx
      have := (insertLe_perm le a t).mem_iff.mp hx
      rcases List.mem_cons.mp this with hx2 | hx2
      · rw [hx2]
        exact hba
      · exact h.1 x hx2

theorem pairwise_sortLe {α} {le : α → α → Bool}
    (htot : ∀ a b, (le a b || le b a) = true)
    (htrans : ∀ a b c, le a b = true → le b c = true → le a c = true) :
    ∀ l : List α, (sortLe le l).Pairwise (fun x y => le x y = true)
  | [] => List.Pairwise.nil
  | a :: t => pairwise_insertLe htot htrans a (pairwise_sortLe htot htrans t)

/-! ## Message writer (`insertMessages`, src/message.ts) -/

/-- Options of `send` / `sendBulk` (`MessageOptions` of src/message.ts). -/
structure MessageOptions where
  deliverInMs : Option Nat := none
  deliverAt : Option Nat := none
  priority : Option Int := none
deriving DecidableEq, Repr

/--
The effective `deliver_at` computed by `insertMessages`:

    let deliverAt;
    if (options?.deliverInMs) deliverAt = new Date(Date.now() + options.deliverInMs);
    if (options?.deliverAt) deliverAt = options.deliverAt;

Note the JavaScript truthiness test: a `deliverInMs` of `0` is falsy and
leaves `deliverAt` undefined (`NULL`), it does not produce `now + 0`.
-/
def effectiveDeliverAt (now : Nat) (o : MessageOptions) : Option Nat :=
  match o.deliverAt with
  | some d => some d
  | none =>
    match o.deliverInMs with
    | some m => if m = 0 then none else some (now + m)
    | none => none

/-- The `pg_transit_messages` row built by `insertMessages` for one payload. -/
def mkMessageRow (topicId : Nat) (now : Nat) (dAt : Option Nat) (prio : Option Int)
    (idData : Nat × String) : MessageRow :=
  { id := idData.1, topicId := topicId, data := idData.2, createdAt := now,
    deliverAt := dAt, priority := prio }

/-- The fan-out `pg_transit_subscription_messages` row inserted by
`insertMessages` for one (subscription, new message) pair: `available_at`
is copied from the computed `deliver_at`, the other columns take their
schema defaults (`status 'waiting'`, `attempts 0`, `stale_count 0`). -/
def mkFanoutRow (dAt : Option Nat) (subId msgId : Nat) : SubMsgRow :=
  { subscriptionId := subId, messageId := msgId, status := .waiting,
    attempts := 0, availableAt := dAt, errorStack := none,
    lastHeartbeatAt := none, progress := none, staleCount := 0 }

/--
`insertMessages(sql, topicId, data, options)` (src/message.ts): in one
transaction, insert one message row per payload (`batch` pairs each
payload with its freshly generated v7 id) and one subscription-message
row per (new message × current subscription of the topic).
-/
def insertMessages (db : DB) (topicId : Nat) (batch : List (Nat × String))
    (o : MessageOptions) (now : Nat) : DB :=
  let dAt := effectiveDeliverAt now o
  let newMsgs := batch.map (mkMessageRow topicId now dAt o.priority)
  let topicSubs := db.subscriptions.filter (fun s => s.topicId == topicId)
  let newFanout := topicSubs.flatMap (fun s => batch.map (fun b => mkFanoutRow dAt s.id b.1))
  { db with
    messages := db.messages ++ newMsgs
    subMessages := db.subMessages ++ newFanout }

/-! ## Subscription creation (`Subscription` constructor, src/subscription.ts) -/

/-- `SubscriptionOptions`, with the constructor's defaults already applied
(`'sequential'`, `'latest'`, `1`, `'linear'`, `0`). -/
structure SubscriptionOptions where
  consumptionMode : ConsumptionMode := .sequential
  startPosition : StartPosition := .latest
  maxAttempts : Nat := 1
  retryStrategy : RetryStrategy := .linear
  retryDelay : Nat := 0
deriving DecidableEq, Repr

/-- The mismatched-options check of the `Subscription` constructor: `true`
iff any of the five options differs from the existing row (the constructor
then emits an `error` event but still adopts the existing row). -/
def subOptionsMismatch (o : SubscriptionOptions) (ex : SubscriptionRow) : Bool :=
  o.consumptionMode != ex.consumptionMode ||
  o.startPosition != ex.startPosition ||
  o.maxAttempts != ex.maxAttempts ||
  o.retryStrategy != ex.retryStrategy ||
  o.retryDelay != ex.retryDelay

/-- The `earliest` backfill row: the constructor inserts only
`(subscription_id, message_id)`, every other column takes its schema
default — in particular `available_at` is `NULL`, the message's
`deliver_at` is NOT copied. -/
def mkBackfillRow (subId msgId : Nat) : SubMsgRow :=
  { subscriptionId := subId, messageId := msgId, status := .waiting,
    attempts := 0, availableAt := none, errorStack := none,
    lastHeartbeatAt := none, progress := none, staleCount := 0 }

/--
The init of the `Subscription` constructor:
`INSERT … ON CONFLICT (topic_id, name) DO NOTHING RETURNING id`; on a
fresh insert, with `start_position = 'earliest'`, backfill one
subscription-message row per existing message of the topic; on conflict,
look the existing row up — the source's lookup is `WHERE name = $name`
with NO `topic_id` filter, modeled as the first row of the table with
that name — and flag an options mismatch.

Returns the new db, the subscription row adopted by the in-memory object
(`none` models the crash on an impossible empty lookup), and whether the
mismatch error was emitted.
-/
def subscribeInit (db : DB) (topicId : Nat) (name : String) (freshId : Nat)
    (o : SubscriptionOptions) : DB × Option SubscriptionRow × Bool :=
  if db.subscriptions.any (fun s => s.topicId == topicId && s.name == name) then
    match db.subscriptions.find? (fun s => s.name == name) with
    | some ex => (db, some ex, subOptionsMismatch o ex)
    | none => (db, none, false)
  else
    let sub : SubscriptionRow :=
      { id := freshId, topicId := topicId, name := name, processing := false,
        consumptionMode := o.consumptionMode, startPosition := o.startPosition,
        maxAttempts := o.maxAttempts, retryStrategy := o.retryStrategy,
        retryDelay := o.retryDelay }
    let backfill :=
      if o.startPosition == .earliest then
        (db.messages.filter (fun m => m.topicId == topicId)).map
          (fun m => mkBackfillRow freshId m.id)
      else []
    ({ db with
        subscriptions := db.subscriptions ++ [sub]
        subMessages := db.subMessages ++ backfill },
      some sub, false)

/-! ## Reservation engine (`Subscription.getNextMessages`) -/

/-- Sort key of the candidate query's
`ORDER BY pg_transit_messages.priority ASC NULLS LAST, pg_transit_messages.id`:
lexicographic on (priority with NULLs last, id with NULLs last); the
`Bool` components encode SQL `NULL` (which sorts last under `ASC`). -/
abbrev CandKey := (Bool ×ₗ Int) ×ₗ (Bool ×ₗ Nat)

/-- Key of one subscription-message row, reading `priority` and `id`
through the `LEFT JOIN pg_transit_messages` (an unmatched join yields
NULL for both). -/
def candKey (db : DB) (sm : SubMsgRow) : CandKey :=
  match db.messages.find? (fun m => m.id == sm.messageId) with
  | some m => toLex (toLex (m.priority.isNone, m.priority.getD 0), toLex (false, m.id))
  | none => toLex (toLex (true, 0), toLex (true, 0))

/-- Boolean comparison used to sort candidates. -/
def candLE (db : DB) (a b : SubMsgRow) : Bool :=
  decide (candKey db a ≤ candKey db b)

/-- `available_at IS NULL OR available_at <= now`. -/
def availOk (now : Nat) : Option Nat → Bool
  | none => true
  | some t => t ≤ now

/-- The `WHERE` clause of the candidate query: rows of the subscription
with `status = 'waiting'` that are available now. -/
def isCandidate (subId now : Nat) (sm : SubMsgRow) : Bool :=
  sm.subscriptionId == subId && sm.status == .waiting && availOk now sm.availableAt

/-- Candidate rows of the reservation query, in table order. -/
def candidateRows (db : DB) (subId now : Nat) : List SubMsgRow :=
  db.subMessages.filter (isCandidate subId now)

/-- Candidate rows in the query's `ORDER BY` order. -/
def sortedCandidates (db : DB) (subId now : Nat) : List SubMsgRow :=
  sortLe (candLE db) (candidateRows db subId now)

/-- The reservation update applied to each selected row:
`status = 'processing', attempts = attempts + 1, last_heartbeat_at = now,
progress = NULL`. -/
def reserveUpdate (now : Nat) (sm : SubMsgRow) : SubMsgRow :=
  { sm with
    status := .processing
    attempts := sm.attempts + 1
    lastHeartbeatAt := some now
    progress := none }

/--
`Subscription.getNextMessages(count)` (src/subscription.ts), one
transaction:

* throws when `count <= 0` (modeled as `none`);
* sequential mode: read the subscription row `FOR UPDATE`; if
  `processing` is set, return `[]` without touching anything
  (a missing row crashes: `none`);
* select candidates ordered by (priority NULLS LAST, id) with limit 1
  (sequential) or `count` (parallel); if empty return `[]`;
* sequential mode: set the subscription's `processing` flag;
* mark every selected row processing (see `reserveUpdate`) and return
  the updated rows.
-/
def reserveState (db : DB) (subId now : Nat) (seq : Bool)
    (batchIds : List Nat) : DB :=
  { db with
    subscriptions :=
      if seq then
        db.subscriptions.map (fun s =>
          if s.id == subId then { s with processing := true } else s)
      else db.subscriptions
    subMessages := db.subMessages.map (fun sm =>
      if sm.subscriptionId == subId && batchIds.contains sm.messageId then
        reserveUpdate now sm
      else sm) }

def getNextMessages (db : DB) (subId count now : Nat) :
    Option (List SubMsgRow × DB) :=
  if count = 0 then none
  else
    match db.subscriptions.find? (fun s => s.id == subId) with
    | none => none
    | some sub =>
      if sub.consumptionMode == .sequential && sub.processing then
        some ([], db)
      else
        let limit := if sub.consumptionMode == .sequential then 1 else count
        let batch := (sortedCandidates db subId now).take limit
        if batch.isEmpty then some ([], db)
        else
          some (batch.map (reserveUpdate now),
            reserveState db subId now (sub.consumptionMode == .sequential)
              (batch.map (fun sm => sm.messageId)))

/-! ## Completion and failure (`SubscriptionMessage`, src/subscription-message.ts) -/

/-- Update applied by an UPDATE targeting one `(subscription_id, message_id)`
primary key. -/
def updatePair (subId msgId : Nat) (f : SubMsgRow → SubMsgRow)
    (l : List SubMsgRow) : List SubMsgRow :=
  l.map (fun sm =>
    if sm.subscriptionId == subId && sm.messageId == msgId then f sm else sm)

/-- Clear the `processing` gate of one subscription
(`UPDATE pg_transit_subscriptions SET processing = FALSE WHERE id = $id`). -/
def clearGate (subId : Nat) (l : List SubscriptionRow) : List SubscriptionRow :=
  l.map (fun s => if s.id == subId then { s with processing := false } else s)

/--
`SubscriptionMessage.complete()`: set the row's `status = 'completed'`;
in sequential mode additionally clear the subscription's `processing`
flag, both in one transaction. The consumption mode is the in-memory
subscription's; a vanished subscription row means every involved row was
cascade-deleted, so the updates match nothing (modeled as a no-op).
-/
def completeMessage (db : DB) (subId msgId : Nat) : DB :=
  match db.subscriptions.find? (fun s => s.id == subId) with
  | none => db
  | some sub =>
    let subMessages := updatePair subId msgId
      (fun sm => { sm with status := .completed }) db.subMessages
    if sub.consumptionMode == .sequential then
      { db with
        subMessages := subMessages
        subscriptions := clearGate subId db.subscriptions }
    else { db with subMessages := subMessages }

/-- The `(status, available_at)` pair computed by
`SubscriptionMessage.failMessage` from the in-memory `attempts`:

* `attempts >= maxAttempts`: `('failed', NULL)`;
* otherwise `('waiting', now + retryDelay)` for the `linear` strategy and
  `('waiting', now + retryDelay * 2 ^ (attempts - 1))` for `exponential`.

The `Nat` subtraction in the exponent agrees with the source's
floating-point `2 ** (attempts - 1)` for every `attempts >= 1`, which
holds for every reserved message (reservation sets `attempts` to at
least 1). -/
def failOutcome (sub : SubscriptionRow) (attempts now : Nat) :
    MessageStatus × Option Nat :=
  if sub.maxAttempts ≤ attempts then (.failed, none)
  else
    match sub.retryStrategy with
    | .linear => (.waiting, some (now + sub.retryDelay))
    | .exponential => (.waiting, some (now + sub.retryDelay * 2 ^ (attempts - 1)))

/--
`SubscriptionMessage.fail(error)`: write the `failOutcome` status and
`available_at` plus the error's stack to the row; in sequential mode
additionally clear the subscription's `processing` flag in the same
transaction. `attempts` is the calling object's in-memory value.
-/
def failMessage (db : DB) (subId msgId attempts now : Nat)
    (errStack : Option String) : DB :=
  match db.subscriptions.find? (fun s => s.id == subId) with
  | none => db
  | some sub =>
    let o := failOutcome sub attempts now
    let subMessages := updatePair subId msgId
      (fun sm => { sm with
        status := o.1
        availableAt := o.2
        errorStack := errStack }) db.subMessages
    if sub.consumptionMode == .sequential then
      { db with
        subMessages := subMessages
        subscriptions := clearGate subId db.subscriptions }
    else { db with subMessages := subMessages }

/-- `SubscriptionMessage.retry()`: force
`status = 'waiting', available_at = NULL, error_stack = NULL` on the row
(the source does not inspect the current status and touches no other
column — in particular `attempts` is untouched). -/
def retryMessage (db : DB) (subId msgId : Nat) : DB :=
  { db with
    subMessages := updatePair subId msgId
      (fun sm => { sm with
        status := .waiting
        availableAt := none
        errorStack := none }) db.subMessages }

/-- `SubscriptionMessage.heartbeat()`: refresh the row's
`last_heartbeat_at`. -/
def heartbeatMessage (db : DB) (subId msgId now : Nat) : DB :=
  { db with
    subMessages := updatePair subId msgId
      (fun sm => { sm with lastHeartbeatAt := some now }) db.subMessages }

/-! ## Stale detector (`PgTransit.resetStaleMessages`, src/pg-transit.ts) -/

/-- The `WHERE` clause of the stale sweep:
`status = 'processing' AND last_heartbeat_at <= staleAt`
(a `NULL` heartbeat never satisfies the SQL comparison). -/
def isStale (staleAt : Nat) (sm : SubMsgRow) : Bool :=
  sm.status == .processing &&
    match sm.lastHeartbeatAt with
    | some h => h ≤ staleAt
    | none => false

/-- The `SET` clause of the stale sweep: `status = 'waiting'` when
`stale_count = 0` and `'failed'` otherwise; increment `stale_count`;
clear `last_heartbeat_at`. -/
def staleUpdate (sm : SubMsgRow) : SubMsgRow :=
  { sm with
    status := if sm.staleCount == 0 then .waiting else .failed
    staleCount := sm.staleCount + 1
    lastHeartbeatAt := none }

/--
`PgTransit.resetStaleMessages()`, one transaction with
`staleAt = now - staleMessageTimeoutInMs`:

* update every stale row (see `isStale`, `staleUpdate`), `RETURNING`
  `(message_id, subscription_id)`;
* if no row matched, stop;
* emit one `stale` event per RETURNED row (reopened AND failed alike);
* clear the `processing` flag of every subscription that owns at least
  one affected row.

Returns the new state and the emitted `(messageId, subscriptionId)`
events.
-/
def resetStaleMessages (db : DB) (staleAt : Nat) : DB × List (Nat × Nat) :=
  let affected := db.subMessages.filter (isStale staleAt)
  if affected.isEmpty then (db, [])
  else
    let events := affected.map (fun sm => (sm.messageId, sm.subscriptionId))
    let subMessages := db.subMessages.map (fun sm =>
      if isStale staleAt sm then staleUpdate sm else sm)
    let subscriptions := db.subscriptions.map (fun s =>
      if affected.any (fun sm => sm.subscriptionId == s.id) then
        { s with processing := false }
      else s)
    ({ db with subMessages := subMessages, subscriptions := subscriptions },
      events)

/-! ## Scheduler (`PgTransit.processScheduledMessages`, src/pg-transit.ts)

The cron parser is an external collaborator: `cronNext expr t` is the
expression's next occurrence strictly after the reference time `t`. The
source calls it with the processing time as the reference
(`CronExpressionParser.parse(row.cron).next()` uses the current time).
-/

/-- The `WHERE` clause of the scheduler sweep:
`next_occurrence_at <= now AND (repeats IS NULL OR repeats_made < repeats)`. -/
def schedDue (now : Nat) (r : SchedRow) : Bool :=
  r.nextOccurrenceAt ≤ now &&
    match r.repeats with
    | none => true
    | some k => r.repeatsMade < k

/-- Per-schedule step of the scheduler loop: insert one concrete message
through the writer (inheriting `deliver_at` / `deliver_in_ms` /
`priority` from the schedule snapshot `row`) and bump the schedule row
keyed `(topic_id, name)`:
`next_occurrence_at = cronNext(row.cron, now)`, `repeats_made += 1`. -/
def processOneSchedule (cronNext : String → Nat → Nat) (now : Nat)
    (db : DB) (rowId : SchedRow × Nat) : DB :=
  let row := rowId.1
  let db1 := insertMessages db row.topicId [(rowId.2, row.data)]
    { deliverAt := row.deliverAt, deliverInMs := row.deliverInMs,
      priority := row.priority } now
  { db1 with
    scheduled := db1.scheduled.map (fun r =>
      if r.topicId == row.topicId && r.name == row.name then
        { r with
          nextOccurrenceAt := cronNext row.cron now
          repeatsMade := r.repeatsMade + 1 }
      else r) }

/--
`PgTransit.processScheduledMessages()`: select the due schedule rows
(`FOR UPDATE SKIP LOCKED`), then run `processOneSchedule` for each, one
fresh message id per due row.
-/
def processScheduledMessages (cronNext : String → Nat → Nat) (db : DB)
    (now : Nat) (freshIds : List Nat) : DB :=
  let due := db.scheduled.filter (schedDue now)
  (due.zip freshIds).foldl (processOneSchedule cronNext now) db

/-! ## Retention trimmer (`Topic.trim`, src/topic.ts) -/

/-- Cascade of `DELETE FROM pg_transit_messages`: drop the given message
rows and every subscription-message row referencing one of them. -/
def deleteMessages (db : DB) (gone : MessageRow → Bool) : DB :=
  { db with
    messages := db.messages.filter (fun m => !gone m)
    subMessages := db.subMessages.filter (fun sm =>
      !(db.messages.any (fun m => gone m && m.id == sm.messageId))) }

/-- The earliest-unacknowledged lookup of `Topic.trim`: smallest
`message_id` among the topic's subscriptions' rows with
`status <> 'completed'` (`ORDER BY message_id LIMIT 1`). -/
def earliestUnprocessedId (db : DB) (topicId : Nat) : Option Nat :=
  let subIds := (db.subscriptions.filter (fun s => s.topicId == topicId)).map
    (fun s => s.id)
  let pending := db.subMessages.filter (fun sm =>
    subIds.contains sm.subscriptionId && sm.status != .completed)
  (sortLe (fun a b => a ≤ b) (pending.map (fun sm => sm.messageId))).head?

/-- The `WHERE` clause of `Topic.trim`'s offset lookup: a topic message
below the earliest unacknowledged id (no bound when that id is `none`). -/
def belowBound (topicId : Nat) (bound : Option Nat) (m : MessageRow) : Bool :=
  m.topicId == topicId &&
    match bound with
    | some e => m.id < e
    | none => true

/-- The `max_retention`-th-offset lookup of `Topic.trim`: among the
topic's messages below the earliest unacknowledged id (no bound when
that id is `none`), the id at `OFFSET maxRetention` of the
`ORDER BY id DESC` order. -/
def latestRemovableId (db : DB) (topicId maxRetention : Nat)
    (bound : Option Nat) : Option Nat :=
  let below := db.messages.filter (belowBound topicId bound)
  ((sortLe (fun a b => b ≤ a) (below.map (fun m => m.id))).drop
    maxRetention).head?

/--
`Topic.trim()` with retention `maxRetention` (`none` models the
`Infinity` default-`Option`): a no-op returning 0 on `Infinity`;
otherwise, in one transaction, find the earliest unacknowledged message
id `E` of the topic, the `(maxRetention+1)`-th largest topic-message id
below `E` (below nothing when `E` is absent), and delete every
topic message with id at most it (cascading to subscription-message
rows). Returns the new state and the deleted-row count.
-/
def trimTopic (db : DB) (topicId : Nat) (maxRetention : Option Nat) :
    DB × Nat :=
  match maxRetention with
  | none => (db, 0)
  | some retention =>
    let bound := earliestUnprocessedId db topicId
    match latestRemovableId db topicId retention bound with
    | none => (db, 0)
    | some latest =>
      let gone := fun (m : MessageRow) => m.topicId == topicId && m.id ≤ latest
      (deleteMessages db gone, (db.messages.filter gone).length)

/-- `Topic.schedule(name, config, data, options)`: upsert on
`(topic_id, name)` — a fresh insert takes the built row (with
`repeats_made = 0`); a conflict updates the schedule's definition
columns but leaves `created_at` and `repeats_made` alone. -/
def scheduleUpsert (db : DB) (row : SchedRow) : DB :=
  if db.scheduled.any (fun r => r.topicId == row.topicId && r.name == row.name) then
    { db with
      scheduled := db.scheduled.map (fun r =>
        if r.topicId == row.topicId && r.name == row.name then
          { r with
            data := row.data
            cron := row.cron
            nextOccurrenceAt := row.nextOccurrenceAt
            deliverInMs := row.deliverInMs
            deliverAt := row.deliverAt
            priority := row.priority
            repeats := row.repeats }
        else r) }
  else { db with scheduled := db.scheduled ++ [{ row with repeatsMade := 0 }] }

/-! ## Removals (`Message.remove`, `Subscription.remove`, `Topic.clear`) -/

/-- `Message.remove()`: delete the message keyed `(topic_id, id)`,
cascading to its subscription-message rows. -/
def removeMessage (db : DB) (topicId msgId : Nat) : DB :=
  deleteMessages db (fun m => m.topicId == topicId && m.id == msgId)

/-- `Subscription.remove()`: delete the subscription row, cascading to
its subscription-message rows. -/
def removeSubscription (db : DB) (subId : Nat) : DB :=
  { db with
    subscriptions := db.subscriptions.filter (fun s => !(s.id == subId))
    subMessages := db.subMessages.filter (fun sm =>
      !(sm.subscriptionId == subId)) }

/-- `Topic.clear()`: delete every message and scheduled message of the
topic (messages cascade to subscription-message rows). -/
def clearTopic (db : DB) (topicId : Nat) : DB :=
  let db1 := deleteMessages db (fun m => m.topicId == topicId)
  { db1 with scheduled := db1.scheduled.filter (fun r => !(r.topicId == topicId)) }

/-! ## Generic list lemmas -/

theorem countP_map_ite {α} (l : List α) (c : α → Bool) (u : α → α) (p : α → Bool) :
    (l.map (fun a => if c a then u a else a)).countP p
      = l.countP (fun a => if c a then p (u a) else p a) := by
  induction l with
  | nil => rfl
  | cons a t ih =>
    simp only [List.map_cons, List.countP_cons, ih]
    by_cases h : c a <;> simp [h]

theorem countP_or_le {α} (l : List α) (p q : α → Bool) :
    l.countP (fun a => p a || q a) ≤ l.countP p + l.countP q := by
  induction l with
  | nil => simp
  | cons a t ih =>
    simp only [List.countP_cons]
    by_cases hp : p a <;> by_cases hq : q a <;> simp [hp, hq] <;> omega

theorem countP_split {α} (l : List α) (p q : α → Bool) :
    l.countP p = l.countP (fun a => q a && p a) + l.countP (fun a => !q a && p a) := by
  induction l with
  | nil => rfl
  | cons a t ih =>
    simp only [List.countP_cons]
    by_cases hp : p a <;> by_cases hq : q a <;> simp [hp, hq] <;> omega

/-- Two lists sorted by a relation that is antisymmetric on the elements
of the first are equal as soon as they are permutations of each other. -/
theorem sorted_perm_eq {α} {le : α → α → Bool} :
    ∀ {l₁ l₂ : List α},
      (∀ a ∈ l₁, ∀ b ∈ l₁, le a b → le b a → a = b) →
      l₁.Perm l₂ →
      l₁.Pairwise (fun a b => le a b = true) →
      l₂.Pairwise (fun a b => le a b = true) → l₁ = l₂
  | [], l₂, _, hp, _, _ => List.Perm.nil_eq hp
  | a :: t₁, [], _, hp, _, _ => by
    exact absurd hp.symm (by simp)
  | a :: t₁, b :: t₂, anti, hp, h₁, h₂ => by
    have hab : a = b := by
      by_contra hne
      have hamem : a ∈ b :: t₂ := hp.mem_iff.mp (by simp)
      have hat2 : a ∈ t₂ := by
        rcases List.mem_cons.mp hamem with h | h
        · exact absurd h hne
        · exact h
      have hbmem : b ∈ a :: t₁ := hp.symm.mem_iff.mp (by simp)
      have hbt1 : b ∈ t₁ := by
        rcases List.mem_cons.mp hbmem with h | h
        · exact absurd h.symm hne
        · exact h
      have hba : le b a = true := (List.pairwise_cons.mp h₂).1 a hat2
      have hab2 : le a b = true := (List.pairwise_cons.mp h₁).1 b hbt1
      exact hne (anti a (by simp) b (List.mem_cons_of_mem _ hbt1) hab2 hba)
    subst hab
    have ht : t₁ = t₂ :=
      sorted_perm_eq
        (fun x hx y hy hxy hyx =>
          anti x (List.mem_cons_of_mem _ hx) y (List.mem_cons_of_mem _ hy) hxy hyx)
        hp.cons_inv (List.pairwise_cons.mp h₁).2 (List.pairwise_cons.mp h₂).2
    rw [ht]

/-- Filtering away the members of a disjoint prefix keeps the suffix. -/
theorem filter_append_not_mem_left {α} [DecidableEq α] (t d : List α)
    (hdis : t.Disjoint d) :
    (t ++ d).filter (fun a => !decide (a ∈ t)) = d := by
  rw [List.filter_append]
  have h1 : t.filter (fun a => !decide (a ∈ t)) = [] := by
    rw [List.filter_eq_nil_iff]
    intro a ha
    simp [ha]
  have h2 : d.filter (fun a => !decide (a ∈ t)) = d := by
    rw [List.filter_eq_self]
    intro a ha
    have : a ∉ t := fun hmem => hdis hmem ha
    simp [this]
  rw [h1, h2, List.nil_append]

/-- In a `Nodup` list, filtering away the members of the `take`-prefix
leaves exactly the `drop`-suffix. -/
theorem filter_not_mem_take {α} [DecidableEq α] (l : List α) (k : Nat)
    (hnd : l.Nodup) :
    l.filter (fun a => !decide (a ∈ l.take k)) = l.drop k := by
  have hsplit := List.take_append_drop k l
  have hnd2 : (l.take k ++ l.drop k).Nodup := by rw [hsplit]; exact hnd
  rw [List.nodup_append] at hnd2
  calc l.filter (fun a => !decide (a ∈ l.take k))
      = (l.take k ++ l.drop k).filter (fun a => !decide (a ∈ l.take k)) := by
        rw [hsplit]
    _ = l.drop k := filter_append_not_mem_left _ _ hnd2.2.2

/-- The second components of a zip form a sublist of the second list. -/
theorem map_snd_zip_sublist {α β} :
    ∀ (l₁ : List α) (l₂ : List β), ((l₁.zip l₂).map Prod.snd).Sublist l₂
  | _, [] => by simp
  | [], _ :: _ => by simp
  | _ :: t₁, b :: t₂ => by
    simpa using List.Sublist.cons₂ b (map_snd_zip_sublist t₁ t₂)

/-! ## The transition system

One `Op` per state-mutating entry point of the library; `applyOp` runs
the corresponding transaction (a crashed transaction — thrown error —
rolls back, i.e. leaves the state unchanged).
-/

/-- Lookup of one `(subscription_id, message_id)` row. -/
def rowPair (db : DB) (subId msgId : Nat) : Option SubMsgRow :=
  db.subMessages.find? (fun sm =>
    sm.subscriptionId == subId && sm.messageId == msgId)

/-- The state-mutating operations of the library. `fail` and `complete`
are issued by a consumer for a message object it obtained from an
earlier reservation. -/
inductive Op
  | send (topicId : Nat) (batch : List (Nat × String)) (o : MessageOptions) (now : Nat)
  | subscribe (topicId : Nat) (name : String) (freshId : Nat) (o : SubscriptionOptions)
  | reserve (subId count now : Nat)
  | complete (subId msgId : Nat)
  | fail (subId msgId now : Nat) (errStack : Option String)
  | retry (subId msgId : Nat)
  | heartbeat (subId msgId now : Nat)
  | resetStale (staleAt : Nat)
  | processScheduled (cronNext : String → Nat → Nat) (now : Nat) (freshIds : List Nat)
  | trim (topicId : Nat) (maxRetention : Option Nat)
  | removeMsg (topicId msgId : Nat)
  | removeSub (subId : Nat)
  | clear (topicId : Nat)
  | schedule (row : SchedRow)

/-- Run one operation. A consumer's `fail` uses its object's in-memory
`attempts`, which equals the row's current value whenever nothing
touched the row since its reservation; the step reads it off the row. -/
def applyOp (db : DB) : Op → DB
  | .send tid batch o now => insertMessages db tid batch o now
  | .subscribe tid name fid o => (subscribeInit db tid name fid o).1
  | .reserve sid c now =>
    match getNextMessages db sid c now with
    | some r => r.2
    | none => db
  | .complete sid mid => completeMessage db sid mid
  | .fail sid mid now err =>
    failMessage db sid mid (((rowPair db sid mid).map SubMsgRow.attempts).getD 0) now err
  | .retry sid mid => retryMessage db sid mid
  | .heartbeat sid mid now => heartbeatMessage db sid mid now
  | .resetStale staleAt => (resetStaleMessages db staleAt).1
  | .processScheduled cronNext now ids => processScheduledMessages cronNext db now ids
  | .trim tid mr => (trimTopic db tid mr).1
  | .removeMsg tid mid => removeMessage db tid mid
  | .removeSub sid => removeSubscription db sid
  | .clear tid => clearTopic db tid
  | .schedule row => scheduleUpsert db row

/-- A message id that exists nowhere in the database. -/
def freshMsgId (db : DB) (i : Nat) : Prop :=
  (∀ m ∈ db.messages, m.id ≠ i) ∧ ∀ sm ∈ db.subMessages, sm.messageId ≠ i

instance (db : DB) (i : Nat) : Decidable (freshMsgId db i) := by
  unfold freshMsgId
  infer_instance

/-- Environment-supplied facts about an operation's inputs: v7 ids are
globally fresh, `count` is positive (`getNextMessages` throws
otherwise), and `maxAttempts` respects its documented lower bound
(`Must be greater than or equal to 1`, schema default 1). -/
def opInputsOk (db : DB) : Op → Prop
  | .send _ batch _ _ =>
    (batch.map Prod.fst).Nodup ∧ ∀ i ∈ batch.map Prod.fst, freshMsgId db i
  | .subscribe _ _ fid o =>
    (∀ s ∈ db.subscriptions, s.id ≠ fid) ∧
      (∀ sm ∈ db.subMessages, sm.subscriptionId ≠ fid) ∧ 1 ≤ o.maxAttempts
  | .reserve _ c _ => 1 ≤ c
  | .processScheduled _ _ ids => ids.Nodup ∧ ∀ i ∈ ids, freshMsgId db i
  | _ => True

/-- A consumer finalizes only rows it reserved and still holds: the
protocol condition that `complete` / `fail` hit a row currently in
`processing` status (live handlers heartbeat, so a stale reset implies
the handler is gone and never finalizes). -/
def opFinalizesLive (db : DB) : Op → Prop
  | .complete sid mid =>
    ∃ sm ∈ db.subMessages, sm.subscriptionId = sid ∧ sm.messageId = mid ∧
      sm.status = .processing
  | .fail sid mid _ _ =>
    ∃ sm ∈ db.subMessages, sm.subscriptionId = sid ∧ sm.messageId = mid ∧
      sm.status = .processing
  | _ => True

/-- The liberal call-site condition: `complete` / `fail` hit a row that
was reserved at least once (its handler may have outlived a stale
reset of the row). -/
def opFinalizesSeen (db : DB) : Op → Prop
  | .complete sid mid =>
    ∃ sm ∈ db.subMessages, sm.subscriptionId = sid ∧ sm.messageId = mid ∧
      1 ≤ sm.attempts
  | .fail sid mid _ _ =>
    ∃ sm ∈ db.subMessages, sm.subscriptionId = sid ∧ sm.messageId = mid ∧
      1 ≤ sm.attempts
  | _ => True

/-- Rules out the two requeue paths (stale reopening and manual retry). -/
def opNoRequeue : Op → Prop
  | .resetStale _ => False
  | .retry _ _ => False
  | _ => True

/-- States reachable from the empty database by operations satisfying
the given per-step precondition. -/
inductive Reach (pre : DB → Op → Prop) : DB → Prop
  | init : Reach pre DB.empty
  | step {db : DB} (op : Op) : Reach pre db → pre db op → Reach pre (applyOp db op)

/-! ## Structural well-formedness -/

/-- Structural invariant maintained by every run: distinct subscription
ids, distinct message ids, and one subscription-message row per
`(subscription_id, message_id)` primary key. -/
def WF (db : DB) : Prop :=
  (db.subscriptions.map SubscriptionRow.id).Nodup ∧
    (db.messages.map MessageRow.id).Nodup ∧
    (db.subMessages.map (fun sm => (sm.subscriptionId, sm.messageId))).Nodup

instance (db : DB) : Decidable (WF db) := by
  unfold WF
  infer_instance

/-- Number of `processing` rows of one subscription. -/
def procCount (db : DB) (subId : Nat) : Nat :=
  db.subMessages.countP (fun sm =>
    sm.subscriptionId == subId && sm.status == .processing)

/-- The sequential-exclusivity invariant: a sequential subscription has
at most one `processing` row, and none at all while its gate is down. -/
def gateInv (db : DB) : Prop :=
  ∀ sub ∈ db.subscriptions, sub.consumptionMode = .sequential →
    procCount db sub.id ≤ if sub.processing then 1 else 0

/-- The retry-accounting invariant: `attempts` never exceeds the
subscription's `max_attempts`, with room left while a row is `waiting`;
subscriptions respect the documented `max_attempts >= 1`. -/
def attemptsInv (db : DB) : Prop :=
  (∀ sub ∈ db.subscriptions, 1 ≤ sub.maxAttempts) ∧
    ∀ sm ∈ db.subMessages, ∀ sub ∈ db.subscriptions,
      sub.id = sm.subscriptionId →
        sm.attempts ≤ sub.maxAttempts ∧
          (sm.status = .waiting → sm.attempts < sub.maxAttempts)

/-! ## Counting lemmas for the row updates -/

theorem countP_congr_mem {α} {p q : α → Bool} :
    ∀ {l : List α}, (∀ a ∈ l, p a = q a) → l.countP p = l.countP q
  | [], _ => rfl
  | a :: t, h => by
    simp only [List.countP_cons, h a (by simp),
      countP_congr_mem (fun x hx => h x (List.mem_cons_of_mem _ hx))]

/-- Updating rows never raises a count whose predicate the update
falsifies. -/
theorem countP_mapIte_le {α} (l : List α) (c : α → Bool) (u : α → α)
    (p : α → Bool) (h : ∀ a ∈ l, c a → p (u a) = false) :
    (l.map (fun a => if c a then u a else a)).countP p ≤ l.countP p := by
  rw [countP_map_ite]
  apply List.countP_mono_left
  intro a ha hpa
  by_cases hc : c a
  · rw [if_pos hc] at hpa
    rw [h a ha hc] at hpa
    exact absurd hpa (by simp)
  · rwa [if_neg hc] at hpa

/-- Updating rows and falsifying the predicate on at least one row that
satisfied it strictly decreases the count. -/
theorem countP_mapIte_lt {α} (l : List α) (c : α → Bool) (u : α → α)
    (p : α → Bool) (h : ∀ a ∈ l, c a → p (u a) = false)
    (hex : ∃ a ∈ l, c a ∧ p a) :
    (l.map (fun a => if c a then u a else a)).countP p + 1 ≤ l.countP p := by
  rw [countP_map_ite]
  have heq : l.countP (fun a => if c a then p (u a) else p a)
      = l.countP (fun a => !c a && p a) := by
    apply countP_congr_mem
    intro a ha
    by_cases hc : c a
    · simp [hc, h a ha hc]
    · simp [hc]
  rw [heq, countP_split l p c]
  have hpos : 0 < l.countP (fun a => c a && p a) := by
    rw [List.countP_pos_iff]
    obtain ⟨a, ha, hc, hp⟩ := hex
    exact ⟨a, ha, by simp [hc, hp]⟩
  omega

/-- Updating rows raises a count by at most the number of updated rows. -/
theorem countP_mapIte_le_add {α} (l : List α) (c : α → Bool) (u : α → α)
    (p : α → Bool) :
    (l.map (fun a => if c a then u a else a)).countP p
      ≤ l.countP p + l.countP c := by
  rw [countP_map_ite]
  calc l.countP (fun a => if c a then p (u a) else p a)
      ≤ l.countP (fun a => c a || p a) := by
        apply List.countP_mono_left
        intro a _ hpa
        by_cases hc : c a <;> simp_all
    _ ≤ l.countP c + l.countP p := countP_or_le l c p
    _ = l.countP p + l.countP c := Nat.add_comm _ _

/-! ## Primary-key uniqueness consequences -/

/-- Row pair key. -/
def pairKey (sm : SubMsgRow) : Nat × Nat := (sm.subscriptionId, sm.messageId)

theorem pair_unique {db : DB} (h : WF db) {a b : SubMsgRow}
    (ha : a ∈ db.subMessages) (hb : b ∈ db.subMessages)
    (hk : a.subscriptionId = b.subscriptionId ∧ a.messageId = b.messageId) :
    a = b := by
  have := h.2.2
  exact List.inj_on_of_nodup_map this ha hb (by simp [hk.1, hk.2])

/-- A list with `Nodup` keys has at most one element per key. -/
theorem countP_key_le_one {α β} [DecidableEq β] (f : α → β) :
    ∀ {l : List α}, (l.map f).Nodup → ∀ k : β,
      l.countP (fun a => decide (f a = k)) ≤ 1
  | [], _, _ => by simp
  | a :: t, h, k => by
    rw [List.map_cons, List.nodup_cons] at h
    rw [List.countP_cons]
    by_cases hk : f a = k
    · have hz : t.countP (fun x => decide (f x = k)) = 0 := by
        rw [List.countP_eq_zero]
        intro b hb
        simp only [decide_eq_true_eq]
        intro hbk
        exact h.1 (hk ▸ hbk ▸ List.mem_map_of_mem f hb)
      simp [hk, hz]
    · have hrec := countP_key_le_one f h.2 k
      have hz : (if decide (f a = k) = true then 1 else 0) = 0 := by simp [hk]
      omega

/-- At most one row carries a given primary key. -/
theorem countP_pair_le_one {db : DB} (h : WF db) (sid mid : Nat) :
    db.subMessages.countP (fun sm =>
      sm.subscriptionId == sid && sm.messageId == mid) ≤ 1 := by
  have hn := h.2.2
  have heq : db.subMessages.countP (fun sm =>
      sm.subscriptionId == sid && sm.messageId == mid)
      = db.subMessages.countP (fun sm =>
          decide ((fun x => (x.subscriptionId, x.messageId)) sm = (sid, mid))) := by
    apply countP_congr_mem
    intro a _
    by_cases h1 : a.subscriptionId = sid <;> by_cases h2 : a.messageId = mid <;>
      simp [h1, h2, Prod.ext_iff]
  rw [heq]
  exact countP_key_le_one _ hn (sid, mid)

/-- At most `ids.length` rows of one subscription carry a message id
from `ids`. -/
theorem countP_pair_mem_le {db : DB} (h : WF db) (sid : Nat) :
    ∀ ids : List Nat,
      db.subMessages.countP (fun sm =>
        sm.subscriptionId == sid && ids.contains sm.messageId) ≤ ids.length
  | [] => by simp [List.countP_eq_zero]
  | i :: ids => by
    have hsplit : db.subMessages.countP (fun sm =>
        sm.subscriptionId == sid && (i :: ids).contains sm.messageId)
        ≤ db.subMessages.countP (fun sm =>
            sm.subscriptionId == sid && sm.messageId == i)
          + db.subMessages.countP (fun sm =>
              sm.subscriptionId == sid && ids.contains sm.messageId) := by
      calc db.subMessages.countP (fun sm =>
          sm.subscriptionId == sid && (i :: ids).contains sm.messageId)
          ≤ db.subMessages.countP (fun sm =>
              (sm.subscriptionId == sid && sm.messageId == i)
                || (sm.subscriptionId == sid && ids.contains sm.messageId)) := by
            apply List.countP_mono_left
            intro a _ hp
            simp only [Bool.and_eq_true, List.contains_cons, Bool.or_eq_true,
              beq_iff_eq] at hp ⊢
            tauto
        _ ≤ _ := countP_or_le _ _ _
    calc _ ≤ _ := hsplit
      _ ≤ 1 + ids.length := by
        have := countP_pair_le_one h sid i
        have := countP_pair_mem_le h sid ids
        omega
      _ = (i :: ids).length := by simp [Nat.add_comm]

/-! ## Facts about the reservation transaction -/

theorem mem_sortedCandidates {db : DB} {sid now : Nat} {a : SubMsgRow} :
    a ∈ sortedCandidates db sid now ↔
      a ∈ db.subMessages ∧ isCandidate sid now a := by
  unfold sortedCandidates candidateRows
  rw [(sortLe_perm _ _).mem_iff, List.mem_filter]

theorem find?_subscription {db : DB} {sid : Nat} {sub : SubscriptionRow}
    (h : db.subscriptions.find? (fun s => s.id == sid) = some sub) :
    sub ∈ db.subscriptions ∧ sub.id = sid := by
  refine ⟨List.mem_of_find?_eq_some h, ?_⟩
  have := List.find?_some h
  simpa using this

/-- With distinct subscription ids, any subscription sharing the id of
the `find?` result is the result itself. -/
theorem find?_subscription_unique {db : DB} (hwf : WF db) {sid : Nat}
    {sub s : SubscriptionRow}
    (h : db.subscriptions.find? (fun s => s.id == sid) = some sub)
    (hs : s ∈ db.subscriptions) (hid : s.id = sid) : s = sub := by
  obtain ⟨hmem, hsubid⟩ := find?_subscription h
  exact List.inj_on_of_nodup_map hwf.1 hs hmem (by rw [hid, hsubid])

/-- Characterization of a successful `getNextMessages` call: either the
empty no-write result, or the batch is a nonempty limit-prefix of the
sorted candidates, the sequential gate was down, and the new state is
`reserveState`. -/
theorem getNextMessages_spec {db db2 : DB} {sid c now : Nat}
    {ret : List SubMsgRow}
    (h : getNextMessages db sid c now = some (ret, db2)) :
    (ret = [] ∧ db2 = db) ∨
      ∃ sub,
        db.subscriptions.find? (fun s => s.id == sid) = some sub ∧
        (sub.consumptionMode = .sequential → sub.processing = false) ∧
        ∃ batch,
          batch = (sortedCandidates db sid now).take
            (if sub.consumptionMode == .sequential then 1 else c) ∧
          batch ≠ [] ∧
          ret = batch.map (reserveUpdate now) ∧
          db2 = reserveState db sid now (sub.consumptionMode == .sequential)
            (batch.map (fun sm => sm.messageId)) := by
  unfold getNextMessages at h
  by_cases hc : c = 0
  · simp [hc] at h
  rw [if_neg hc] at h
  cases hfind : db.subscriptions.find? (fun s => s.id == sid) with
  | none => rw [hfind] at h; exact absurd h (by simp)
  | some sub =>
  rw [hfind] at h
  dsimp only at h
  by_cases hseq : (sub.consumptionMode == .sequential && sub.processing) = true
  · rw [if_pos hseq, Option.some_inj, Prod.mk.injEq] at h
    exact Or.inl ⟨h.1.symm, h.2.symm⟩
  rw [if_neg hseq] at h
  by_cases hempty : ((sortedCandidates db sid now).take
      (if sub.consumptionMode == .sequential then 1 else c)).isEmpty = true
  · simp only [hempty, if_pos, Option.some_inj, Prod.mk.injEq] at h
    exact Or.inl ⟨h.1.symm, h.2.symm⟩
  · simp only [hempty, Bool.false_eq_true, if_neg, reduceIte, Option.some_inj,
      Prod.mk.injEq] at h
    right
    refine ⟨sub, rfl, ?_, _, rfl, ?_, ?_, ?_⟩
    · intro hmode
      cases hp : sub.processing
      · rfl
      · exact absurd (by simp [hmode, hp]) hseq
    · intro hnil
      rw [hnil] at hempty
      exact hempty rfl
    · exact h.1.symm
    · exact h.2.symm

/-! ## Preservation helpers -/

theorem contains_iff_mem {α} [BEq α] [LawfulBEq α] {l : List α} {a : α} :
    l.contains a = true ↔ a ∈ l := by
  simp

theorem map_field_mapIte {α β} (l : List α) (c : α → Bool) (u : α → α)
    (f : α → β) (h : ∀ a, f (u a) = f a) :
    (l.map (fun a => if c a then u a else a)).map f = l.map f := by
  rw [List.map_map]
  apply List.map_congr_left
  intro a _
  by_cases hc : c a <;> simp [hc, h]

/-- Membership in a conditional row update. -/
theorem mem_mapIte {α} {l : List α} {c : α → Bool} {u : α → α} {a2 : α}
    (h : a2 ∈ l.map (fun a => if c a then u a else a)) :
    ∃ a1 ∈ l, (c a1 = true ∧ a2 = u a1) ∨ (c a1 = false ∧ a2 = a1) := by
  obtain ⟨a1, hmem, heq⟩ := List.mem_map.mp h
  refine ⟨a1, hmem, ?_⟩
  by_cases hc : c a1
  · exact Or.inl ⟨hc, by rw [← heq, if_pos hc]⟩
  · exact Or.inr ⟨by simpa using hc, by rw [← heq, if_neg hc]⟩

theorem mem_mapIte_of_mem {α} {l : List α} (c : α → Bool) (u : α → α)
    {a : α} (h : a ∈ l) :
    (if c a then u a else a) ∈ l.map (fun a => if c a then u a else a) :=
  List.mem_map_of_mem _ h

/-- A row matched by the reservation's UPDATE `WHERE` clause is one of
the batch rows (primary-key uniqueness), hence a waiting candidate. -/
theorem update_hits_batch {db : DB} (hwf : WF db) {sid now limit : Nat}
    {a : SubMsgRow} (ha : a ∈ db.subMessages)
    (hc : (a.subscriptionId == sid &&
      (((sortedCandidates db sid now).take limit).map
        (fun sm => sm.messageId)).contains a.messageId) = true) :
    a ∈ (sortedCandidates db sid now).take limit ∧ isCandidate sid now a := by
  simp only [Bool.and_eq_true, beq_iff_eq, contains_iff_mem, List.mem_map] at hc
  obtain ⟨hsid, b, hb, hbid⟩ := hc
  have hbmem := List.mem_of_mem_take hb
  have hbcand := mem_sortedCandidates.mp hbmem
  have hbsid : b.subscriptionId = sid := by
    have := hbcand.2
    simp only [isCandidate, Bool.and_eq_true, beq_iff_eq] at this
    exact this.1.1
  have : a = b := pair_unique hwf ha hbcand.1 ⟨by rw [hsid, hbsid], hbid.symm⟩
  subst this
  exact ⟨hb, hbcand.2⟩

/-- Batch size is bounded by the limit. -/
theorem batch_length_le (db : DB) (sid now limit : Nat) :
    ((sortedCandidates db sid now).take limit).length ≤ limit :=
  List.length_take_le _ _

/-! ## Preservation of `WF` -/

/-- The pairs of a (subscriptions × fresh ids) product are distinct. -/
theorem nodup_pair_product {β} :
    ∀ {subs : List Nat} {ids : List β}, subs.Nodup → ids.Nodup →
      (subs.flatMap (fun s => ids.map (fun i => (s, i)))).Nodup
  | [], _, _, _ => by simp
  | s :: subs, ids, h1, h2 => by
    rw [List.nodup_cons] at h1
    rw [List.flatMap_cons, List.nodup_append]
    refine ⟨h2.map (fun i j hij => (Prod.mk.injEq _ _ _ _).mp hij |>.2),
      nodup_pair_product h1.2 h2, ?_⟩
    intro x hx hy
    obtain ⟨i, _, hxi⟩ := List.mem_map.mp hx
    rw [List.mem_flatMap] at hy
    obtain ⟨s2, hs2, hxs2⟩ := hy
    obtain ⟨j, _, hxj⟩ := List.mem_map.mp hxs2
    apply h1.1
    have : s2 = s := by
      rw [← hxi] at hxj
      exact ((Prod.mk.injEq _ _ _ _).mp hxj).1
    rwa [← this]

theorem WF_insertMessages {db : DB} (hwf : WF db) {tid : Nat}
    {batch : List (Nat × String)} {o : MessageOptions} {now : Nat}
    (hids : (batch.map Prod.fst).Nodup)
    (hfresh : ∀ i ∈ batch.map Prod.fst, freshMsgId db i) :
    WF (insertMessages db tid batch o now) := by
  obtain ⟨h1, h2, h3⟩ := hwf
  unfold insertMessages
  refine ⟨h1, ?_, ?_⟩
  · simp only [List.map_append]
    rw [List.nodup_append]
    refine ⟨h2, ?_, ?_⟩
    · rw [List.map_map]
      simpa [Function.comp, mkMessageRow] using hids
    · intro x hx hy
      simp only [List.map_map, List.mem_map, Function.comp] at hy
      obtain ⟨b, hb, hbx⟩ := hy
      obtain ⟨m, hm, hmx⟩ := List.mem_map.mp hx
      have := (hfresh b.1 (List.mem_map_of_mem _ hb)).1 m hm
      exact this (by rw [hmx, ← hbx]; rfl)
  · simp only [List.map_append]
    rw [List.nodup_append]
    refine ⟨h3, ?_, ?_⟩
    · rw [List.map_flatMap]
      have hrw : (fun (s : SubscriptionRow) =>
          List.map (fun sm => (sm.subscriptionId, sm.messageId))
            (batch.map (fun b => mkFanoutRow (effectiveDeliverAt now o) s.id b.1)))
          = fun s => (batch.map Prod.fst).map (fun i => (s.id, i)) := by
        funext s
        rw [List.map_map, List.map_map]
        rfl
      rw [hrw]
      have : (db.subscriptions.filter (fun s => s.topicId == tid)).flatMap
            (fun s => (batch.map Prod.fst).map (fun i => (s.id, i)))
          = ((db.subscriptions.filter (fun s => s.topicId == tid)).map
              SubscriptionRow.id).flatMap
            (fun s => (batch.map Prod.fst).map (fun i => (s, i))) := by
        rw [List.flatMap_map]
      rw [this]
      apply nodup_pair_product
      · exact List.Sublist.nodup
          (List.Sublist.map SubscriptionRow.id (List.filter_sublist _)) h1
      · exact hids
    · intro x hx hy
      rw [List.map_flatMap, List.mem_flatMap] at hy
      obtain ⟨s, _, hxs⟩ := hy
      rw [List.map_map, List.mem_map] at hxs
      obtain ⟨b, hb, hxb⟩ := hxs
      obtain ⟨sm, hsm, hsmx⟩ := List.mem_map.mp hx
      have hbfresh := (hfresh b.1 (List.mem_map_of_mem _ hb)).2 sm hsm
      apply hbfresh
      have : x.2 = sm.messageId := by rw [← hsmx]
      rw [← hxb] at this
      exact this.symm

theorem WF_subscribeInit {db : DB} (hwf : WF db) {tid : Nat} {name : String}
    {fid : Nat} {o : SubscriptionOptions}
    (hfresh : ∀ s ∈ db.subscriptions, s.id ≠ fid)
    (hrows : ∀ sm ∈ db.subMessages, sm.subscriptionId ≠ fid) :
    WF (subscribeInit db tid name fid o).1 := by
  obtain ⟨h1, h2, h3⟩ := hwf
  unfold subscribeInit
  by_cases hconf : db.subscriptions.any
      (fun s => s.topicId == tid && s.name == name) = true
  · rw [if_pos hconf]
    cases db.subscriptions.find? (fun s => s.name == name) with
    | some ex => exact ⟨h1, h2, h3⟩
    | none => exact ⟨h1, h2, h3⟩
  · rw [if_neg hconf]
    refine ⟨?_, h2, ?_⟩
    · simp only [List.map_append, List.map_cons, List.map_nil]
      rw [List.nodup_append]
      refine ⟨h1, by simp, ?_⟩
      intro x hx hy
      obtain ⟨s, hs, hsx⟩ := List.mem_map.mp hx
      simp only [List.mem_cons, List.not_mem_nil, or_false] at hy
      exact hfresh s hs (by rw [hsx, hy])
    · by_cases hpos : (o.startPosition == StartPosition.earliest) = true
      · rw [if_pos hpos]
        simp only [List.map_append]
        rw [List.nodup_append]
        refine ⟨h3, ?_, ?_⟩
        · rw [List.map_map]
          have hrw : (db.messages.filter (fun m => m.topicId == tid)).map
                ((fun sm => (sm.subscriptionId, sm.messageId)) ∘
                  (fun m => mkBackfillRow fid m.id))
              = ((db.messages.filter (fun m => m.topicId == tid)).map
                  MessageRow.id).map (fun i => (fid, i)) := by
            rw [List.map_map]
            rfl
          rw [hrw]
          refine List.Nodup.map (fun i j hij => ?_) ?_
          · exact ((Prod.mk.injEq _ _ _ _).mp hij).2
          · exact List.Sublist.nodup
              (List.Sublist.map MessageRow.id (List.filter_sublist _)) h2
        · intro x hx hy
          obtain ⟨sm, hsm, hsmx⟩ := List.mem_map.mp hx
          rw [List.map_map, List.mem_map] at hy
          obtain ⟨m, _, hmx⟩ := hy
          apply hrows sm hsm
          have : x.1 = fid := by rw [← hmx]; rfl
          rw [← hsmx] at this
          exact this
      · rw [if_neg hpos]
        simpa using h3

/-- Pair keys survive any `updatePair`-style rewrite that keeps the key
columns. -/
theorem nodup_pairs_mapIte {l : List SubMsgRow}
    (h : (l.map (fun sm => (sm.subscriptionId, sm.messageId))).Nodup)
    (c : SubMsgRow → Bool) (u : SubMsgRow → SubMsgRow)
    (hu : ∀ sm, (u sm).subscriptionId = sm.subscriptionId ∧
      (u sm).messageId = sm.messageId) :
    ((l.map (fun sm => if c sm then u sm else sm)).map
      (fun sm => (sm.subscriptionId, sm.messageId))).Nodup := by
  rw [map_field_mapIte l c u _ (fun a => by simp [(hu a).1, (hu a).2])]
  exact h

theorem nodup_ids_mapIte {l : List SubscriptionRow}
    (h : (l.map SubscriptionRow.id).Nodup)
    (c : SubscriptionRow → Bool) (u : SubscriptionRow → SubscriptionRow)
    (hu : ∀ s, (u s).id = s.id) :
    ((l.map (fun s => if c s then u s else s)).map SubscriptionRow.id).Nodup := by
  rw [map_field_mapIte l c u _ hu]
  exact h

theorem WF_filter_rows {db : DB} (hwf : WF db) (p : MessageRow → Bool)
    (q : SubMsgRow → Bool) (r : SubscriptionRow → Bool) :
    WF { db with
      messages := db.messages.filter p
      subMessages := db.subMessages.filter q
      subscriptions := db.subscriptions.filter r } := by
  obtain ⟨h1, h2, h3⟩ := hwf
  exact ⟨List.Sublist.nodup (List.Sublist.map _ (List.filter_sublist _)) h1,
    List.Sublist.nodup (List.Sublist.map _ (List.filter_sublist _)) h2,
    List.Sublist.nodup (List.Sublist.map _ (List.filter_sublist _)) h3⟩

theorem WF_scheduled_only {db : DB} (hwf : WF db) (sch : List SchedRow) :
    WF { db with scheduled := sch } := hwf

theorem WF_updatePair {db : DB} (hwf : WF db) (sid mid : Nat)
    (u : SubMsgRow → SubMsgRow)
    (hu : ∀ sm, (u sm).subscriptionId = sm.subscriptionId ∧
      (u sm).messageId = sm.messageId) :
    WF { db with subMessages := updatePair sid mid u db.subMessages } :=
  ⟨hwf.1, hwf.2.1, nodup_pairs_mapIte hwf.2.2 _ u hu⟩

theorem WF_clearGate {db : DB} (hwf : WF db) (sid : Nat) :
    WF { db with subscriptions := clearGate sid db.subscriptions } :=
  ⟨nodup_ids_mapIte hwf.1 _ _ (fun _ => rfl), hwf.2.1, hwf.2.2⟩

theorem WF_deleteMessages {db : DB} (hwf : WF db) (gone : MessageRow → Bool) :
    WF (deleteMessages db gone) :=
  ⟨hwf.1, List.Sublist.nodup (List.Sublist.map _ (List.filter_sublist _)) hwf.2.1,
    List.Sublist.nodup (List.Sublist.map _ (List.filter_sublist _)) hwf.2.2⟩

theorem WF_completeMessage {db : DB} (hwf : WF db) (sid mid : Nat) :
    WF (completeMessage db sid mid) := by
  unfold completeMessage
  cases db.subscriptions.find? (fun s => s.id == sid) with
  | none => exact hwf
  | some sub =>
    by_cases hm : (sub.consumptionMode == ConsumptionMode.sequential) = true
    · simp only [hm, if_pos]
      exact ⟨nodup_ids_mapIte hwf.1 _ _ (fun _ => rfl), hwf.2.1,
        nodup_pairs_mapIte hwf.2.2 _ _ (fun sm => ⟨rfl, rfl⟩)⟩
    · simp only [hm, Bool.false_eq_true, if_neg, reduceIte]
      exact ⟨hwf.1, hwf.2.1, nodup_pairs_mapIte hwf.2.2 _ _ (fun sm => ⟨rfl, rfl⟩)⟩

theorem WF_failMessage {db : DB} (hwf : WF db) (sid mid att now : Nat)
    (err : Option String) :
    WF (failMessage db sid mid att now err) := by
  unfold failMessage
  cases db.subscriptions.find? (fun s => s.id == sid) with
  | none => exact hwf
  | some sub =>
    by_cases hm : (sub.consumptionMode == ConsumptionMode.sequential) = true
    · simp only [hm, if_pos]
      exact ⟨nodup_ids_mapIte hwf.1 _ _ (fun _ => rfl), hwf.2.1,
        nodup_pairs_mapIte hwf.2.2 _ _ (fun sm => ⟨rfl, rfl⟩)⟩
    · simp only [hm, Bool.false_eq_true, if_neg, reduceIte]
      exact ⟨hwf.1, hwf.2.1, nodup_pairs_mapIte hwf.2.2 _ _ (fun sm => ⟨rfl, rfl⟩)⟩

theorem WF_reserveState {db : DB} (hwf : WF db) (sid now : Nat) (seq : Bool)
    (ids : List Nat) :
    WF (reserveState db sid now seq ids) := by
  cases seq with
  | false =>
    unfold reserveState
    rw [if_neg (by simp)]
    exact ⟨hwf.1, hwf.2.1, nodup_pairs_mapIte hwf.2.2 _ _ (fun sm => ⟨rfl, rfl⟩)⟩
  | true =>
    unfold reserveState
    rw [if_pos rfl]
    exact ⟨nodup_ids_mapIte hwf.1 _ _ (fun _ => rfl), hwf.2.1,
      nodup_pairs_mapIte hwf.2.2 _ _ (fun sm => ⟨rfl, rfl⟩)⟩

theorem WF_resetStale {db : DB} (hwf : WF db) (staleAt : Nat) :
    WF (resetStaleMessages db staleAt).1 := by
  unfold resetStaleMessages
  by_cases he : (db.subMessages.filter (isStale staleAt)).isEmpty = true
  · simpa [he] using hwf
  · simp only [he, Bool.false_eq_true, if_neg, reduceIte]
    exact ⟨nodup_ids_mapIte hwf.1 _ _ (fun _ => rfl), hwf.2.1,
      nodup_pairs_mapIte hwf.2.2 _ _ (fun sm => ⟨rfl, rfl⟩)⟩

/-- Freshness survives an insert of other ids. -/
theorem freshMsgId_insertMessages {db : DB} {j : Nat}
    (hj : freshMsgId db j) {tid : Nat} {batch : List (Nat × String)}
    {o : MessageOptions} {now : Nat}
    (hne : ∀ i ∈ batch.map Prod.fst, i ≠ j) :
    freshMsgId (insertMessages db tid batch o now) j := by
  unfold insertMessages
  constructor
  · intro m hm
    rw [List.mem_append] at hm
    rcases hm with hm | hm
    · exact hj.1 m hm
    · obtain ⟨b, hb, hbm⟩ := List.mem_map.mp hm
      have := hne b.1 (List.mem_map_of_mem _ hb)
      rw [← hbm]
      exact this
  · intro sm hsm
    rw [List.mem_append] at hsm
    rcases hsm with hsm | hsm
    · exact hj.2 sm hsm
    · rw [List.mem_flatMap] at hsm
      obtain ⟨s, _, hsms⟩ := hsm
      obtain ⟨b, hb, hbm⟩ := List.mem_map.mp hsms
      have := hne b.1 (List.mem_map_of_mem _ hb)
      rw [← hbm]
      exact this

theorem WF_processOneSchedule {db : DB} (hwf : WF db)
    (cronNext : String → Nat → Nat) (now : Nat) (p : SchedRow × Nat)
    (hfresh : freshMsgId db p.2) :
    WF (processOneSchedule cronNext now db p) := by
  unfold processOneSchedule
  exact WF_scheduled_only
    (WF_insertMessages hwf (by simp) (by simpa using hfresh)) _

theorem freshMsgId_processOneSchedule {db : DB} {j : Nat}
    (hj : freshMsgId db j) (cronNext : String → Nat → Nat) (now : Nat)
    (p : SchedRow × Nat) (hne : p.2 ≠ j) :
    freshMsgId (processOneSchedule cronNext now db p) j := by
  have h := @freshMsgId_insertMessages db j hj p.1.topicId [(p.2, p.1.data)]
    { deliverAt := p.1.deliverAt, deliverInMs := p.1.deliverInMs,
      priority := p.1.priority } now (by simpa using hne)
  exact ⟨h.1, h.2⟩

theorem WF_processScheduled_go (cronNext : String → Nat → Nat) (now : Nat) :
    ∀ (pending : List (SchedRow × Nat)) (db : DB), WF db →
      (pending.map Prod.snd).Nodup →
      (∀ i ∈ pending.map Prod.snd, freshMsgId db i) →
      WF (pending.foldl (processOneSchedule cronNext now) db)
  | [], db, hwf, _, _ => hwf
  | p :: rest, db, hwf, hnd, hfresh => by
    rw [List.foldl_cons]
    rw [List.map_cons, List.nodup_cons] at hnd
    apply WF_processScheduled_go cronNext now rest _
      (WF_processOneSchedule hwf cronNext now p
        (hfresh p.2 (by simp)))
      hnd.2
    intro i hi
    refine freshMsgId_processOneSchedule
      (hfresh i (List.mem_cons_of_mem _ hi)) cronNext now p ?_
    intro hpe
    exact hnd.1 (hpe ▸ hi)

theorem WF_processScheduled {db : DB} (hwf : WF db)
    (cronNext : String → Nat → Nat) (now : Nat) {ids : List Nat}
    (hnd : ids.Nodup) (hfresh : ∀ i ∈ ids, freshMsgId db i) :
    WF (processScheduledMessages cronNext db now ids) := by
  unfold processScheduledMessages
  apply WF_processScheduled_go cronNext now _ _ hwf
  · exact List.Sublist.nodup (map_snd_zip_sublist _ _) hnd
  · intro i hi
    exact hfresh i ((map_snd_zip_sublist _ _).mem hi)

/-- `WF` holds in every reachable state. -/
theorem WF_applyOp {db : DB} (hwf : WF db) (op : Op)
    (hin : opInputsOk db op) : WF (applyOp db op) := by
  cases op with
  | send tid batch o now => exact WF_insertMessages hwf hin.1 hin.2
  | subscribe tid name fid o => exact WF_subscribeInit hwf hin.1 hin.2.1
  | reserve sid c now =>
    cases hres : getNextMessages db sid c now with
    | none =>
      show WF (match getNextMessages db sid c now with
        | some r => r.2
        | none => db)
      rw [hres]
      exact hwf
    | some r =>
      show WF (match getNextMessages db sid c now with
        | some r => r.2
        | none => db)
      rw [hres]
      rcases getNextMessages_spec
          (show getNextMessages db sid c now = some (r.1, r.2) by rw [hres])
        with ⟨_, hdb⟩ | ⟨sub, _, _, batch, _, _, _, hdb⟩
      · show WF r.2
        rw [hdb]
        exact hwf
      · show WF r.2
        rw [hdb]
        exact WF_reserveState hwf _ _ _ _
  | complete sid mid => exact WF_completeMessage hwf sid mid
  | fail sid mid now err => exact WF_failMessage hwf _ _ _ _ _
  | retry sid mid => exact WF_updatePair hwf _ _ _ (fun sm => ⟨rfl, rfl⟩)
  | heartbeat sid mid now => exact WF_updatePair hwf _ _ _ (fun sm => ⟨rfl, rfl⟩)
  | resetStale staleAt => exact WF_resetStale hwf staleAt
  | processScheduled cronNext now ids =>
    exact WF_processScheduled hwf cronNext now hin.1 hin.2
  | trim tid mr =>
    show WF (trimTopic db tid mr).1
    cases mr with
    | none => exact hwf
    | some retention =>
      show WF (trimTopic db tid (some retention)).1
      unfold trimTopic
      dsimp only
      cases latestRemovableId db tid retention (earliestUnprocessedId db tid) with
      | none => exact hwf
      | some latest => exact WF_deleteMessages hwf _
  | removeMsg tid mid => exact WF_deleteMessages hwf _
  | removeSub sid =>
    exact ⟨List.Sublist.nodup (List.Sublist.map _ (List.filter_sublist _)) hwf.1,
      hwf.2.1,
      List.Sublist.nodup (List.Sublist.map _ (List.filter_sublist _)) hwf.2.2⟩
  | clear tid =>
    exact WF_scheduled_only (WF_deleteMessages hwf _) _
  | schedule row =>
    show WF (scheduleUpsert db row)
    unfold scheduleUpsert
    by_cases hc : (db.scheduled.any fun r =>
        r.topicId == row.topicId && r.name == row.name) = true
    · rw [if_pos hc]; exact hwf
    · rw [if_neg hc]; exact hwf

/-! ## Preservation of the sequential gate invariant -/

theorem countP_mapIte_eq {α} (l : List α) (c : α → Bool) (u : α → α)
    (p : α → Bool) (h : ∀ a, p (u a) = p a) :
    (l.map (fun a => if c a then u a else a)).countP p = l.countP p := by
  rw [countP_map_ite]
  apply countP_congr_mem
  intro a _
  by_cases hc : c a <;> simp [hc, h]

/-- The `processing`-row predicate of one subscription. -/
def procP (sid : Nat) (sm : SubMsgRow) : Bool :=
  sm.subscriptionId == sid && sm.status == MessageStatus.processing

theorem procCount_def (db : DB) (sid : Nat) :
    procCount db sid = db.subMessages.countP (procP sid) := rfl

/-- Appending rows that are not `processing` keeps every count. -/
theorem countP_proc_append {l1 l2 : List SubMsgRow} {sid : Nat}
    (h : ∀ sm ∈ l2, sm.status ≠ MessageStatus.processing) :
    (l1 ++ l2).countP (procP sid) = l1.countP (procP sid) := by
  rw [List.countP_append]
  have : l2.countP (procP sid) = 0 := by
    rw [List.countP_eq_zero]
    intro sm hsm
    simp only [procP, Bool.and_eq_true, beq_iff_eq]
    intro hcon
    exact h sm hsm hcon.2
  omega

theorem gateInv_insertMessages {db : DB} (hinv : gateInv db) (tid : Nat)
    (batch : List (Nat × String)) (o : MessageOptions) (now : Nat) :
    gateInv (insertMessages db tid batch o now) := by
  intro sub hsub hseq
  have hcount : procCount (insertMessages db tid batch o now) sub.id
      = procCount db sub.id := by
    rw [procCount_def, procCount_def]
    show (db.subMessages ++ _).countP _ = _
    apply countP_proc_append
    intro sm hsm
    rw [List.mem_flatMap] at hsm
    obtain ⟨s, _, hsms⟩ := hsm
    obtain ⟨b, _, hbm⟩ := List.mem_map.mp hsms
    rw [← hbm]
    simp [mkFanoutRow]
  rw [hcount]
  exact hinv sub hsub hseq

theorem gateInv_subscribeInit {db : DB} (hinv : gateInv db) (tid : Nat)
    (name : String) (fid : Nat) (o : SubscriptionOptions)
    (hrows : ∀ sm ∈ db.subMessages, sm.subscriptionId ≠ fid) :
    gateInv (subscribeInit db tid name fid o).1 := by
  unfold subscribeInit
  by_cases hconf : db.subscriptions.any
      (fun s => s.topicId == tid && s.name == name) = true
  · rw [if_pos hconf]
    cases db.subscriptions.find? (fun s => s.name == name) with
    | some ex => exact hinv
    | none => exact hinv
  · rw [if_neg hconf]
    intro sub hsub hseq
    have hback : ∀ sm ∈ (if o.startPosition == StartPosition.earliest then
        (db.messages.filter (fun m => m.topicId == tid)).map
          (fun m => mkBackfillRow fid m.id)
      else []), sm.status ≠ MessageStatus.processing ∧ sm.subscriptionId = fid := by
      intro sm hsm
      by_cases hpos : (o.startPosition == StartPosition.earliest) = true
      · rw [if_pos hpos] at hsm
        obtain ⟨m, _, hmx⟩ := List.mem_map.mp hsm
        rw [← hmx]
        exact ⟨by simp [mkBackfillRow], rfl⟩
      · rw [if_neg hpos] at hsm
        exact absurd hsm (List.not_mem_nil sm)
    have hcount : ∀ sid : Nat,
        ((db.subMessages ++ _).countP (procP sid) : Nat)
          = db.subMessages.countP (procP sid) :=
      fun sid => countP_proc_append (fun sm hsm => (hback sm hsm).1)
    rw [List.mem_append] at hsub
    rcases hsub with hsub | hsub
    · -- an existing subscription: its count and flag are untouched
      show (db.subMessages ++ _).countP (procP sub.id) ≤ _
      rw [countP_proc_append (fun sm hsm => (hback sm hsm).1)]
      exact hinv sub hsub hseq
    · -- the new subscription: gate down, no processing rows reference it
      simp only [List.mem_cons, List.not_mem_nil, or_false] at hsub
      subst hsub
      show (db.subMessages ++ _).countP (procP fid) ≤ _
      rw [countP_proc_append (fun sm hsm => (hback sm hsm).1)]
      simp only [Bool.false_eq_true, reduceIte]
      have : db.subMessages.countP (procP fid) = 0 := by
        rw [List.countP_eq_zero]
        intro sm hsm
        simp only [procP, Bool.and_eq_true, beq_iff_eq]
        intro hcon
        exact hrows sm hsm hcon.1
      omega

theorem gateInv_updatePair_le {db : DB} (hinv : gateInv db) (sid mid : Nat)
    (u : SubMsgRow → SubMsgRow)
    (hu : ∀ sm, (u sm).status ≠ MessageStatus.processing) :
    gateInv { db with subMessages := updatePair sid mid u db.subMessages } := by
  intro sub hsub hseq
  show (updatePair sid mid u db.subMessages).countP (procP sub.id) ≤ _
  calc (updatePair sid mid u db.subMessages).countP (procP sub.id)
      ≤ db.subMessages.countP (procP sub.id) := by
        apply countP_mapIte_le
        intro a _ _
        simp only [procP, Bool.and_eq_true, beq_iff_eq]
        by_cases h1 : (u a).subscriptionId = sub.id <;> simp [h1, hu a]
    _ ≤ _ := hinv sub hsub hseq

theorem gateInv_heartbeat {db : DB} (hinv : gateInv db) (sid mid now : Nat) :
    gateInv (heartbeatMessage db sid mid now) := by
  intro sub hsub hseq
  show (updatePair sid mid _ db.subMessages).countP (procP sub.id) ≤ _
  unfold updatePair
  rw [countP_mapIte_eq]
  · exact hinv sub hsub hseq
  · intro a
    rfl

theorem gateInv_retry {db : DB} (hinv : gateInv db) (sid mid : Nat) :
    gateInv (retryMessage db sid mid) :=
  gateInv_updatePair_le hinv sid mid _ (fun sm => by simp)

/-- Core finalize argument: updating the `(sid, mid)` row to a
non-`processing` status while clearing the gate of subscription `sid`
keeps the gate invariant, provided the row was `processing`. -/
theorem gateInv_finalize_seq {db : DB} (hinv : gateInv db)
    (sid mid : Nat) (u : SubMsgRow → SubMsgRow)
    (hu : ∀ sm, (u sm).status ≠ MessageStatus.processing)
    (hpre : ∃ sm ∈ db.subMessages, sm.subscriptionId = sid ∧
      sm.messageId = mid ∧ sm.status = MessageStatus.processing) :
    gateInv { db with
      subMessages := updatePair sid mid u db.subMessages
      subscriptions := clearGate sid db.subscriptions } := by
  intro sub2 hsub2 hseq2
  obtain ⟨s1, hs1, hor⟩ := mem_mapIte (l := db.subscriptions)
    (c := fun s => s.id == sid) (u := fun s => { s with processing := false })
    (by exact hsub2)
  have hmode : s1.consumptionMode = ConsumptionMode.sequential := by
    rcases hor with ⟨_, h⟩ | ⟨_, h⟩ <;> rw [h] at hseq2 <;> exact hseq2
  have hid : sub2.id = s1.id := by
    rcases hor with ⟨_, h⟩ | ⟨_, h⟩ <;> rw [h]
  by_cases hsid : s1.id = sid
  · -- the finalized subscription: its single processing row is closed
    have hbound1 := hinv s1 hs1 hmode
    have hdrop : (updatePair sid mid u db.subMessages).countP (procP s1.id) + 1
        ≤ db.subMessages.countP (procP s1.id) := by
      apply countP_mapIte_lt
      · intro a _ _
        simp only [procP, Bool.and_eq_true, beq_iff_eq]
        by_cases h1 : (u a).subscriptionId = s1.id <;> simp [h1, hu a]
      · obtain ⟨sm, hsm, h1, h2, h3⟩ := hpre
        exact ⟨sm, hsm, by simp [h1, h2], by simp [procP, h1, hsid, h3]⟩
    show (updatePair sid mid u db.subMessages).countP (procP sub2.id) ≤ _
    rw [hid]
    rw [procCount_def] at hbound1
    have hone : db.subMessages.countP (procP s1.id) ≤ 1 := by
      by_cases hp : s1.processing = true
      · rw [if_pos hp] at hbound1
        exact hbound1
      · rw [if_neg hp] at hbound1
        omega
    omega
  · -- an unrelated subscription: untouched rows, untouched flag
    have hsub2eq : sub2 = s1 := by
      rcases hor with ⟨hc, h⟩ | ⟨_, h⟩
      · exact absurd (by simpa using hc) hsid
      · exact h
    show (updatePair sid mid u db.subMessages).countP (procP sub2.id) ≤ _
    calc (updatePair sid mid u db.subMessages).countP (procP sub2.id)
        ≤ db.subMessages.countP (procP sub2.id) := by
          apply countP_mapIte_le
          intro a _ _
          simp only [procP, Bool.and_eq_true, beq_iff_eq]
          by_cases h1 : (u a).subscriptionId = sub2.id <;> simp [h1, hu a]
      _ ≤ _ := by
        rw [hsub2eq]
        exact hinv s1 hs1 hmode

theorem failOutcome_status_ne (sub : SubscriptionRow) (att now : Nat) :
    (failOutcome sub att now).1 ≠ MessageStatus.processing := by
  unfold failOutcome
  by_cases h : sub.maxAttempts ≤ att
  · simp [h]
  · cases hs : sub.retryStrategy <;> simp [h, hs]

theorem gateInv_completeMessage {db : DB} (hinv : gateInv db) (sid mid : Nat)
    (hpre : ∃ sm ∈ db.subMessages, sm.subscriptionId = sid ∧
      sm.messageId = mid ∧ sm.status = MessageStatus.processing) :
    gateInv (completeMessage db sid mid) := by
  unfold completeMessage
  cases db.subscriptions.find? (fun s => s.id == sid) with
  | none => exact hinv
  | some sub =>
    dsimp only
    by_cases hm : (sub.consumptionMode == ConsumptionMode.sequential) = true
    · rw [if_pos hm]
      exact gateInv_finalize_seq hinv sid mid _ (fun sm => by simp) hpre
    · rw [if_neg hm]
      exact gateInv_updatePair_le hinv sid mid _ (fun sm => by simp)

theorem gateInv_failMessage {db : DB} (hinv : gateInv db) (sid mid att now : Nat)
    (err : Option String)
    (hpre : ∃ sm ∈ db.subMessages, sm.subscriptionId = sid ∧
      sm.messageId = mid ∧ sm.status = MessageStatus.processing) :
    gateInv (failMessage db sid mid att now err) := by
  unfold failMessage
  cases hfind : db.subscriptions.find? (fun s => s.id == sid) with
  | none => exact hinv
  | some sub =>
    dsimp only
    by_cases hm : (sub.consumptionMode == ConsumptionMode.sequential) = true
    · rw [if_pos hm]
      exact gateInv_finalize_seq hinv sid mid _
        (fun sm => failOutcome_status_ne sub att now) hpre
    · rw [if_neg hm]
      exact gateInv_updatePair_le hinv sid mid _
        (fun sm => failOutcome_status_ne sub att now)

theorem gateInv_resetStale {db : DB} (hinv : gateInv db) (staleAt : Nat) :
    gateInv (resetStaleMessages db staleAt).1 := by
  unfold resetStaleMessages
  by_cases he : (db.subMessages.filter (isStale staleAt)).isEmpty = true
  · rw [if_pos he]
    exact hinv
  · rw [if_neg he]
    intro sub2 hsub2 hseq2
    obtain ⟨s1, hs1, hor⟩ := mem_mapIte (l := db.subscriptions)
      (c := fun s => (db.subMessages.filter (isStale staleAt)).any
        (fun sm => sm.subscriptionId == s.id))
      (u := fun s => { s with processing := false }) (by exact hsub2)
    have hmode : s1.consumptionMode = ConsumptionMode.sequential := by
      rcases hor with ⟨_, h⟩ | ⟨_, h⟩ <;> rw [h] at hseq2 <;> exact hseq2
    have hid : sub2.id = s1.id := by
      rcases hor with ⟨_, h⟩ | ⟨_, h⟩ <;> rw [h]
    have hstale_off : ∀ a : SubMsgRow,
        (staleUpdate a).status ≠ MessageStatus.processing := by
      intro a
      unfold staleUpdate
      by_cases hz : (a.staleCount == 0) = true <;> simp [hz]
    have hbound1 := hinv s1 hs1 hmode
    rw [procCount_def] at hbound1
    show (db.subMessages.map _).countP (procP sub2.id) ≤ _
    rw [hid]
    rcases hor with ⟨hc, hval⟩ | ⟨hc, hval⟩
    · -- a stale row of this subscription was reset: gate down, count 0
      have hval2 : sub2.processing = false := by rw [hval]
      rw [hval2]
      have hex : ∃ a ∈ db.subMessages, isStale staleAt a ∧ procP s1.id a := by
        rw [List.any_eq_true] at hc
        obtain ⟨sm, hsmf, hsmid⟩ := hc
        rw [List.mem_filter] at hsmf
        refine ⟨sm, hsmf.1, hsmf.2, ?_⟩
        have : sm.status = MessageStatus.processing := by
          have := hsmf.2
          simp only [isStale, Bool.and_eq_true, beq_iff_eq] at this
          exact this.1
        simp [procP, beq_iff_eq.mp hsmid, this]
      have hdrop := countP_mapIte_lt db.subMessages (isStale staleAt)
        staleUpdate (procP s1.id)
        (fun a _ _ => by
          simp only [procP, Bool.and_eq_true, beq_iff_eq]
          by_cases h1 : (staleUpdate a).subscriptionId = s1.id <;>
            simp [h1, hstale_off a])
        hex
      have hone : db.subMessages.countP (procP s1.id) ≤ 1 := by
        by_cases hp : s1.processing = true
        · rw [if_pos hp] at hbound1
          exact hbound1
        · rw [if_neg hp] at hbound1
          omega
      omega
    · -- no stale row of this subscription: row set and flag untouched
      have hval2 : sub2.processing = s1.processing := by rw [hval]
      rw [hval2]
      calc (db.subMessages.map _).countP (procP s1.id)
          ≤ db.subMessages.countP (procP s1.id) := by
            apply countP_mapIte_le
            intro a _ _
            simp only [procP, Bool.and_eq_true, beq_iff_eq]
            by_cases h1 : (staleUpdate a).subscriptionId = s1.id <;>
              simp [h1, hstale_off a]
        _ ≤ _ := hbound1

theorem gateInv_getNext {db db2 : DB} {sid c now : Nat}
    {ret : List SubMsgRow} (hwf : WF db) (hinv : gateInv db)
    (hres : getNextMessages db sid c now = some (ret, db2)) :
    gateInv db2 := by
  rcases getNextMessages_spec hres with ⟨_, hdb⟩ | ⟨sub, hfind, hgate, batch, hbatch, hne, hret, hdb⟩
  · rw [hdb]
    exact hinv
  subst hdb
  intro sub2 hsub2 hseq2
  by_cases hseqB : (sub.consumptionMode == ConsumptionMode.sequential) = true
  · -- sequential reservation: gate was down, one row taken, gate raised
    have hsub2mem : sub2 ∈ db.subscriptions.map (fun s =>
        if s.id == sid then { s with processing := true } else s) := by
      have := hsub2
      unfold reserveState at this
      rw [if_pos hseqB] at this
      exact this
    obtain ⟨s1, hs1, hor⟩ := mem_mapIte hsub2mem
    have hid : sub2.id = s1.id := by
      rcases hor with ⟨_, h⟩ | ⟨_, h⟩ <;> rw [h]
    show (db.subMessages.map _).countP (procP sub2.id) ≤ _
    rcases hor with ⟨hc, hval⟩ | ⟨hc, hval⟩
    · -- the reserving subscription itself
      have hs1id : s1.id = sid := by simpa using hc
      have hs1sub : s1 = sub := find?_subscription_unique hwf hfind hs1 hs1id
      have hproc : sub2.processing = true := by rw [hval]
      rw [hproc, hid, hs1id]
      have hmode : sub.consumptionMode = ConsumptionMode.sequential := by
        simpa using hseqB
      have hzero : db.subMessages.countP (procP sid) = 0 := by
        have := hinv sub (find?_subscription hfind).1 hmode
        rw [procCount_def, (find?_subscription hfind).2, hgate hmode] at this
        simpa using this
      have hlen : (batch.map (fun sm => sm.messageId)).length ≤ 1 := by
        rw [List.length_map, hbatch, if_pos hseqB]
        exact List.length_take_le _ _
      calc (db.subMessages.map _).countP (procP sid)
          ≤ db.subMessages.countP (procP sid)
            + db.subMessages.countP (fun sm => sm.subscriptionId == sid &&
                (batch.map (fun sm => sm.messageId)).contains sm.messageId) :=
            countP_mapIte_le_add _ _ _ _
        _ ≤ 0 + 1 := by
            have := countP_pair_mem_le hwf sid (batch.map (fun sm => sm.messageId))
            omega
        _ ≤ 1 := by omega
    · -- every other subscription: rows and flag untouched
      have hs1id : s1.id ≠ sid := by simpa using hc
      have hflag : sub2.processing = s1.processing := by rw [hval]
      have hmode1 : s1.consumptionMode = ConsumptionMode.sequential := by
        rw [hval] at hseq2
        exact hseq2
      rw [hflag, hid]
      calc (db.subMessages.map _).countP (procP s1.id)
          ≤ db.subMessages.countP (procP s1.id) := by
            apply countP_mapIte_le
            intro a _ hca
            simp only [Bool.and_eq_true, beq_iff_eq] at hca
            have hne2 : a.subscriptionId ≠ s1.id := by
              rw [hca.1]
              exact fun h => hs1id h.symm
            simp [procP, reserveUpdate, hne2]
        _ ≤ _ := by
            have := hinv s1 hs1 hmode1
            rw [procCount_def] at this
            exact this
  · -- parallel reservation: no sequential subscription is touched
    have hsub2mem : sub2 ∈ db.subscriptions := by
      have := hsub2
      unfold reserveState at this
      rw [if_neg hseqB] at this
      exact this
    have hs2id : sub2.id ≠ sid := by
      intro hps
      have : sub2 = sub := find?_subscription_unique hwf hfind hsub2mem hps
      rw [this] at hseq2
      exact hseqB (by simp [hseq2])
    show (db.subMessages.map _).countP (procP sub2.id) ≤ _
    calc (db.subMessages.map _).countP (procP sub2.id)
        ≤ db.subMessages.countP (procP sub2.id) := by
          apply countP_mapIte_le
          intro a _ hca
          simp only [Bool.and_eq_true, beq_iff_eq] at hca
          have hne2 : a.subscriptionId ≠ sub2.id := by
            rw [hca.1]
            exact fun h => hs2id h.symm
          simp [procP, reserveUpdate, hne2]
      _ ≤ _ := by
          have := hinv sub2 hsub2mem hseq2
          rw [procCount_def] at this
          exact this

theorem gateInv_deleteMessages {db : DB} (hinv : gateInv db)
    (gone : MessageRow → Bool) : gateInv (deleteMessages db gone) := by
  intro sub hsub hseq
  show (db.subMessages.filter _).countP (procP sub.id) ≤ _
  calc (db.subMessages.filter _).countP (procP sub.id)
      ≤ db.subMessages.countP (procP sub.id) :=
        List.Sublist.countP_le _ (List.filter_sublist _)
    _ ≤ _ := by
        have := hinv sub hsub hseq
        rw [procCount_def] at this
        exact this

theorem gateInv_processOneSchedule {db : DB} (hinv : gateInv db)
    (cronNext : String → Nat → Nat) (now : Nat) (p : SchedRow × Nat) :
    gateInv (processOneSchedule cronNext now db p) := by
  have h := gateInv_insertMessages hinv p.1.topicId [(p.2, p.1.data)]
    { deliverAt := p.1.deliverAt, deliverInMs := p.1.deliverInMs,
      priority := p.1.priority } now
  intro sub hsub hseq
  exact h sub hsub hseq

theorem gateInv_processScheduled_go (cronNext : String → Nat → Nat) (now : Nat) :
    ∀ (pending : List (SchedRow × Nat)) (db : DB), gateInv db →
      gateInv (pending.foldl (processOneSchedule cronNext now) db)
  | [], _, hinv => hinv
  | p :: rest, db, hinv => by
    rw [List.foldl_cons]
    exact gateInv_processScheduled_go cronNext now rest _
      (gateInv_processOneSchedule hinv cronNext now p)

/-- Every operation preserves the sequential-gate invariant, provided
`complete` / `fail` land on a row still `processing`. -/
theorem gateInv_applyOp {db : DB} (hwf : WF db) (hinv : gateInv db) (op : Op)
    (hin : opInputsOk db op) (hlive : opFinalizesLive db op) :
    gateInv (applyOp db op) := by
  cases op with
  | send tid batch o now => exact gateInv_insertMessages hinv tid batch o now
  | subscribe tid name fid o =>
    exact gateInv_subscribeInit hinv tid name fid o hin.2.1
  | reserve sid c now =>
    cases hres : getNextMessages db sid c now with
    | none =>
      show gateInv (match getNextMessages db sid c now with
        | some r => r.2
        | none => db)
      rw [hres]
      exact hinv
    | some r =>
      show gateInv (match getNextMessages db sid c now with
        | some r => r.2
        | none => db)
      rw [hres]
      exact gateInv_getNext hwf hinv
        (show getNextMessages db sid c now = some (r.1, r.2) by rw [hres])
  | complete sid mid => exact gateInv_completeMessage hinv sid mid hlive
  | fail sid mid now err => exact gateInv_failMessage hinv sid mid _ now err hlive
  | retry sid mid => exact gateInv_retry hinv sid mid
  | heartbeat sid mid now => exact gateInv_heartbeat hinv sid mid now
  | resetStale staleAt => exact gateInv_resetStale hinv staleAt
  | processScheduled cronNext now ids =>
    exact gateInv_processScheduled_go cronNext now _ db hinv
  | trim tid mr =>
    show gateInv (trimTopic db tid mr).1
    cases mr with
    | none => exact hinv
    | some retention =>
      show gateInv (trimTopic db tid (some retention)).1
      unfold trimTopic
      dsimp only
      cases latestRemovableId db tid retention (earliestUnprocessedId db tid) with
      | none => exact hinv
      | some latest => exact gateInv_deleteMessages hinv _
  | removeMsg tid mid => exact gateInv_deleteMessages hinv _
  | removeSub sid =>
    intro sub hsub hseq
    have hsub2 : sub ∈ db.subscriptions :=
      List.mem_of_mem_filter (by exact hsub)
    show (db.subMessages.filter _).countP (procP sub.id) ≤ _
    calc (db.subMessages.filter _).countP (procP sub.id)
        ≤ db.subMessages.countP (procP sub.id) :=
          List.Sublist.countP_le _ (List.filter_sublist _)
      _ ≤ _ := by
          have := hinv sub hsub2 hseq
          rw [procCount_def] at this
          exact this
  | clear tid =>
    intro sub hsub hseq
    exact gateInv_deleteMessages hinv _ sub hsub hseq
  | schedule row =>
    show gateInv (scheduleUpsert db row)
    unfold scheduleUpsert
    by_cases hc : (db.scheduled.any fun r =>
        r.topicId == row.topicId && r.name == row.name) = true
    · rw [if_pos hc]
      exact hinv
    · rw [if_neg hc]
      exact hinv

/-! ## Induction over runs -/

theorem Reach_invariant {pre : DB → Op → Prop} (P : DB → Prop)
    (hbase : P DB.empty)
    (hstep : ∀ db op, pre db op → P db → P (applyOp db op)) :
    ∀ db, Reach pre db → P db := by
  intro db h
  induction h with
  | init => exact hbase
  | step op hr hpre ih => exact hstep _ op hpre ih

theorem WF_empty : WF DB.empty := ⟨List.nodup_nil, List.nodup_nil, List.nodup_nil⟩

theorem gateInv_empty : gateInv DB.empty := by
  intro sub hsub _
  exact absurd hsub (List.not_mem_nil sub)

/-- The run precondition of the protocol-level runs: well-formed inputs
and finalization only of rows still `processing`. -/
def preLive (db : DB) (op : Op) : Prop :=
  opInputsOk db op ∧ opFinalizesLive db op

/-- The liberal run precondition: finalization of any once-reserved row
(a handler may have outlived a stale reset of its message). -/
def preSeen (db : DB) (op : Op) : Prop :=
  opInputsOk db op ∧ opFinalizesSeen db op

/-- The run precondition without requeue paths (no stale sweep, no
manual retry). -/
def preNoRequeue (db : DB) (op : Op) : Prop :=
  opInputsOk db op ∧ opNoRequeue op

/-- Sequential exclusivity along protocol-level runs. -/
theorem Reach_gateInv {db : DB} (h : Reach preLive db) :
    WF db ∧ gateInv db := by
  refine Reach_invariant (fun db => WF db ∧ gateInv db)
    ⟨WF_empty, gateInv_empty⟩ ?_ db h
  intro db2 op hpre hP
  exact ⟨WF_applyOp hP.1 op hpre.1,
    gateInv_applyOp hP.1 hP.2 op hpre.1 hpre.2⟩

/-! ## Preservation of the retry-accounting invariant -/

theorem attemptsInv_insertMessages {db : DB} (hainv : attemptsInv db)
    (tid : Nat) (batch : List (Nat × String)) (o : MessageOptions) (now : Nat) :
    attemptsInv (insertMessages db tid batch o now) := by
  obtain ⟨hmax, hrows⟩ := hainv
  refine ⟨hmax, ?_⟩
  intro sm hsm sub hsub hid
  rcases List.mem_append.mp (show sm ∈ db.subMessages ++ _ from hsm)
    with hsm2 | hsm2
  · exact hrows sm hsm2 sub hsub hid
  · rw [List.mem_flatMap] at hsm2
    obtain ⟨s, _, hsms⟩ := hsm2
    obtain ⟨b, _, hbm⟩ := List.mem_map.mp hsms
    have h0 : sm.attempts = 0 := by rw [← hbm]; rfl
    have := hmax sub hsub
    rw [h0]
    exact ⟨by omega, fun _ => by omega⟩

theorem attemptsInv_subscribeInit {db : DB} (hainv : attemptsInv db)
    (tid : Nat) (name : String) (fid : Nat) (o : SubscriptionOptions)
    (hfresh : ∀ s ∈ db.subscriptions, s.id ≠ fid)
    (hrows0 : ∀ sm ∈ db.subMessages, sm.subscriptionId ≠ fid)
    (hopt : 1 ≤ o.maxAttempts) :
    attemptsInv (subscribeInit db tid name fid o).1 := by
  obtain ⟨hmax, hrows⟩ := hainv
  unfold subscribeInit
  by_cases hconf : db.subscriptions.any
      (fun s => s.topicId == tid && s.name == name) = true
  · rw [if_pos hconf]
    cases db.subscriptions.find? (fun s => s.name == name) with
    | some ex => exact ⟨hmax, hrows⟩
    | none => exact ⟨hmax, hrows⟩
  · rw [if_neg hconf]
    constructor
    · intro sub hsub
      rcases List.mem_append.mp (show sub ∈ db.subscriptions ++ _ from hsub)
        with hs | hs
      · exact hmax sub hs
      · rw [List.mem_singleton] at hs
        rw [hs]
        exact hopt
    · intro sm hsm sub hsub hid
      have hsub2 := List.mem_append.mp
        (show sub ∈ db.subscriptions ++ _ from hsub)
      rcases List.mem_append.mp (show sm ∈ db.subMessages ++ _ from hsm)
        with hsm2 | hsm2
      · -- an old row: its subscription cannot be the new one
        rcases hsub2 with hs | hs
        · exact hrows sm hsm2 sub hs hid
        · rw [List.mem_singleton] at hs
          refine absurd ?_ (hrows0 sm hsm2)
          rw [← hid, hs]
      · -- a backfill row: attempts 0, its subscription is the new one
        by_cases hpos : (o.startPosition == StartPosition.earliest) = true
        · rw [if_pos hpos] at hsm2
          obtain ⟨m, _, hmx⟩ := List.mem_map.mp hsm2
          have h0 : sm.attempts = 0 := by rw [← hmx]; rfl
          have hsmid : sm.subscriptionId = fid := by rw [← hmx]; rfl
          rcases hsub2 with hs | hs
          · exact absurd (by rw [hid, hsmid]) (hfresh sub hs)
          · rw [List.mem_singleton] at hs
            rw [h0, hs]
            exact ⟨Nat.zero_le _, fun _ => hopt⟩
        · rw [if_neg hpos] at hsm2
          exact absurd hsm2 (List.not_mem_nil sm)

theorem attemptsInv_getNext {db db2 : DB} {sid c now : Nat}
    {ret : List SubMsgRow} (hwf : WF db) (hainv : attemptsInv db)
    (hres : getNextMessages db sid c now = some (ret, db2)) :
    attemptsInv db2 := by
  obtain ⟨hmax, hrows⟩ := hainv
  rcases getNextMessages_spec hres with ⟨_, hdb⟩ | ⟨sub, hfind, _, batch, hbatch, _, _, hdb⟩
  · rw [hdb]
    exact ⟨hmax, hrows⟩
  subst hdb
  -- subscriptions keep their id and maxAttempts through the gate map
  have hsubs : ∀ sub2 ∈ (reserveState db sid now
      (sub.consumptionMode == ConsumptionMode.sequential)
      (batch.map (fun sm => sm.messageId))).subscriptions,
      ∃ s1 ∈ db.subscriptions, sub2.id = s1.id ∧
        sub2.maxAttempts = s1.maxAttempts := by
    intro sub2 hsub2
    unfold reserveState at hsub2
    by_cases hseqB : (sub.consumptionMode == ConsumptionMode.sequential) = true
    · rw [if_pos hseqB] at hsub2
      obtain ⟨s1, hs1, hor⟩ := mem_mapIte hsub2
      refine ⟨s1, hs1, ?_⟩
      rcases hor with ⟨_, h⟩ | ⟨_, h⟩ <;> rw [h] <;> exact ⟨rfl, rfl⟩
    · rw [if_neg hseqB] at hsub2
      exact ⟨sub2, hsub2, rfl, rfl⟩
  constructor
  · intro sub2 hsub2
    obtain ⟨s1, hs1, _, hmaxeq⟩ := hsubs sub2 hsub2
    rw [hmaxeq]
    exact hmax s1 hs1
  · intro sm2 hsm2 sub2 hsub2 hid
    obtain ⟨s1, hs1, hideq, hmaxeq⟩ := hsubs sub2 hsub2
    obtain ⟨a, ha, hor⟩ := mem_mapIte
      (show sm2 ∈ db.subMessages.map _ from hsm2)
    rcases hor with ⟨hc, hval⟩ | ⟨_, hval⟩
    · -- a reserved row: it was a waiting candidate, attempts bumped
      have hbatchmem := update_hits_batch hwf ha (by rw [← hbatch]; exact hc)
      have hwait : a.status = MessageStatus.waiting ∧ a.subscriptionId = sid := by
        have := hbatchmem.2
        simp only [isCandidate, Bool.and_eq_true, beq_iff_eq] at this
        exact ⟨this.1.2, this.1.1⟩
      have hlt := (hrows a ha s1 hs1 (by
        rw [← hideq, hid, hval]
        show a.subscriptionId = _
        rfl)).2 hwait.1
      constructor
      · rw [hval]
        show a.attempts + 1 ≤ sub2.maxAttempts
        rw [hmaxeq]
        omega
      · intro hst
        rw [hval] at hst
        exact absurd hst (by simp [reserveUpdate])
    · -- an untouched row
      subst hval
      have := hrows sm2 ha s1 hs1 (by rw [← hideq, hid])
      rw [hmaxeq]
      exact this

theorem attemptsInv_completeMessage {db : DB} (hainv : attemptsInv db)
    (sid mid : Nat) : attemptsInv (completeMessage db sid mid) := by
  obtain ⟨hmax, hrows⟩ := hainv
  unfold completeMessage
  cases db.subscriptions.find? (fun s => s.id == sid) with
  | none => exact ⟨hmax, hrows⟩
  | some sub =>
    dsimp only
    by_cases hm : (sub.consumptionMode == ConsumptionMode.sequential) = true
    · rw [if_pos hm]
      constructor
      · intro sub2 hsub2
        obtain ⟨s1, hs1, hor⟩ := mem_mapIte
          (show sub2 ∈ db.subscriptions.map _ from hsub2)
        have : sub2.maxAttempts = s1.maxAttempts := by
          rcases hor with ⟨_, h⟩ | ⟨_, h⟩ <;> rw [h]
        rw [this]
        exact hmax s1 hs1
      · intro sm2 hsm2 sub2 hsub2 hid
        obtain ⟨s1, hs1, hor1⟩ := mem_mapIte
          (show sub2 ∈ db.subscriptions.map _ from hsub2)
        have hsfields : sub2.id = s1.id ∧ sub2.maxAttempts = s1.maxAttempts := by
          rcases hor1 with ⟨_, h⟩ | ⟨_, h⟩ <;> rw [h] <;> exact ⟨rfl, rfl⟩
        obtain ⟨a, ha, hor⟩ := mem_mapIte
          (show sm2 ∈ db.subMessages.map _ from hsm2)
        have hfacts : sm2.attempts = a.attempts ∧
            sm2.subscriptionId = a.subscriptionId ∧
            sm2.status ≠ MessageStatus.waiting ∨ sm2 = a := by
          rcases hor with ⟨_, h⟩ | ⟨_, h⟩
          · exact Or.inl ⟨by rw [h], by rw [h], by rw [h]; simp⟩
          · exact Or.inr h
        have hbase := hrows a ha s1 hs1
        rcases hfacts with ⟨h1, h2, h3⟩ | h1
        · have := hbase (by rw [← hsfields.1, hid, h2])
          rw [h1, hsfields.2]
          exact ⟨this.1, fun hw => absurd hw h3⟩
        · subst h1
          have := hbase (by rw [← hsfields.1, hid])
          rw [hsfields.2]
          exact this
    · rw [if_neg hm]
      constructor
      · exact hmax
      · intro sm2 hsm2 sub2 hsub2 hid
        obtain ⟨a, ha, hor⟩ := mem_mapIte
          (show sm2 ∈ db.subMessages.map _ from hsm2)
        have hbase := hrows a ha sub2 hsub2
        rcases hor with ⟨_, h⟩ | ⟨_, h⟩
        · have := hbase (by rw [hid, h])
          rw [h]
          exact ⟨this.1, fun hw => absurd hw (by simp)⟩
        · subst h
          exact hbase hid

theorem rowPair_eq_of_mem {db : DB} (hwf : WF db) {sid mid : Nat}
    {a : SubMsgRow} (ha : a ∈ db.subMessages) (h1 : a.subscriptionId = sid)
    (h2 : a.messageId = mid) : rowPair db sid mid = some a := by
  have hsome : (db.subMessages.find? (fun sm =>
      sm.subscriptionId == sid && sm.messageId == mid)).isSome := by
    rw [List.find?_isSome]
    exact ⟨a, ha, by simp [h1, h2]⟩
  obtain ⟨b, hb⟩ := Option.isSome_iff_exists.mp hsome
  have hbmem := List.mem_of_find?_eq_some hb
  have hbp := List.find?_some hb
  simp only [Bool.and_eq_true, beq_iff_eq] at hbp
  have : b = a := pair_unique hwf hbmem ha ⟨by rw [hbp.1, h1], by rw [hbp.2, h2]⟩
  rw [show rowPair db sid mid = db.subMessages.find? (fun sm =>
    sm.subscriptionId == sid && sm.messageId == mid) from rfl, hb, this]

theorem attemptsInv_failDB {db : DB} (hwf : WF db) (hainv : attemptsInv db)
    (sid mid now : Nat) (err : Option String) :
    attemptsInv (failMessage db sid mid
      (((rowPair db sid mid).map SubMsgRow.attempts).getD 0) now err) := by
  obtain ⟨hmax, hrows⟩ := hainv
  unfold failMessage
  cases hfind : db.subscriptions.find? (fun s => s.id == sid) with
  | none => exact ⟨hmax, hrows⟩
  | some sub =>
    dsimp only
    -- facts shared by both consumption modes
    have hrow_upd : ∀ (a : SubMsgRow), a ∈ db.subMessages →
        (a.subscriptionId == sid && a.messageId == mid) = true →
        ∀ s1 ∈ db.subscriptions, s1.id = a.subscriptionId →
        (a.attempts ≤ s1.maxAttempts ∧
          ((failOutcome sub (((rowPair db sid mid).map SubMsgRow.attempts).getD 0)
            now).1 = MessageStatus.waiting → a.attempts < s1.maxAttempts)) := by
      intro a ha hc s1 hs1 hsid1
      simp only [Bool.and_eq_true, beq_iff_eq] at hc
      have hpair := rowPair_eq_of_mem hwf ha hc.1 hc.2
      have hatt : ((rowPair db sid mid).map SubMsgRow.attempts).getD 0
          = a.attempts := by rw [hpair]; rfl
      have hs1sub : s1 = sub :=
        find?_subscription_unique hwf hfind hs1 (by rw [hsid1, hc.1])
      have hbase := (hrows a ha s1 hs1 hsid1).1
      refine ⟨hbase, ?_⟩
      intro hw
      unfold failOutcome at hw
      by_cases hle : sub.maxAttempts ≤
          ((rowPair db sid mid).map SubMsgRow.attempts).getD 0
      · rw [if_pos hle] at hw
        exact absurd hw (by simp)
      · rw [hatt] at hle
        rw [hs1sub]
        omega
    by_cases hm : (sub.consumptionMode == ConsumptionMode.sequential) = true
    · rw [if_pos hm]
      constructor
      · intro sub2 hsub2
        obtain ⟨s1, hs1, hor⟩ := mem_mapIte
          (show sub2 ∈ db.subscriptions.map _ from hsub2)
        have : sub2.maxAttempts = s1.maxAttempts := by
          rcases hor with ⟨_, h⟩ | ⟨_, h⟩ <;> rw [h]
        rw [this]
        exact hmax s1 hs1
      · intro sm2 hsm2 sub2 hsub2 hid
        obtain ⟨s1, hs1, hor1⟩ := mem_mapIte
          (show sub2 ∈ db.subscriptions.map _ from hsub2)
        have hsfields : sub2.id = s1.id ∧ sub2.maxAttempts = s1.maxAttempts := by
          rcases hor1 with ⟨_, h⟩ | ⟨_, h⟩ <;> rw [h] <;> exact ⟨rfl, rfl⟩
        obtain ⟨a, ha, hor⟩ := mem_mapIte
          (show sm2 ∈ db.subMessages.map _ from hsm2)
        rcases hor with ⟨hc, hval⟩ | ⟨_, hval⟩
        · have := hrow_upd a ha hc s1 hs1
            (by rw [← hsfields.1, hid, hval])
          rw [hval]
          rw [hsfields.2]
          exact ⟨this.1, fun hw => this.2 hw⟩
        · subst hval
          have := hrows sm2 ha s1 hs1 (by rw [← hsfields.1, hid])
          rw [hsfields.2]
          exact this
    · rw [if_neg hm]
      constructor
      · exact hmax
      · intro sm2 hsm2 sub2 hsub2 hid
        obtain ⟨a, ha, hor⟩ := mem_mapIte
          (show sm2 ∈ db.subMessages.map _ from hsm2)
        rcases hor with ⟨hc, hval⟩ | ⟨_, hval⟩
        · have := hrow_upd a ha hc sub2 hsub2 (by rw [hid, hval])
          rw [hval]
          exact ⟨this.1, fun hw => this.2 hw⟩
        · subst hval
          exact hrows sm2 ha sub2 hsub2 hid

theorem attemptsInv_heartbeat {db : DB} (hainv : attemptsInv db)
    (sid mid now : Nat) : attemptsInv (heartbeatMessage db sid mid now) := by
  obtain ⟨hmax, hrows⟩ := hainv
  refine ⟨hmax, ?_⟩
  intro sm2 hsm2 sub2 hsub2 hid
  obtain ⟨a, ha, hor⟩ := mem_mapIte
    (show sm2 ∈ db.subMessages.map _ from hsm2)
  rcases hor with ⟨_, hval⟩ | ⟨_, hval⟩
  · have := hrows a ha sub2 hsub2 (by rw [hid, hval])
    rw [hval]
    exact ⟨this.1, fun hw => this.2 hw⟩
  · subst hval
    exact hrows sm2 ha sub2 hsub2 hid

theorem attemptsInv_deleteLike {db : DB} (hainv : attemptsInv db)
    (msgs : List MessageRow) (q : SubMsgRow → Bool)
    (r : SubscriptionRow → Bool) (sch : List SchedRow) :
    attemptsInv { db with
      messages := msgs
      subMessages := db.subMessages.filter q
      subscriptions := db.subscriptions.filter r
      scheduled := sch } := by
  obtain ⟨hmax, hrows⟩ := hainv
  constructor
  · intro sub hsub
    exact hmax sub (List.mem_of_mem_filter (by exact hsub))
  · intro sm hsm sub hsub hid
    exact hrows sm (List.mem_of_mem_filter (by exact hsm)) sub
      (List.mem_of_mem_filter (by exact hsub)) hid

theorem attemptsInv_deleteMessages {db : DB} (hainv : attemptsInv db)
    (gone : MessageRow → Bool) : attemptsInv (deleteMessages db gone) := by
  obtain ⟨hmax, hrows⟩ := hainv
  refine ⟨hmax, ?_⟩
  intro sm hsm sub hsub hid
  exact hrows sm (List.mem_of_mem_filter (by exact hsm)) sub hsub hid

theorem attemptsInv_processScheduled_go (cronNext : String → Nat → Nat)
    (now : Nat) :
    ∀ (pending : List (SchedRow × Nat)) (db : DB), attemptsInv db →
      attemptsInv (pending.foldl (processOneSchedule cronNext now) db)
  | [], _, hainv => hainv
  | p :: rest, db, hainv => by
    rw [List.foldl_cons]
    refine attemptsInv_processScheduled_go cronNext now rest _ ?_
    have h := attemptsInv_insertMessages hainv p.1.topicId [(p.2, p.1.data)]
      { deliverAt := p.1.deliverAt, deliverInMs := p.1.deliverInMs,
        priority := p.1.priority } now
    exact ⟨h.1, h.2⟩

/-- Every operation outside the requeue paths preserves retry
accounting. -/
theorem attemptsInv_applyOp {db : DB} (hwf : WF db) (hainv : attemptsInv db)
    (op : Op) (hin : opInputsOk db op) (hnoreq : opNoRequeue op) :
    attemptsInv (applyOp db op) := by
  cases op with
  | send tid batch o now => exact attemptsInv_insertMessages hainv tid batch o now
  | subscribe tid name fid o =>
    exact attemptsInv_subscribeInit hainv tid name fid o hin.1 hin.2.1 hin.2.2
  | reserve sid c now =>
    cases hres : getNextMessages db sid c now with
    | none =>
      show attemptsInv (match getNextMessages db sid c now with
        | some r => r.2
        | none => db)
      rw [hres]
      exact hainv
    | some r =>
      show attemptsInv (match getNextMessages db sid c now with
        | some r => r.2
        | none => db)
      rw [hres]
      exact attemptsInv_getNext hwf hainv
        (show getNextMessages db sid c now = some (r.1, r.2) by rw [hres])
  | complete sid mid => exact attemptsInv_completeMessage hainv sid mid
  | fail sid mid now err => exact attemptsInv_failDB hwf hainv sid mid now err
  | retry sid mid => exact absurd hnoreq (by simp [opNoRequeue])
  | heartbeat sid mid now => exact attemptsInv_heartbeat hainv sid mid now
  | resetStale staleAt => exact absurd hnoreq (by simp [opNoRequeue])
  | processScheduled cronNext now ids =>
    exact attemptsInv_processScheduled_go cronNext now _ db hainv
  | trim tid mr =>
    show attemptsInv (trimTopic db tid mr).1
    cases mr with
    | none => exact hainv
    | some retention =>
      show attemptsInv (trimTopic db tid (some retention)).1
      unfold trimTopic
      dsimp only
      cases latestRemovableId db tid retention (earliestUnprocessedId db tid) with
      | none => exact hainv
      | some latest => exact attemptsInv_deleteMessages hainv _
  | removeMsg tid mid => exact attemptsInv_deleteMessages hainv _
  | removeSub sid =>
    obtain ⟨hmax, hrows⟩ := hainv
    constructor
    · intro sub hsub
      exact hmax sub (List.mem_of_mem_filter (by exact hsub))
    · intro sm hsm sub hsub hid
      exact hrows sm (List.mem_of_mem_filter (by exact hsm)) sub
        (List.mem_of_mem_filter (by exact hsub)) hid
  | clear tid =>
    have h := attemptsInv_deleteMessages hainv
      (fun m => m.topicId == tid)
    exact ⟨h.1, h.2⟩
  | schedule row =>
    show attemptsInv (scheduleUpsert db row)
    unfold scheduleUpsert
    by_cases hc : (db.scheduled.any fun r =>
        r.topicId == row.topicId && r.name == row.name) = true
    · rw [if_pos hc]
      exact ⟨hainv.1, hainv.2⟩
    · rw [if_neg hc]
      exact ⟨hainv.1, hainv.2⟩

/-- Retry accounting along runs without stale resets and manual
retries. -/
theorem Reach_attemptsInv {db : DB} (h : Reach preNoRequeue db) :
    WF db ∧ attemptsInv db := by
  refine Reach_invariant (fun db => WF db ∧ attemptsInv db)
    ⟨WF_empty, by intro sub hsub; exact absurd hsub (List.not_mem_nil sub),
      by intro sm hsm; exact absurd hsm (List.not_mem_nil sm)⟩ ?_ db h
  intro db2 op hpre hP
  exact ⟨WF_applyOp hP.1 op hpre.1,
    attemptsInv_applyOp hP.1 hP.2 op hpre.1 hpre.2⟩

/-! ## Decidability of the step preconditions (for concrete runs) -/

instance (db : DB) (op : Op) : Decidable (opInputsOk db op) := by
  unfold opInputsOk
  cases op <;> infer_instance

instance (db : DB) (op : Op) : Decidable (opFinalizesLive db op) := by
  unfold opFinalizesLive
  cases op <;> infer_instance

instance (db : DB) (op : Op) : Decidable (opFinalizesSeen db op) := by
  unfold opFinalizesSeen
  cases op <;> infer_instance

instance (op : Op) : Decidable (opNoRequeue op) := by
  unfold opNoRequeue
  cases op <;> infer_instance

instance (db : DB) (op : Op) : Decidable (preLive db op) := by
  unfold preLive
  infer_instance

instance (db : DB) (op : Op) : Decidable (preSeen db op) := by
  unfold preSeen
  infer_instance

instance (db : DB) (op : Op) : Decidable (preNoRequeue db op) := by
  unfold preNoRequeue
  infer_instance

/-! ## Concrete runs -/

/-- Every step of a concrete run satisfies the precondition. -/
def runOk (pre : DB → Op → Prop) : DB → List Op → Prop
  | _, [] => True
  | db, op :: rest => pre db op ∧ runOk pre (applyOp db op) rest

instance runOk.dec (pre : DB → Op → Prop) [∀ db op, Decidable (pre db op)] :
    ∀ db ops, Decidable (runOk pre db ops)
  | _, [] => Decidable.isTrue trivial
  | db, op :: rest =>
    @instDecidableAnd _ _ _ (runOk.dec pre (applyOp db op) rest)

theorem Reach_of_runOk {pre : DB → Op → Prop} :
    ∀ (ops : List Op) (db : DB), Reach pre db → runOk pre db ops →
      Reach pre (ops.foldl applyOp db)
  | [], _, h, _ => h
  | op :: rest, db, h, hok =>
    Reach_of_runOk rest (applyOp db op) (Reach.step op h hok.1) hok.2

/-- The zombie-handler interleaving on a sequential subscription: a
consumer reserves message 100, goes silent through two stale sweeps
(100 reopens, then fails), other consumers reserve 101; the first
consumer's handler then returns and `complete(100)` drops the gate
while 101 is still in flight, so the next reservation takes 102. -/
def seqCexOps : List Op :=
  [ .subscribe 1 "events" 10 { consumptionMode := .sequential },
    .send 1 [(100, "a"), (101, "b"), (102, "c")] {} 0,
    .reserve 10 1 10,
    .resetStale 20,
    .reserve 10 1 30,
    .resetStale 40,
    .reserve 10 1 50,
    .complete 10 100,
    .reserve 10 1 60 ]

def seqCexDB : DB := seqCexOps.foldl applyOp DB.empty

/-! ## Claim C1 -/

/--
**C1** (amended). For a sequential-mode subscription: `getNextMessages`
first reads the subscription row and returns the empty list (changing
nothing) when the `processing` flag is set; a successful nonempty
reservation takes exactly one row and sets `processing = true` in the
same transaction; `complete` / `fail` clear `processing` in the same
transaction as the status change. Hence, along runs in which a consumer
finalizes only rows still in `processing` status (no handler outliving
a stale reset of its row), at most one subscription-message of the
subscription is `processing` in any reachable state. (The unrestricted
claim fails: see the counterexample, where a handler completes its row
after two stale sweeps and drops the gate while another row is in
flight.)
-/
theorem claim_C1 :
    (∀ (db : DB) (sid count now : Nat) (sub : SubscriptionRow),
      db.subscriptions.find? (fun s => s.id == sid) = some sub →
      sub.consumptionMode = ConsumptionMode.sequential →
      sub.processing = true → 1 ≤ count →
      getNextMessages db sid count now = some ([], db)) ∧
    (∀ (db db2 : DB) (sid count now : Nat) (sub : SubscriptionRow)
      (ret : List SubMsgRow),
      db.subscriptions.find? (fun s => s.id == sid) = some sub →
      sub.consumptionMode = ConsumptionMode.sequential →
      getNextMessages db sid count now = some (ret, db2) →
      ret ≠ [] →
      ret.length = 1 ∧
        ∀ s ∈ db2.subscriptions, s.id = sid → s.processing = true) ∧
    (∀ (db : DB) (sid mid : Nat) (sub : SubscriptionRow),
      db.subscriptions.find? (fun s => s.id == sid) = some sub →
      sub.consumptionMode = ConsumptionMode.sequential →
      (∀ s ∈ (completeMessage db sid mid).subscriptions,
        s.id = sid → s.processing = false) ∧
      (∀ (att now : Nat) (err : Option String) (s : SubscriptionRow),
        s ∈ (failMessage db sid mid att now err).subscriptions →
        s.id = sid → s.processing = false)) ∧
    (∀ db : DB, Reach preLive db →
      ∀ sub ∈ db.subscriptions,
        sub.consumptionMode = ConsumptionMode.sequential →
        procCount db sub.id ≤ 1) := by
  refine ⟨?_, ?_, ?_, ?_⟩
  · -- raised gate: empty result, no writes
    intro db sid count now sub hfind hmode hproc hcount
    unfold getNextMessages
    rw [if_neg (by omega : ¬ count = 0), hfind]
    dsimp only
    rw [if_pos (by simp [hmode, hproc])]
  · -- nonempty reservation: exactly one row, gate raised
    intro db db2 sid count now sub ret hfind hmode hres hne
    rcases getNextMessages_spec hres with ⟨h1, _⟩ |
      ⟨sub2, hfind2, _, batch, hbatch, hbne, hret, hdb⟩
    · exact absurd h1 hne
    have hsub2 : sub2 = sub := by
      rw [hfind] at hfind2
      exact (Option.some_inj.mp hfind2).symm
    subst hsub2
    constructor
    · rw [hret, List.length_map]
      have hle : batch.length ≤ 1 := by
        rw [hbatch, if_pos (by simp [hmode])]
        exact List.length_take_le _ _
      have hpos : 0 < batch.length := List.length_pos.mpr hbne
      omega
    · intro s hs hsid
      rw [hdb] at hs
      unfold reserveState at hs
      rw [if_pos (by simp [hmode])] at hs
      obtain ⟨s1, hs1, hor⟩ := mem_mapIte (show s ∈ db.subscriptions.map _ from hs)
      rcases hor with ⟨_, hval⟩ | ⟨hc, hval⟩
      · rw [hval]
      · rw [beq_eq_false_iff_ne] at hc
        rw [hval] at hsid
        exact absurd hsid hc
  · -- complete / fail drop the gate with the status write
    intro db sid mid sub hfind hmode
    constructor
    · intro s hs hsid
      have heq : completeMessage db sid mid = { db with
          subMessages := updatePair sid mid
            (fun sm => { sm with status := MessageStatus.completed })
            db.subMessages
          subscriptions := clearGate sid db.subscriptions } := by
        unfold completeMessage
        rw [hfind]
        dsimp only
        rw [if_pos (by simp [hmode])]
      rw [heq] at hs
      obtain ⟨s1, hs1, hor⟩ := mem_mapIte
        (show s ∈ db.subscriptions.map _ from hs)
      rcases hor with ⟨_, hval⟩ | ⟨hc, hval⟩
      · rw [hval]
      · rw [beq_eq_false_iff_ne] at hc
        rw [hval] at hsid
        exact absurd hsid hc
    · intro att now err s hs hsid
      have heq : failMessage db sid mid att now err = { db with
          subMessages := updatePair sid mid
            (fun sm => { sm with
              status := (failOutcome sub att now).1
              availableAt := (failOutcome sub att now).2
              errorStack := err }) db.subMessages
          subscriptions := clearGate sid db.subscriptions } := by
        unfold failMessage
        rw [hfind]
        dsimp only
        rw [if_pos (by simp [hmode])]
      rw [heq] at hs
      obtain ⟨s1, hs1, hor⟩ := mem_mapIte
        (show s ∈ db.subscriptions.map _ from hs)
      rcases hor with ⟨_, hval⟩ | ⟨hc, hval⟩
      · rw [hval]
      · rw [beq_eq_false_iff_ne] at hc
        rw [hval] at hsid
        exact absurd hsid hc
  · -- exclusivity along protocol runs
    intro db hreach sub hsub hmode
    have h := (Reach_gateInv hreach).2 sub hsub hmode
    by_cases hp : sub.processing = true
    · rw [if_pos hp] at h
      exact h
    · rw [if_neg hp] at h
      omega

/-- A small live run: a sequential subscription, one message, one
reservation in flight (gate raised). -/
def wC1Ops : List Op :=
  [ .subscribe 1 "events" 10 { consumptionMode := .sequential },
    .send 1 [(100, "a")] {} 0,
    .reserve 10 1 5 ]

def wC1DB : DB := wC1Ops.foldl applyOp DB.empty

def wC1Sub : SubscriptionRow :=
  { id := 10, topicId := 1, name := "events", processing := true,
    consumptionMode := .sequential, startPosition := .latest,
    maxAttempts := 1, retryStrategy := .linear, retryDelay := 0 }

/-- Witness for C1: with the gate raised after a reservation, the next
call returns the empty batch and leaves the state untouched, and the
reached state has at most one processing row. -/
theorem claim_C1_witness :
    getNextMessages wC1DB 10 3 99 = some ([], wC1DB) ∧
      procCount wC1DB 10 ≤ 1 :=
  ⟨claim_C1.1 wC1DB 10 3 99 wC1Sub (by decide) rfl (by decide) (by decide),
    by
      have h := claim_C1.2.2.2 wC1DB
        (Reach_of_runOk wC1Ops DB.empty Reach.init (by decide))
        wC1Sub (by decide) rfl
      exact h⟩

/-- Counterexample for C1 as stated: in the reachable zombie-handler
state `seqCexDB` (every step is a faithful transaction of the source,
and `complete` is called on a message its consumer reserved earlier),
a sequential subscription has TWO rows in `processing` status. -/
theorem claim_C1_cex :
    Reach preSeen seqCexDB ∧
      ∃ sub ∈ seqCexDB.subscriptions,
        sub.consumptionMode = ConsumptionMode.sequential ∧
        ¬ procCount seqCexDB sub.id ≤ 1 :=
  ⟨Reach_of_runOk seqCexOps DB.empty Reach.init (by decide), by decide⟩

/-! ## Claim C4 -/

/--
**C4** (amended). Along runs without stale resets and manual retries,
`attempts ≤ max_attempts` for every subscription-message in every
reachable state. A handler-failure transition lands in `failed` iff
`attempts ≥ max_attempts` (equivalently `= max_attempts` under the
invariant's bound); the stale sweep fails a row iff its `stale_count`
reaches 2; and `retry()` resets `status`, `available_at` and
`error_stack` while leaving `attempts` untouched. (The unrestricted
invariant fails: after a stale reopening — or a manual `retry()` — a
new reservation pushes `attempts` past `max_attempts`; see the
counterexample.)
-/
theorem claim_C4 :
    (∀ db : DB, Reach preNoRequeue db →
      ∀ sm ∈ db.subMessages, ∀ sub ∈ db.subscriptions,
        sub.id = sm.subscriptionId → sm.attempts ≤ sub.maxAttempts) ∧
    (∀ (sub : SubscriptionRow) (att now : Nat),
      (failOutcome sub att now).1 = MessageStatus.failed ↔
        sub.maxAttempts ≤ att) ∧
    (∀ sm : SubMsgRow, (staleUpdate sm).status = MessageStatus.failed ↔
      2 ≤ (staleUpdate sm).staleCount) ∧
    (∀ (db : DB) (sid mid : Nat), ∀ sm ∈ db.subMessages,
      sm.subscriptionId = sid → sm.messageId = mid →
        { sm with
          status := MessageStatus.waiting
          availableAt := none
          errorStack := none } ∈ (retryMessage db sid mid).subMessages) := by
  refine ⟨?_, ?_, ?_, ?_⟩
  · intro db hreach sm hsm sub hsub hid
    exact ((Reach_attemptsInv hreach).2.2 sm hsm sub hsub hid).1
  · intro sub att now
    unfold failOutcome
    by_cases hle : sub.maxAttempts ≤ att
    · simp [hle]
    · cases hs : sub.retryStrategy <;> simp [hle, hs]
  · intro sm
    unfold staleUpdate
    by_cases hz : (sm.staleCount == 0) = true
    · have : sm.staleCount = 0 := by simpa using hz
      simp [hz, this]
    · have : sm.staleCount ≠ 0 := by simpa using hz
      simp only [hz, Bool.false_eq_true, reduceIte]
      constructor
      · intro
        omega
      · intro
        trivial
  · intro db sid mid sm hsm h1 h2
    unfold retryMessage updatePair
    refine List.mem_map.mpr ⟨sm, hsm, ?_⟩
    dsimp only
    rw [if_pos (by simp [h1, h2])]

/-- A requeue-free run: sequential subscription with `max_attempts = 2`,
one message, reserved once and failed once (requeued by the backoff),
then reserved and failed again (now `failed`). -/
def wC4Ops : List Op :=
  [ .subscribe 1 "jobs" 10 { consumptionMode := .sequential, maxAttempts := 2 },
    .send 1 [(100, "a")] {} 0,
    .reserve 10 1 5,
    .fail 10 100 6 (some "boom"),
    .reserve 10 1 7,
    .fail 10 100 8 (some "boom") ]

def wC4DB : DB := wC4Ops.foldl applyOp DB.empty

def wC4Sub : SubscriptionRow :=
  { id := 10, topicId := 1, name := "jobs", processing := false,
    consumptionMode := .sequential, startPosition := .latest,
    maxAttempts := 2, retryStrategy := .linear, retryDelay := 0 }

/-- A first-time-stale processing row. -/
def wC4RowFresh : SubMsgRow :=
  { subscriptionId := 10
    messageId := 100
    status := MessageStatus.processing
    attempts := 1
    availableAt := none
    errorStack := none
    lastHeartbeatAt := some 5
    progress := none
    staleCount := 0 }

/-- The exhausted row of `wC4DB` after its second failure. -/
def wC4RowDone : SubMsgRow :=
  { subscriptionId := 10
    messageId := 100
    status := MessageStatus.failed
    attempts := 2
    availableAt := none
    errorStack := some "boom"
    lastHeartbeatAt := some 7
    progress := none
    staleCount := 0 }

/-- `wC4RowDone` after `retry()`: requeued, `attempts` untouched. -/
def wC4RowRetried : SubMsgRow :=
  { wC4RowDone with
    status := MessageStatus.waiting
    availableAt := none
    errorStack := none }

/-- Witness for C4: in the concrete requeue-free run the exhausted row
has `attempts = 2 = max_attempts` (the bound holds), the second failure
transitioned it to `failed` (`maxAttempts ≤ 2`), a first stale sweep
would reopen (stale count 1 < 2), and `retry()` requeues the row with
its `attempts` intact. -/
theorem claim_C4_witness :
    (∀ sm ∈ wC4DB.subMessages, ∀ sub ∈ wC4DB.subscriptions,
      sub.id = sm.subscriptionId → sm.attempts ≤ sub.maxAttempts) ∧
    ((failOutcome wC4Sub 2 8).1 = MessageStatus.failed ↔ 2 ≤ 2) ∧
    ((staleUpdate wC4RowFresh).status = MessageStatus.failed ↔ False) ∧
    wC4RowRetried ∈ (retryMessage wC4DB 10 100).subMessages := by
  refine ⟨claim_C4.1 wC4DB
      (Reach_of_runOk wC4Ops DB.empty Reach.init (by decide)), ?_, ?_, ?_⟩
  · exact claim_C4.2.1 wC4Sub 2 8
  · have h := claim_C4.2.2.1 wC4RowFresh
    constructor
    · intro hx
      exact absurd (h.mp hx) (by decide)
    · intro hx
      exact absurd hx (by decide)
  · have h := claim_C4.2.2.2 wC4DB 10 100 wC4RowDone (by decide) rfl rfl
    exact h

/-- A stale reopening followed by a fresh reservation pushes `attempts`
beyond `max_attempts`. -/
def c4CexOps : List Op :=
  [ .subscribe 1 "jobs" 10 { consumptionMode := .parallel },
    .send 1 [(100, "a")] {} 0,
    .reserve 10 1 5,
    .resetStale 10,
    .reserve 10 1 20 ]

def c4CexDB : DB := c4CexOps.foldl applyOp DB.empty

/-- Counterexample for C4 as stated: in the reachable state `c4CexDB`
(reserve, stale reopening, reserve again — every step a live-protocol
transaction), a row carries `attempts = 2` while its subscription has
`max_attempts = 1`. -/
theorem claim_C4_cex :
    Reach preLive c4CexDB ∧
      ∃ sm ∈ c4CexDB.subMessages, ∃ sub ∈ c4CexDB.subscriptions,
        sub.id = sm.subscriptionId ∧ ¬ sm.attempts ≤ sub.maxAttempts :=
  ⟨Reach_of_runOk c4CexOps DB.empty Reach.init (by decide), by decide⟩

/-! ## Order facts for the reservation query -/

theorem candLE_total (db : DB) (a b : SubMsgRow) :
    (candLE db a b || candLE db b a) = true := by
  unfold candLE
  rcases le_total (candKey db a) (candKey db b) with h | h <;> simp [h]

theorem candLE_trans (db : DB) (a b c : SubMsgRow)
    (h1 : candLE db a b = true) (h2 : candLE db b c = true) :
    candLE db a c = true := by
  unfold candLE at h1 h2 ⊢
  rw [decide_eq_true_eq] at h1 h2 ⊢
  exact le_trans h1 h2

theorem sortedCandidates_pairwise (db : DB) (sid now : Nat) :
    (sortedCandidates db sid now).Pairwise
      (fun a b => candLE db a b = true) :=
  pairwise_sortLe (candLE_total db) (candLE_trans db) _

/-- Distinct candidates of one subscription have distinct keys, as long
as the join finds their messages (referential integrity) and primary
keys are unique. -/
theorem candKey_inj {db : DB} (hwf : WF db)
    (href : ∀ sm ∈ db.subMessages, sm.subscriptionId = sid →
      ∃ m ∈ db.messages, m.id = sm.messageId)
    {a b : SubMsgRow} (ha : a ∈ db.subMessages) (hb : b ∈ db.subMessages)
    (hasid : a.subscriptionId = sid) (hbsid : b.subscriptionId = sid)
    (hk : candKey db a = candKey db b) : a = b := by
  obtain ⟨ma, hma, hmaid⟩ := href a ha hasid
  obtain ⟨mb, hmb, hmbid⟩ := href b hb hbsid
  have hfa : ∃ m2, db.messages.find? (fun m => m.id == a.messageId) = some m2 := by
    have : (db.messages.find? (fun m => m.id == a.messageId)).isSome := by
      rw [List.find?_isSome]
      exact ⟨ma, hma, by simp [hmaid]⟩
    exact Option.isSome_iff_exists.mp this
  have hfb : ∃ m2, db.messages.find? (fun m => m.id == b.messageId) = some m2 := by
    have : (db.messages.find? (fun m => m.id == b.messageId)).isSome := by
      rw [List.find?_isSome]
      exact ⟨mb, hmb, by simp [hmbid]⟩
    exact Option.isSome_iff_exists.mp this
  obtain ⟨m2a, hm2a⟩ := hfa
  obtain ⟨m2b, hm2b⟩ := hfb
  have hida : m2a.id = a.messageId := by simpa using List.find?_some hm2a
  have hidb : m2b.id = b.messageId := by simpa using List.find?_some hm2b
  unfold candKey at hk
  rw [hm2a, hm2b] at hk
  have hmsg : a.messageId = b.messageId := by
    have := hk
    simp only [toLex_inj, Prod.mk.injEq] at this
    rw [← hida, ← hidb]
    exact this.2.2
  exact pair_unique hwf ha hb ⟨by rw [hasid, hbsid], hmsg⟩

/-- `candKey` only reads the message table, which the reservation state
leaves unchanged. -/
theorem candLE_reserveState (db : DB) (sid now : Nat) (seq : Bool)
    (ids : List Nat) :
    candLE (reserveState db sid now seq ids) = candLE db := by
  funext a b
  rfl

/-- The reservation leaves exactly the unreserved candidates, in the
same sorted order: `sortedCandidates` of the new state is the `drop` of
the old sorted list past the reserved prefix (parallel mode, every row
of the subscription immediately available, keys resolvable and rows
primary-key-unique). -/
theorem sortedCandidates_after_reserve {db : DB} {sid now : Nat}
    (hwf : WF db)
    (href : ∀ sm ∈ db.subMessages, sm.subscriptionId = sid →
      ∃ m ∈ db.messages, m.id = sm.messageId)
    (havail : ∀ sm ∈ db.subMessages, sm.subscriptionId = sid →
      sm.availableAt = none)
    (k now2 : Nat) :
    sortedCandidates (reserveState db sid now false
        (((sortedCandidates db sid now).take k).map (fun sm => sm.messageId)))
      sid now2
      = (sortedCandidates db sid now).drop k := by
  set L := sortedCandidates db sid now with hL
  set batch := L.take k with hbatch
  -- the old candidate list and its basic properties
  have hLperm : L.Perm (candidateRows db sid now) := sortLe_perm _ _
  have hLmem : ∀ a ∈ L, a ∈ db.subMessages ∧ isCandidate sid now a := by
    intro a ha
    exact mem_sortedCandidates.mp ha
  have hLnodup : L.Nodup := by
    refine hLperm.nodup_iff.mpr ?_
    have hpairs := hwf.2.2
    have : (candidateRows db sid now).Sublist db.subMessages :=
      List.filter_sublist _
    refine List.Nodup.of_map (fun sm => (sm.subscriptionId, sm.messageId)) ?_
    exact List.Sublist.nodup (List.Sublist.map _ this) hpairs
  -- membership of the update condition on candidates = membership of the batch
  have hcond_mem : ∀ a ∈ db.subMessages,
      ((a.subscriptionId == sid &&
        (batch.map (fun sm => sm.messageId)).contains a.messageId) = true)
        ↔ a ∈ batch := by
    intro a ha
    constructor
    · intro hc
      obtain ⟨hmem, _⟩ := update_hits_batch hwf ha hc
      exact hmem
    · intro hmem
      have hcand := (hLmem a (List.mem_of_mem_take (by rw [← hbatch]; exact hmem))).2
      simp only [isCandidate, Bool.and_eq_true, beq_iff_eq] at hcand
      simp only [Bool.and_eq_true, beq_iff_eq, contains_iff_mem, List.mem_map]
      exact ⟨hcand.1.1, a, hmem, rfl⟩
  -- the new candidate rows are the old ones outside the batch
  have hrows : candidateRows (reserveState db sid now false
      (batch.map (fun sm => sm.messageId))) sid now2
      = db.subMessages.filter (fun a =>
          !(a.subscriptionId == sid &&
            (batch.map (fun sm => sm.messageId)).contains a.messageId)
          && isCandidate sid now a) := by
    show (db.subMessages.map _).filter _ = _
    rw [List.filter_map]
    have hflt : db.subMessages.filter ((isCandidate sid now2) ∘ fun sm =>
        if sm.subscriptionId == sid &&
            (batch.map (fun sm => sm.messageId)).contains sm.messageId then
          reserveUpdate now sm
        else sm)
        = db.subMessages.filter (fun a =>
            !(a.subscriptionId == sid &&
              (batch.map (fun sm => sm.messageId)).contains a.messageId)
            && isCandidate sid now a) := by
      apply List.filter_congr
      intro a ha
      show isCandidate sid now2
          (if a.subscriptionId == sid &&
              (batch.map (fun sm => sm.messageId)).contains a.messageId then
            reserveUpdate now a
          else a) = _
      by_cases hc : (a.subscriptionId == sid &&
          (batch.map (fun sm => sm.messageId)).contains a.messageId) = true
      · rw [if_pos hc, hc]
        simp [isCandidate, reserveUpdate]
      · rw [if_neg hc]
        rw [Bool.not_eq_true] at hc
        rw [hc]
        simp only [Bool.not_false, Bool.true_and]
        by_cases hsid : a.subscriptionId = sid
        · have hnone := havail a ha hsid
          simp [isCandidate, hsid, availOk, hnone]
        · have hx : (a.subscriptionId == sid) = false := by simp [hsid]
          simp [isCandidate, hx]
    rw [hflt]
    have : ∀ a ∈ db.subMessages.filter (fun a =>
        !(a.subscriptionId == sid &&
          (batch.map (fun sm => sm.messageId)).contains a.messageId)
        && isCandidate sid now a),
        (if a.subscriptionId == sid &&
            (batch.map (fun sm => sm.messageId)).contains a.messageId then
          reserveUpdate now a
        else a) = a := by
      intro a ha
      rw [List.mem_filter] at ha
      have h2 := ha.2
      rw [Bool.and_eq_true] at h2
      have hcf : (a.subscriptionId == sid &&
          (batch.map (fun sm => sm.messageId)).contains a.messageId) = false := by
        have := h2.1
        rwa [Bool.not_eq_true'] at this
      rw [if_neg (by rw [hcf]; exact Bool.false_ne_true)]
    rw [List.map_congr_left this, List.map_id']
  -- that filter permutes to the drop of the sorted list
  have hperm2 : (candidateRows (reserveState db sid now false
      (batch.map (fun sm => sm.messageId))) sid now2).Perm (L.drop k) := by
    rw [hrows]
    have hstep1 : db.subMessages.filter (fun a =>
        !(a.subscriptionId == sid &&
          (batch.map (fun sm => sm.messageId)).contains a.messageId)
        && isCandidate sid now a)
        = (candidateRows db sid now).filter (fun a =>
            !(a.subscriptionId == sid &&
              (batch.map (fun sm => sm.messageId)).contains a.messageId)) := by
      unfold candidateRows
      rw [List.filter_filter]
    rw [hstep1]
    have hstep2 : ((candidateRows db sid now).filter (fun a =>
        !(a.subscriptionId == sid &&
          (batch.map (fun sm => sm.messageId)).contains a.messageId))).Perm
        (L.filter (fun a =>
          !(a.subscriptionId == sid &&
            (batch.map (fun sm => sm.messageId)).contains a.messageId))) :=
      (List.Perm.filter _ hLperm).symm
    refine hstep2.trans ?_
    have hstep3 : L.filter (fun a =>
        !(a.subscriptionId == sid &&
          (batch.map (fun sm => sm.messageId)).contains a.messageId))
        = L.filter (fun a => !decide (a ∈ L.take k)) := by
      apply List.filter_congr
      intro a ha
      have hmem := (hLmem a ha).1
      have hiff := hcond_mem a hmem
      by_cases hc : (a.subscriptionId == sid &&
          (batch.map (fun sm => sm.messageId)).contains a.messageId) = true
      · have h1 : a ∈ L.take k := hiff.mp hc
        rw [hc]
        simp [h1]
      · have h1 : a ∉ L.take k := fun hmem2 => hc (hiff.mpr hmem2)
        rw [Bool.not_eq_true] at hc
        rw [hc]
        simp [h1]
    rw [hstep3, filter_not_mem_take L k hLnodup]
  -- canonical form: sorted + permutation determines the list
  have hanti : ∀ a ∈ sortedCandidates (reserveState db sid now false
      (batch.map (fun sm => sm.messageId))) sid now2,
      ∀ b ∈ sortedCandidates (reserveState db sid now false
        (batch.map (fun sm => sm.messageId))) sid now2,
      candLE db a b → candLE db b a → a = b := by
    intro a ha b hb h1 h2
    have ha2 := mem_sortedCandidates.mp ha
    have hb2 := mem_sortedCandidates.mp hb
    have hamem : a ∈ db.subMessages := by
      obtain ⟨a0, ha0, hval⟩ := List.mem_map.mp
        (show a ∈ db.subMessages.map _ from ha2.1)
      by_cases hc : (a0.subscriptionId == sid &&
          (batch.map (fun sm => sm.messageId)).contains a0.messageId) = true
      · rw [if_pos hc] at hval
        -- a reserved row is processing, never a candidate again
        have hstat : a.status = MessageStatus.processing := by
          rw [← hval]
          rfl
        have hcand := ha2.2
        simp only [isCandidate, Bool.and_eq_true, beq_iff_eq] at hcand
        rw [hcand.1.2] at hstat
        exact absurd hstat (by decide)
      · rw [if_neg hc] at hval
        rw [← hval]
        exact ha0
    have hbmem : b ∈ db.subMessages := by
      obtain ⟨b0, hb0, hval⟩ := List.mem_map.mp
        (show b ∈ db.subMessages.map _ from hb2.1)
      by_cases hc : (b0.subscriptionId == sid &&
          (batch.map (fun sm => sm.messageId)).contains b0.messageId) = true
      · rw [if_pos hc] at hval
        have hstat : b.status = MessageStatus.processing := by
          rw [← hval]
          rfl
        have hcand := hb2.2
        simp only [isCandidate, Bool.and_eq_true, beq_iff_eq] at hcand
        rw [hcand.1.2] at hstat
        exact absurd hstat (by decide)
      · rw [if_neg hc] at hval
        rw [← hval]
        exact hb0
    have hasid : a.subscriptionId = sid := by
      have := ha2.2
      simp only [isCandidate, Bool.and_eq_true, beq_iff_eq] at this
      exact this.1.1
    have hbsid : b.subscriptionId = sid := by
      have := hb2.2
      simp only [isCandidate, Bool.and_eq_true, beq_iff_eq] at this
      exact this.1.1
    unfold candLE at h1 h2
    rw [decide_eq_true_eq] at h1 h2
    exact candKey_inj hwf href hamem hbmem hasid hbsid (le_antisymm h1 h2)
  refine sorted_perm_eq hanti ?_ ?_ ?_
  · exact (sortLe_perm _ _).trans hperm2
  · have := sortedCandidates_pairwise (reserveState db sid now false
      (batch.map (fun sm => sm.messageId))) sid now2
    rw [candLE_reserveState] at this
    exact this
  · have := sortedCandidates_pairwise db sid now
    exact List.Pairwise.sublist (List.drop_sublist k L) this

theorem reserveState_nil (db : DB) (sid now : Nat) :
    reserveState db sid now false [] = db := by
  unfold reserveState
  have hmap : db.subMessages.map (fun sm =>
      if sm.subscriptionId == sid && ([] : List Nat).contains sm.messageId then
        reserveUpdate now sm
      else sm) = db.subMessages := by
    have h : ∀ a ∈ db.subMessages,
        (if a.subscriptionId == sid && ([] : List Nat).contains a.messageId then
          reserveUpdate now a
        else a) = a := by
      intro a _
      rw [if_neg (by simp)]
    rw [List.map_congr_left h, List.map_id']
  rw [if_neg (by simp), hmap]

/-- In parallel mode a successful call always returns the limit-prefix
of the sorted candidates and the corresponding update (for an empty
prefix the update is the identity). -/
theorem getNextMessages_parallel_eq {db : DB} {sid c now : Nat}
    {sub : SubscriptionRow}
    (hfind : db.subscriptions.find? (fun s => s.id == sid) = some sub)
    (hmode : (sub.consumptionMode == ConsumptionMode.sequential) = false)
    (hc : ¬ c = 0) :
    getNextMessages db sid c now
      = some (((sortedCandidates db sid now).take c).map (reserveUpdate now),
          reserveState db sid now false
            (((sortedCandidates db sid now).take c).map
              (fun sm => sm.messageId))) := by
  unfold getNextMessages
  rw [if_neg hc, hfind]
  dsimp only
  simp only [hmode, Bool.false_and, Bool.false_eq_true, reduceIte]
  by_cases hempty : ((sortedCandidates db sid now).take c).isEmpty = true
  · rw [if_pos hempty]
    have hnil : (sortedCandidates db sid now).take c = [] :=
      List.isEmpty_iff.mp hempty
    rw [hnil,
      show (([] : List SubMsgRow).map (fun sm => sm.messageId)) = [] from rfl,
      reserveState_nil]
    rfl
  · rw [if_neg hempty]

/-! ## Claim C2 -/

/--
**C2.** The reservation's candidate rows are exactly the subscription's
rows with `status = 'waiting'` that are available
(`available_at IS NULL OR available_at <= now`); the returned batch is
the prefix of those rows sorted by
(`message.priority ASC NULLS LAST, message.id ASC`), of length at most
1 in sequential mode and at most `n` in parallel mode; and for a
parallel subscription with no delays (`available_at` all `NULL`, hence
no retries pending) a reservation returns the first `n` of the sorted
candidates while the remaining candidates are exactly the sorted rest —
so successive reservations enumerate the sort order.
-/
theorem claim_C2 :
    (∀ (db : DB) (sid now : Nat) (sm : SubMsgRow),
      sm ∈ sortedCandidates db sid now ↔
        sm ∈ db.subMessages ∧ sm.subscriptionId = sid ∧
        sm.status = MessageStatus.waiting ∧
        (sm.availableAt = none ∨ ∃ t, sm.availableAt = some t ∧ t ≤ now)) ∧
    (∀ (db : DB) (sid now : Nat),
      (sortedCandidates db sid now).Pairwise
        (fun a b => candKey db a ≤ candKey db b)) ∧
    (∀ (db db2 : DB) (sid c now : Nat) (sub : SubscriptionRow)
      (ret : List SubMsgRow),
      db.subscriptions.find? (fun s => s.id == sid) = some sub →
      getNextMessages db sid c now = some (ret, db2) →
      ret ≠ [] →
      ret.map (fun sm => sm.messageId)
          = ((sortedCandidates db sid now).take
              (if sub.consumptionMode == ConsumptionMode.sequential then 1
                else c)).map (fun sm => sm.messageId) ∧
        ret.length ≤ (if sub.consumptionMode == ConsumptionMode.sequential
          then 1 else c)) ∧
    (∀ (db db2 : DB) (sid c now now2 : Nat) (sub : SubscriptionRow)
      (ret : List SubMsgRow),
      WF db →
      (∀ sm ∈ db.subMessages, sm.subscriptionId = sid →
        ∃ m ∈ db.messages, m.id = sm.messageId) →
      (∀ sm ∈ db.subMessages, sm.subscriptionId = sid →
        sm.availableAt = none) →
      db.subscriptions.find? (fun s => s.id == sid) = some sub →
      sub.consumptionMode = ConsumptionMode.parallel →
      1 ≤ c →
      getNextMessages db sid c now = some (ret, db2) →
      ret.map (fun sm => sm.messageId)
          = ((sortedCandidates db sid now).take c).map (fun sm => sm.messageId) ∧
        sortedCandidates db2 sid now2
          = (sortedCandidates db sid now).drop c) := by
  refine ⟨?_, ?_, ?_, ?_⟩
  · -- candidate characterization
    intro db sid now sm
    rw [mem_sortedCandidates]
    unfold isCandidate
    constructor
    · rintro ⟨hmem, hc⟩
      rw [Bool.and_eq_true, Bool.and_eq_true] at hc
      refine ⟨hmem, by simpa using hc.1.1, by simpa using hc.1.2, ?_⟩
      cases hav : sm.availableAt with
      | none => exact Or.inl rfl
      | some t =>
        right
        refine ⟨t, rfl, ?_⟩
        rw [hav] at hc
        simpa [availOk] using hc.2
    · rintro ⟨hmem, h1, h2, h3⟩
      refine ⟨hmem, ?_⟩
      rw [Bool.and_eq_true, Bool.and_eq_true]
      refine ⟨⟨by simp [h1], by simp [h2]⟩, ?_⟩
      rcases h3 with h3 | ⟨t, h3, h4⟩
      · rw [h3]
        rfl
      · rw [h3]
        simpa [availOk] using h4
  · -- the candidate order is the ORDER BY order
    intro db sid now
    have h := sortedCandidates_pairwise db sid now
    refine h.imp ?_
    intro a b hab
    unfold candLE at hab
    exact decide_eq_true_eq.mp hab
  · -- the batch is the limit-prefix of the sorted candidates
    intro db db2 sid c now sub ret hfind hres hne
    rcases getNextMessages_spec hres with ⟨h1, _⟩ |
      ⟨sub2, hfind2, _, batch, hbatch, _, hret, _⟩
    · exact absurd h1 hne
    have hsub2 : sub2 = sub := by
      rw [hfind] at hfind2
      exact (Option.some_inj.mp hfind2).symm
    subst hsub2
    constructor
    · rw [hret, List.map_map,
        show ((fun sm : SubMsgRow => sm.messageId) ∘ reserveUpdate now)
          = (fun sm : SubMsgRow => sm.messageId) from rfl, hbatch]
    · rw [hret, List.length_map, hbatch]
      exact List.length_take_le _ _
  · -- parallel drain: prefix now, sorted remainder afterwards
    intro db db2 sid c now now2 sub ret hwf href havail hfind hmode hc hres
    have hmodeb : (sub.consumptionMode == ConsumptionMode.sequential) = false := by
      rw [hmode]
      rfl
    rw [getNextMessages_parallel_eq hfind hmodeb (by omega)] at hres
    rw [Option.some_inj, Prod.mk.injEq] at hres
    obtain ⟨hA, hB⟩ := hres
    constructor
    · rw [← hA, List.map_map,
        show ((fun sm : SubMsgRow => sm.messageId) ∘ reserveUpdate now)
          = (fun sm : SubMsgRow => sm.messageId) from rfl]
    · rw [← hB]
      exact sortedCandidates_after_reserve hwf href havail c now2

/-- A parallel subscription with three differently prioritized waiting
messages: priorities `NULL`, `5`, `1` on ids `100 < 101 < 102`. -/
def wC2Sub : SubscriptionRow :=
  { id := 10, topicId := 1, name := "jobs", processing := false,
    consumptionMode := .parallel, startPosition := .latest,
    maxAttempts := 1, retryStrategy := .linear, retryDelay := 0 }

def wC2DB : DB :=
  { messages :=
      [ { id := 100, topicId := 1, data := "a", createdAt := 0,
          deliverAt := none, priority := none },
        { id := 101, topicId := 1, data := "b", createdAt := 0,
          deliverAt := none, priority := some 5 },
        { id := 102, topicId := 1, data := "c", createdAt := 0,
          deliverAt := none, priority := some 1 } ]
    subscriptions := [wC2Sub]
    subMessages := [mkFanoutRow none 10 100, mkFanoutRow none 10 101,
      mkFanoutRow none 10 102]
    scheduled := [] }

def wC2Res : List SubMsgRow × DB := (getNextMessages wC2DB 10 2 50).getD ([], wC2DB)

/-- Witness for C2: on the concrete state, reserving 2 returns messages
`102` then `101` (priorities 1 and 5 beat the NULL-priority `100`
despite its smaller id), and the remaining sorted candidate list is
exactly the dropped remainder (the NULL-priority row). -/
theorem claim_C2_witness :
    wC2Res.1.map (fun sm => sm.messageId) = [102, 101] ∧
      sortedCandidates wC2Res.2 10 60 = (sortedCandidates wC2DB 10 50).drop 2 := by
  have h := claim_C2.2.2.2 wC2DB wC2Res.2 10 2 50 60 wC2Sub wC2Res.1
    (by decide) (by decide) (by decide) (by decide) rfl (by decide) (by decide)
  exact ⟨h.1.trans (by decide), h.2⟩

/--
C3: when `fail(error)` runs on a subscription-message whose in-memory
`attempts` is `att` (with `att ≥ 1`, as after any reservation) and whose
subscription row resolves, the row is rewritten in the database as
follows:

* `att ≥ max_attempts`: `status = 'failed'`, `available_at = NULL`,
  `error_stack` recorded;
* `att < max_attempts` and `retry_strategy = linear`:
  `status = 'waiting'`, `available_at = now + retry_delay_ms`;
* `att < max_attempts` and `retry_strategy = exponential`:
  `status = 'waiting'`,
  `available_at = now + retry_delay_ms * 2 ^ (att - 1)`.
-/
theorem claim_C3 (db : DB) (sid mid att now : Nat) (err : Option String)
    (sub : SubscriptionRow) (sm : SubMsgRow)
    (hfind : db.subscriptions.find? (fun s => s.id == sid) = some sub)
    (hmem : sm ∈ db.subMessages)
    (hsid : sm.subscriptionId = sid) (hmid : sm.messageId = mid) :
    (sub.maxAttempts ≤ att →
      { sm with status := MessageStatus.failed, availableAt := none, errorStack := err }
        ∈ (failMessage db sid mid att now err).subMessages) ∧
    (att < sub.maxAttempts → sub.retryStrategy = RetryStrategy.linear →
      { sm with status := MessageStatus.waiting, availableAt := some (now + sub.retryDelay), errorStack := err }
        ∈ (failMessage db sid mid att now err).subMessages) ∧
    (att < sub.maxAttempts → sub.retryStrategy = RetryStrategy.exponential →
      { sm with status := MessageStatus.waiting, availableAt := some (now + sub.retryDelay * 2 ^ (att - 1)), errorStack := err }
        ∈ (failMessage db sid mid att now err).subMessages) := by
  have hsm : ∀ u : SubMsgRow → SubMsgRow,
      u sm ∈ updatePair sid mid u db.subMessages := by
    intro u
    exact List.mem_map.mpr ⟨sm, hmem, by
      rw [if_pos]
      simp [hsid, hmid]⟩
  have hsubm : (failMessage db sid mid att now err).subMessages
      = updatePair sid mid
          (fun r => { r with
            status := (failOutcome sub att now).1
            availableAt := (failOutcome sub att now).2
            errorStack := err }) db.subMessages := by
    unfold failMessage
    rw [hfind]
    dsimp only
    by_cases hmode : (sub.consumptionMode == ConsumptionMode.sequential) = true
    · rw [if_pos hmode]
    · rw [if_neg hmode]
  refine ⟨?_, ?_, ?_⟩
  · intro hle
    have ho : failOutcome sub att now = (MessageStatus.failed, none) := by
      unfold failOutcome
      rw [if_pos hle]
    rw [hsubm, ho]
    exact hsm _
  · intro hlt hlin
    have ho : failOutcome sub att now
        = (MessageStatus.waiting, some (now + sub.retryDelay)) := by
      unfold failOutcome
      rw [if_neg (by omega), hlin]
    rw [hsubm, ho]
    exact hsm _
  · intro hlt hexp
    have ho : failOutcome sub att now
        = (MessageStatus.waiting,
            some (now + sub.retryDelay * 2 ^ (att - 1))) := by
      unfold failOutcome
      rw [if_neg (by omega), hexp]
    rw [hsubm, ho]
    exact hsm _

/-- An exponential-retry subscription (`max_attempts 3`,
`retry_delay_ms 100`) with one row on its second attempt. -/
def wC3Sub : SubscriptionRow :=
  { id := 10, topicId := 1, name := "jobs", processing := false,
    consumptionMode := .parallel, startPosition := .latest,
    maxAttempts := 3, retryStrategy := .exponential, retryDelay := 100 }

def wC3Row : SubMsgRow :=
  { subscriptionId := 10, messageId := 100, status := .processing,
    attempts := 2, availableAt := none, errorStack := none,
    lastHeartbeatAt := some 5, progress := none, staleCount := 0 }

def wC3DB : DB :=
  { messages :=
      [ { id := 100, topicId := 1, data := "a", createdAt := 0,
          deliverAt := none, priority := none } ]
    subscriptions := [wC3Sub]
    subMessages := [wC3Row]
    scheduled := [] }

/-- Witness for C3: failing the attempt-2 row of the exponential
subscription at `now = 6` requeues it with
`available_at = 6 + 100 * 2 ^ 1 = 206`. -/
theorem claim_C3_witness :
    { wC3Row with status := MessageStatus.waiting, availableAt := some 206, errorStack := some "boom" }
      ∈ (failMessage wC3DB 10 100 2 6 (some "boom")).subMessages := by
  have h := (claim_C3 wC3DB 10 100 2 6 (some "boom") wC3Sub wC3Row rfl
    (by decide) rfl rfl).2.2 (by decide) rfl
  exact h

/-! ## Claim C5: the retention trimmer -/

theorem mem_of_drop_head_eq {α} {l : List α} {k : Nat} {a : α}
    (h : (l.drop k).head? = some a) : a ∈ l := by
  cases hd : l.drop k with
  | nil =>
    rw [hd] at h
    cases h
  | cons b t =>
    rw [hd, List.head?_cons, Option.some_inj] at h
    refine List.mem_of_mem_drop (n := k) ?_
    rw [hd, h]
    exact List.mem_cons_self _ _

theorem sortLe_asc_head_le {l : List Nat} {x : Nat} (hx : x ∈ l) :
    ∃ E, (sortLe (fun a b => a ≤ b) l).head? = some E ∧ E ≤ x := by
  have hmm : x ∈ sortLe (fun a b : Nat => a ≤ b) l :=
    ((sortLe_perm _ _).mem_iff).mpr hx
  have hp := @pairwise_sortLe Nat (fun a b : Nat => decide (a ≤ b))
    (fun a b => by simpa using Nat.le_total a b)
    (fun a b c h1 h2 => by
      simp only [decide_eq_true_eq] at h1 h2 ⊢
      omega) l
  cases hs : sortLe (fun a b : Nat => a ≤ b) l with
  | nil =>
    rw [hs] at hmm
    cases hmm
  | cons E t =>
    rw [hs] at hmm hp
    rw [List.pairwise_cons] at hp
    refine ⟨E, rfl, ?_⟩
    rcases List.mem_cons.mp hmm with h | h
    · omega
    · simpa using hp.1 _ h

/-- In `Topic.trim`, the earliest-unacknowledged lookup is a lower bound
on the message id of every non-completed row of the topic's
subscriptions (and in particular resolves to a value). -/
theorem earliestUnprocessedId_le {db : DB} {tid : Nat}
    {sub : SubscriptionRow} {sm : SubMsgRow}
    (hsub : sub ∈ db.subscriptions) (htid : sub.topicId = tid)
    (hsm : sm ∈ db.subMessages) (hsid : sm.subscriptionId = sub.id)
    (hst : sm.status ≠ MessageStatus.completed) :
    ∃ E, earliestUnprocessedId db tid = some E ∧ E ≤ sm.messageId := by
  have hpend : sm ∈ db.subMessages.filter (fun r =>
      ((db.subscriptions.filter (fun s => s.topicId == tid)).map
        (fun s => s.id)).contains r.subscriptionId
        && r.status != MessageStatus.completed) := by
    refine List.mem_filter.mpr ⟨hsm, ?_⟩
    rw [Bool.and_eq_true]
    refine ⟨?_, ?_⟩
    · rw [contains_iff_mem, hsid]
      exact List.mem_map_of_mem _ (List.mem_filter.mpr ⟨hsub, by simp [htid]⟩)
    · simpa using hst
  unfold earliestUnprocessedId
  exact sortLe_asc_head_le (List.mem_map_of_mem _ hpend)

/-- The id returned by the offset lookup of `Topic.trim` lies strictly
below the earliest-unacknowledged bound. -/
theorem latestRemovableId_lt_bound {db : DB} {tid k E latest : Nat}
    (hL : latestRemovableId db tid k (some E) = some latest) :
    latest < E := by
  unfold latestRemovableId at hL
  dsimp only at hL
  have hmem : latest ∈ sortLe (fun a b : Nat => b ≤ a)
      ((db.messages.filter (belowBound tid (some E))).map (fun m => m.id)) :=
    mem_of_drop_head_eq hL
  have hmem2 := (sortLe_perm _ _).mem_iff.mp hmem
  rcases List.mem_map.mp hmem2 with ⟨m, hm, hid⟩
  have hb := (List.mem_filter.mp hm).2
  unfold belowBound at hb
  rw [Bool.and_eq_true] at hb
  have : m.id < E := by simpa using hb.2
  omega

theorem pairwise_take_drop {α} {R : α → α → Prop} {l : List α}
    (h : l.Pairwise R) (k : Nat) :
    ∀ x ∈ l.take k, ∀ y ∈ l.drop k, R x y := by
  have h2 : (l.take k ++ l.drop k).Pairwise R := by
    rw [List.take_append_drop]
    exact h
  exact (List.pairwise_append.mp h2).2.2

theorem nodup_take_disjoint {α} {l : List α} (h : l.Nodup) (k : Nat) :
    ∀ x ∈ l.take k, x ∉ l.drop k := by
  have h2 : (l.take k ++ l.drop k).Nodup := by
    rw [List.take_append_drop]
    exact h
  have h3 := (List.nodup_append.mp h2).2.2
  exact fun x hx hy => h3 hx hy

/-- A duplicate-free list whose descending sort still has an element at
index `k` has at least `k` elements strictly greater than that element. -/
theorem sortLe_desc_drop_count {l : List Nat} {k latest : Nat}
    (hnd : l.Nodup)
    (hh : ((sortLe (fun a b : Nat => b ≤ a) l).drop k).head? = some latest) :
    k ≤ l.countP (fun i => decide (latest < i)) := by
  have hperm : (sortLe (fun a b : Nat => b ≤ a) l).Perm l := sortLe_perm _ _
  have hpair := @pairwise_sortLe Nat (fun a b : Nat => decide (b ≤ a))
    (fun a b => by simpa using Nat.le_total b a)
    (fun a b c h1 h2 => by
      simp only [decide_eq_true_eq] at h1 h2 ⊢
      omega) l
  have hnd2 : (sortLe (fun a b : Nat => b ≤ a) l).Nodup :=
    (hperm.nodup_iff).mpr hnd
  have hld : latest ∈ (sortLe (fun a b : Nat => b ≤ a) l).drop k := by
    cases hd : (sortLe (fun a b : Nat => b ≤ a) l).drop k with
    | nil =>
      rw [hd] at hh
      cases hh
    | cons a t =>
      rw [hd, List.head?_cons, Option.some_inj] at hh
      rw [← hh]
      exact List.mem_cons_self _ _
  have htake : ∀ x ∈ (sortLe (fun a b : Nat => b ≤ a) l).take k, latest < x := by
    intro x hx
    have h1 := pairwise_take_drop hpair k x hx latest hld
    have h2 := nodup_take_disjoint hnd2 k x hx
    simp only [decide_eq_true_eq] at h1
    rcases Nat.lt_or_ge latest x with h | h
    · exact h
    · exfalso
      have hxeq : x = latest := by omega
      exact h2 (hxeq ▸ hld)
  have hklt : k < (sortLe (fun a b : Nat => b ≤ a) l).length := by
    by_contra hk
    push_neg at hk
    rw [List.drop_eq_nil_of_le hk] at hld
    cases hld
  have hlen : ((sortLe (fun a b : Nat => b ≤ a) l).take k).length = k := by
    rw [List.length_take]
    omega
  calc k = ((sortLe (fun a b : Nat => b ≤ a) l).take k).length := hlen.symm
    _ = ((sortLe (fun a b : Nat => b ≤ a) l).take k).countP
          (fun i => decide (latest < i)) :=
        (List.countP_eq_length.mpr (fun a ha => by simpa using htake a ha)).symm
    _ ≤ (sortLe (fun a b : Nat => b ≤ a) l).countP (fun i => decide (latest < i)) :=
        (List.take_sublist k _).countP_le _
    _ = l.countP (fun i => decide (latest < i)) := hperm.countP_eq _

/--
C5: the retention trimmer.

* `max_retention = ∞` (modeled `none`): `trim()` is a no-op returning 0;
* retention safety: a message referenced by a non-`completed` row of a
  subscription of the topic survives `trim()`;
* at least `min(max_retention, number of acknowledged candidates)` of
  the topic's messages below the earliest unacknowledged id survive
  (under primary-key uniqueness of message ids);
* every deleted message belongs to the topic and lies at or below the
  offset-lookup threshold.
-/
theorem claim_C5 :
    (∀ (db : DB) (tid : Nat), trimTopic db tid none = (db, 0)) ∧
    (∀ (db : DB) (tid : Nat) (mr : Option Nat) (sub : SubscriptionRow)
        (sm : SubMsgRow) (m : MessageRow),
      sub ∈ db.subscriptions → sub.topicId = tid →
      sm ∈ db.subMessages → sm.subscriptionId = sub.id →
      sm.status ≠ MessageStatus.completed →
      m ∈ db.messages → m.id = sm.messageId →
      m ∈ ((trimTopic db tid mr).1).messages) ∧
    (∀ (db : DB) (tid retention : Nat), WF db →
      min retention
          ((db.messages.filter
            (belowBound tid (earliestUnprocessedId db tid))).length)
        ≤ (((trimTopic db tid (some retention)).1).messages.filter
            (belowBound tid (earliestUnprocessedId db tid))).length) ∧
    (∀ (db : DB) (tid retention : Nat) (m : MessageRow),
      m ∈ db.messages →
      m ∉ ((trimTopic db tid (some retention)).1).messages →
      ∃ latest,
        latestRemovableId db tid retention (earliestUnprocessedId db tid)
          = some latest ∧ m.topicId = tid ∧ m.id ≤ latest) := by
  refine ⟨fun db tid => rfl, ?_, ?_, ?_⟩
  · -- retention safety
    intro db tid mr sub sm m hsub htid hsm hsid hst hm hid
    cases mr with
    | none => exact hm
    | some retention =>
      unfold trimTopic
      dsimp only
      rcases earliestUnprocessedId_le hsub htid hsm hsid hst with ⟨E, hE, hEle⟩
      rw [hE]
      cases hL : latestRemovableId db tid retention (some E) with
      | none => exact hm
      | some latest =>
        dsimp only
        have hlt : latest < E := latestRemovableId_lt_bound hL
        unfold deleteMessages
        dsimp only
        refine List.mem_filter.mpr ⟨hm, ?_⟩
        have hn : ¬ (m.id ≤ latest) := by omega
        simp [hn]
  · -- at least min(retention, candidates) survive
    intro db tid retention hwf
    unfold trimTopic
    dsimp only
    cases hL : latestRemovableId db tid retention (earliestUnprocessedId db tid) with
    | none => exact Nat.min_le_right _ _
    | some latest =>
      dsimp only
      refine le_trans (Nat.min_le_left _ _) ?_
      have hnd : ((db.messages.filter
          (belowBound tid (earliestUnprocessedId db tid))).map
            (fun m => m.id)).Nodup :=
        List.Sublist.nodup (List.Sublist.map _ (List.filter_sublist _)) hwf.2.1
      have hL2 : ((sortLe (fun a b : Nat => b ≤ a)
          ((db.messages.filter
            (belowBound tid (earliestUnprocessedId db tid))).map
              (fun m => m.id))).drop retention).head? = some latest := hL
      have hcount := sortLe_desc_drop_count hnd hL2
      have hc1 : List.countP (fun i => decide (latest < i))
            ((db.messages.filter
              (belowBound tid (earliestUnprocessedId db tid))).map
                (fun m => m.id))
          = List.countP (fun m => decide (latest < m.id)
              && belowBound tid (earliestUnprocessedId db tid) m) db.messages := by
        rw [List.countP_map, List.countP_filter]
        rfl
      unfold deleteMessages
      dsimp only
      rw [← List.countP_eq_length_filter, List.countP_filter]
      refine le_trans (hc1 ▸ hcount) (List.countP_mono_left ?_)
      intro a ha h
      rw [Bool.and_eq_true] at h
      rw [Bool.and_eq_true]
      refine ⟨h.2, ?_⟩
      have hlt : latest < a.id := by simpa using h.1
      have hn : ¬ (a.id ≤ latest) := by omega
      simp [hn]
  · -- deleted rows lie at or below the threshold, inside the topic
    intro db tid retention m hm hnot
    unfold trimTopic at hnot
    dsimp only at hnot
    cases hL : latestRemovableId db tid retention (earliestUnprocessedId db tid) with
    | none =>
      rw [hL] at hnot
      exact absurd hm hnot
    | some latest =>
      rw [hL] at hnot
      dsimp only at hnot
      unfold deleteMessages at hnot
      dsimp only at hnot
      refine ⟨latest, rfl, ?_⟩
      by_cases hg : (m.topicId == tid && decide (m.id ≤ latest)) = true
      · rw [Bool.and_eq_true] at hg
        exact ⟨by simpa using hg.1, by simpa using hg.2⟩
      · exfalso
        refine hnot (List.mem_filter.mpr ⟨hm, ?_⟩)
        cases hx : (m.topicId == tid && decide (m.id ≤ latest)) with
        | false => rfl
        | true => exact absurd hx hg

/-- Topic `1` with five messages, five rows on one subscription: the
first three acknowledged, the last two still waiting. -/
def wC5Msg (i : Nat) : MessageRow :=
  { id := i, topicId := 1, data := "m", createdAt := 0,
    deliverAt := none, priority := none }

def wC5Row (i : Nat) (st : MessageStatus) : SubMsgRow :=
  { subscriptionId := 10, messageId := i, status := st, attempts := 1,
    availableAt := none, errorStack := none, lastHeartbeatAt := none,
    progress := none, staleCount := 0 }

def wC5Sub : SubscriptionRow :=
  { id := 10, topicId := 1, name := "jobs", processing := false,
    consumptionMode := .parallel, startPosition := .earliest,
    maxAttempts := 3, retryStrategy := .linear, retryDelay := 0 }

def wC5DB : DB :=
  { messages := [wC5Msg 1, wC5Msg 2, wC5Msg 3, wC5Msg 4, wC5Msg 5]
    subscriptions := [wC5Sub]
    subMessages := [wC5Row 1 .completed, wC5Row 2 .completed,
      wC5Row 3 .completed, wC5Row 4 .waiting, wC5Row 5 .waiting]
    scheduled := [] }

/-- Witness for C5 on the concrete topic (earliest unacknowledged id 4,
retention 1, threshold 2): the no-op on `∞`, survival of the waiting
message `4`, the retention count, and the deleted message `1` sitting
below the threshold. -/
theorem claim_C5_witness :
    trimTopic wC5DB 1 none = (wC5DB, 0) ∧
    wC5Msg 4 ∈ ((trimTopic wC5DB 1 (some 1)).1).messages ∧
    min 1 ((wC5DB.messages.filter
        (belowBound 1 (earliestUnprocessedId wC5DB 1))).length)
      ≤ (((trimTopic wC5DB 1 (some 1)).1).messages.filter
        (belowBound 1 (earliestUnprocessedId wC5DB 1))).length ∧
    (∃ latest,
      latestRemovableId wC5DB 1 1 (earliestUnprocessedId wC5DB 1)
        = some latest ∧ (wC5Msg 1).topicId = 1 ∧ (wC5Msg 1).id ≤ latest) := by
  refine ⟨claim_C5.1 wC5DB 1, ?_, ?_, ?_⟩
  · exact claim_C5.2.1 wC5DB 1 (some 1) wC5Sub (wC5Row 4 .waiting) (wC5Msg 4)
      (by decide) rfl (by decide) rfl (by decide) (by decide) rfl
  · exact claim_C5.2.2.1 wC5DB 1 1 (by decide)
  · exact claim_C5.2.2.2 wC5DB 1 1 (wC5Msg 1) (by decide) (by decide)

/-! ## Claim C6: the writer's deliver-at computation and fan-out -/

/-- The deliver-at computation as the spec words it: the explicit
`deliver_at` wins, otherwise any given `deliver_in_ms` is mapped to the
absolute timestamp `now + deliver_in_ms`. Compare `effectiveDeliverAt`,
which follows the source's JavaScript truthiness test. -/
def specDeliverAt (now : Nat) (o : MessageOptions) : Option Nat :=
  match o.deliverAt with
  | some d => some d
  | none =>
    match o.deliverInMs with
    | some m => some (now + m)
    | none => none

/-- Counterexample for C6 as stated: with `deliver_in_ms = 0` the source's
truthiness test skips the assignment, so the effective deliver-at is
`NULL`, not the spec's `now + 0`. -/
theorem claim_C6_cex :
    effectiveDeliverAt 7 { deliverInMs := some 0 } = none ∧
      specDeliverAt 7 { deliverInMs := some 0 } = some 7 := ⟨rfl, rfl⟩

/-- A list whose `(subscription_id, message_id)` keys are duplicate-free
has at most one row per key. -/
theorem countP_pairKey_le_one {l : List SubMsgRow}
    (hn : (l.map (fun sm => (sm.subscriptionId, sm.messageId))).Nodup)
    (sid mid : Nat) :
    l.countP (fun sm => sm.subscriptionId == sid && sm.messageId == mid) ≤ 1 := by
  have heq : l.countP (fun sm => sm.subscriptionId == sid && sm.messageId == mid)
      = l.countP (fun sm =>
          decide ((fun x => (x.subscriptionId, x.messageId)) sm = (sid, mid))) := by
    apply countP_congr_mem
    intro a _
    by_cases h1 : a.subscriptionId = sid <;> by_cases h2 : a.messageId = mid <;>
      simp [h1, h2, Prod.ext_iff]
  rw [heq]
  exact countP_key_le_one _ hn (sid, mid)

/--
C6 (amended): the effective deliver-at of `insertMessages` is the
explicit `deliver_at` when given, else `now + deliver_in_ms` when
`deliver_in_ms` is a positive number, else `NULL` — in particular
`deliver_in_ms = 0` falls through to `NULL` by JavaScript truthiness —
and in the same transaction exactly one `subscription_messages` row is
inserted per (new message × current subscription of the topic), carrying
`available_at` equal to that deliver-at and the schema defaults
(`status 'waiting'`, `attempts 0`, `stale_count 0`), as recorded in
`mkFanoutRow`.
-/
theorem claim_C6 :
    (∀ (now : Nat) (o : MessageOptions) (d : Nat),
      o.deliverAt = some d → effectiveDeliverAt now o = some d) ∧
    (∀ (now : Nat) (o : MessageOptions) (ms : Nat),
      o.deliverAt = none → o.deliverInMs = some ms → 0 < ms →
      effectiveDeliverAt now o = some (now + ms)) ∧
    (∀ (now : Nat) (o : MessageOptions),
      o.deliverAt = none → o.deliverInMs = some 0 →
      effectiveDeliverAt now o = none) ∧
    (∀ (db : DB) (tid : Nat) (batch : List (Nat × String))
        (o : MessageOptions) (now : Nat) (s : SubscriptionRow)
        (b : Nat × String),
      WF db → s ∈ db.subscriptions → s.topicId = tid → b ∈ batch →
      (batch.map Prod.fst).Nodup → freshMsgId db b.1 →
      mkFanoutRow (effectiveDeliverAt now o) s.id b.1
          ∈ (insertMessages db tid batch o now).subMessages ∧
        (insertMessages db tid batch o now).subMessages.countP
          (fun sm => sm.subscriptionId == s.id && sm.messageId == b.1) = 1) := by
  refine ⟨?_, ?_, ?_, ?_⟩
  · intro now o d h
    unfold effectiveDeliverAt
    rw [h]
  · intro now o ms h1 h2 h3
    unfold effectiveDeliverAt
    rw [h1, h2]
    dsimp only
    rw [if_neg (by omega)]
  · intro now o h1 h2
    unfold effectiveDeliverAt
    rw [h1, h2]
    rfl
  · intro db tid batch o now s b hwf hs htid hb hids hfresh
    unfold insertMessages
    dsimp only
    have hsf : s ∈ db.subscriptions.filter (fun x => x.topicId == tid) :=
      List.mem_filter.mpr ⟨hs, by simp [htid]⟩
    have hmemF : mkFanoutRow (effectiveDeliverAt now o) s.id b.1
        ∈ (db.subscriptions.filter (fun x => x.topicId == tid)).flatMap
            (fun x => batch.map
              (fun bb => mkFanoutRow (effectiveDeliverAt now o) x.id bb.1)) :=
      List.mem_flatMap.mpr ⟨s, hsf, List.mem_map.mpr ⟨b, hb, rfl⟩⟩
    constructor
    · exact List.mem_append_right _ hmemF
    · rw [List.countP_append]
      have h0 : db.subMessages.countP
          (fun sm => sm.subscriptionId == s.id && sm.messageId == b.1) = 0 := by
        rw [List.countP_eq_zero]
        intro sm hsm
        have hne := hfresh.2 sm hsm
        simp only [Bool.and_eq_true, beq_iff_eq]
        rintro ⟨-, h2⟩
        exact hne h2
      have hnodup : (((db.subscriptions.filter (fun x => x.topicId == tid)).flatMap
          (fun x => batch.map
            (fun bb => mkFanoutRow (effectiveDeliverAt now o) x.id bb.1))).map
              (fun sm => (sm.subscriptionId, sm.messageId))).Nodup := by
        rw [List.map_flatMap]
        have hrw : (fun (x : SubscriptionRow) =>
            List.map (fun sm => (sm.subscriptionId, sm.messageId))
              (batch.map
                (fun bb => mkFanoutRow (effectiveDeliverAt now o) x.id bb.1)))
            = fun x => (batch.map Prod.fst).map (fun i => (x.id, i)) := by
          funext x
          rw [List.map_map, List.map_map]
          rfl
        rw [hrw]
        have hrw2 : (db.subscriptions.filter (fun x => x.topicId == tid)).flatMap
              (fun x => (batch.map Prod.fst).map (fun i => (x.id, i)))
            = ((db.subscriptions.filter (fun x => x.topicId == tid)).map
                SubscriptionRow.id).flatMap
              (fun x => (batch.map Prod.fst).map (fun i => (x, i))) := by
          rw [List.flatMap_map]
        rw [hrw2]
        apply nodup_pair_product
        · exact List.Sublist.nodup
            (List.Sublist.map SubscriptionRow.id (List.filter_sublist _)) hwf.1
        · exact hids
      have hle := countP_pairKey_le_one hnodup s.id b.1
      have hpos : 0 < ((db.subscriptions.filter (fun x => x.topicId == tid)).flatMap
          (fun x => batch.map
            (fun bb => mkFanoutRow (effectiveDeliverAt now o) x.id bb.1))).countP
              (fun sm => sm.subscriptionId == s.id && sm.messageId == b.1) :=
        List.countP_pos_iff.mpr ⟨_, hmemF, by simp [mkFanoutRow]⟩
      omega

def wC6Sub : SubscriptionRow :=
  { id := 10, topicId := 1, name := "jobs", processing := false,
    consumptionMode := .parallel, startPosition := .latest,
    maxAttempts := 1, retryStrategy := .linear, retryDelay := 0 }

def wC6DB : DB :=
  { messages := [], subscriptions := [wC6Sub], subMessages := [],
    scheduled := [] }

/-- Witness for C6: the three deliver-at cases at `now = 7` and the
single fan-out row of a one-payload send into a one-subscription
topic. -/
theorem claim_C6_witness :
    effectiveDeliverAt 7 { deliverAt := some 3, deliverInMs := some 5 } = some 3 ∧
    effectiveDeliverAt 7 ({ deliverInMs := some 5 } : MessageOptions) = some 12 ∧
    effectiveDeliverAt 7 ({ deliverInMs := some 0 } : MessageOptions) = none ∧
    (mkFanoutRow (effectiveDeliverAt 7 ({ deliverInMs := some 5 } : MessageOptions)) 10 100
        ∈ (insertMessages wC6DB 1 [(100, "p")] { deliverInMs := some 5 } 7).subMessages ∧
      (insertMessages wC6DB 1 [(100, "p")] { deliverInMs := some 5 } 7).subMessages.countP
        (fun sm => sm.subscriptionId == 10 && sm.messageId == 100) = 1) := by
  refine ⟨claim_C6.1 7 _ 3 rfl, claim_C6.2.1 7 _ 5 rfl rfl (by decide),
    claim_C6.2.2.1 7 _ rfl rfl, ?_⟩
  exact claim_C6.2.2.2 wC6DB 1 [(100, "p")] { deliverInMs := some 5 } 7 wC6Sub
    (100, "p") (by decide) (by decide) rfl (by decide) (by decide) (by decide)

/-! ## Claim C7: the scheduler -/

/-- The first components of a zip form a sublist of the first list. -/
theorem map_fst_zip_sublist {α β} :
    ∀ (l₁ : List α) (l₂ : List β), ((l₁.zip l₂).map Prod.fst).Sublist l₁
  | _, [] => by simp
  | [], _ :: _ => by simp
  | a :: t₁, _ :: t₂ => by
    simpa using List.Sublist.cons₂ a (map_fst_zip_sublist t₁ t₂)

/-- The scheduler loop keeps `repeats_made ≤ repeats`, provided the
snapshot rows it processes are due (`repeats_made < repeats`) and carry
duplicate-free `(topic_id, name)` keys. -/
theorem repeats_le_foldl (cronNext : String → Nat → Nat) (now : Nat) :
    ∀ (l : List (SchedRow × Nat)) (db : DB),
      (l.map (fun p => (p.1.topicId, p.1.name))).Nodup →
      (∀ r ∈ db.scheduled, ∀ k, r.repeats = some k → r.repeatsMade ≤ k) →
      (∀ p ∈ l, ∀ r ∈ db.scheduled, r.topicId = p.1.topicId →
        r.name = p.1.name → ∀ k, r.repeats = some k → r.repeatsMade < k) →
      ∀ r ∈ (l.foldl (processOneSchedule cronNext now) db).scheduled,
        ∀ k, r.repeats = some k → r.repeatsMade ≤ k
  | [], db, _, hle, _ => by
    intro r hr
    exact hle r hr
  | p :: t, db, hnd, hle, hlt => by
    rw [List.foldl_cons]
    rw [List.map_cons, List.nodup_cons] at hnd
    have hsch : (processOneSchedule cronNext now db p).scheduled
        = db.scheduled.map (fun r =>
            if r.topicId == p.1.topicId && r.name == p.1.name then
              { r with nextOccurrenceAt := cronNext p.1.cron now, repeatsMade := r.repeatsMade + 1 }
            else r) := rfl
    refine repeats_le_foldl cronNext now t _ hnd.2 ?_ ?_
    · intro r hr k hk
      rw [hsch] at hr
      rcases List.mem_map.mp hr with ⟨r0, hr0, heq⟩
      by_cases hc : (r0.topicId == p.1.topicId && r0.name == p.1.name) = true
      · rw [if_pos hc] at heq
        rw [← heq] at hk ⊢
        have hck := hc
        rw [Bool.and_eq_true] at hck
        have hlt2 := hlt p (List.mem_cons_self _ _) r0 hr0
          (by simpa using hck.1) (by simpa using hck.2) k (by simpa using hk)
        show r0.repeatsMade + 1 ≤ k
        omega
      · rw [if_neg hc] at heq
        rw [← heq] at hk ⊢
        exact hle r0 hr0 k hk
    · intro p2 hp2 r hr htop hname k hk
      rw [hsch] at hr
      rcases List.mem_map.mp hr with ⟨r0, hr0, heq⟩
      by_cases hc : (r0.topicId == p.1.topicId && r0.name == p.1.name) = true
      · exfalso
        apply hnd.1
        have hck := hc
        rw [Bool.and_eq_true] at hck
        have hkey : (p.1.topicId, p.1.name) = (p2.1.topicId, p2.1.name) := by
          rw [if_pos hc] at heq
          rw [← heq] at htop hname
          have h1 : r0.topicId = p.1.topicId := by simpa using hck.1
          have h2 : r0.name = p.1.name := by simpa using hck.2
          simp only at htop hname
          rw [← h1, ← h2, htop, hname]
        rw [hkey]
        exact List.mem_map_of_mem _ hp2
      · rw [if_neg hc] at heq
        rw [← heq] at htop hname hk ⊢
        exact hlt p2 (List.mem_cons_of_mem _ hp2) r0 hr0 htop hname k hk

/--
C7 (amended): for each processed schedule snapshot, the scheduler
inserts through the writer exactly the message built from the
schedule's `deliver_at` / `deliver_in_ms` / `priority` and payload, and
rewrites every schedule row keyed `(topic_id, name)` with
`next_occurrence_at = ` the cron's next occurrence computed from `now`
(not from the stored `next_occurrence_at`) and `repeats_made`
incremented, leaving other schedule rows alone; and a full
`processScheduledMessages` run preserves `repeats_made ≤ repeats`, the
bound behind "a schedule with `repeats = k` fires at most `k` times"
(due selection requires `repeats_made < repeats`).
-/
theorem claim_C7 :
    (∀ (cronNext : String → Nat → Nat) (now : Nat) (db : DB)
        (row : SchedRow) (fid : Nat),
      mkMessageRow row.topicId now
          (effectiveDeliverAt now
            { deliverAt := row.deliverAt, deliverInMs := row.deliverInMs, priority := row.priority })
          row.priority (fid, row.data)
        ∈ (processOneSchedule cronNext now db (row, fid)).messages ∧
      (∀ r ∈ db.scheduled, r.topicId = row.topicId → r.name = row.name →
        { r with nextOccurrenceAt := cronNext row.cron now, repeatsMade := r.repeatsMade + 1 }
          ∈ (processOneSchedule cronNext now db (row, fid)).scheduled) ∧
      (∀ r ∈ db.scheduled, ¬ (r.topicId = row.topicId ∧ r.name = row.name) →
        r ∈ (processOneSchedule cronNext now db (row, fid)).scheduled)) ∧
    (∀ (cronNext : String → Nat → Nat) (db : DB) (now : Nat)
        (ids : List Nat),
      (db.scheduled.map (fun r => (r.topicId, r.name))).Nodup →
      (∀ r ∈ db.scheduled, ∀ k, r.repeats = some k → r.repeatsMade ≤ k) →
      ∀ r ∈ (processScheduledMessages cronNext db now ids).scheduled,
        ∀ k, r.repeats = some k → r.repeatsMade ≤ k) := by
  constructor
  · intro cronNext now db row fid
    refine ⟨?_, ?_, ?_⟩
    · show _ ∈ (processOneSchedule cronNext now db (row, fid)).messages
      unfold processOneSchedule insertMessages
      dsimp only
      simp only [List.map_cons, List.map_nil]
      exact List.mem_append_right _ (List.mem_cons_self _ _)
    · intro r hr h1 h2
      show _ ∈ (processOneSchedule cronNext now db (row, fid)).scheduled
      unfold processOneSchedule insertMessages
      dsimp only
      refine List.mem_map.mpr ⟨r, hr, ?_⟩
      rw [if_pos (by simp [h1, h2])]
    · intro r hr hne
      show _ ∈ (processOneSchedule cronNext now db (row, fid)).scheduled
      unfold processOneSchedule insertMessages
      dsimp only
      refine List.mem_map.mpr ⟨r, hr, ?_⟩
      rw [if_neg (by
        simp only [Bool.and_eq_true, beq_iff_eq]
        exact hne)]
  · intro cronNext db now ids hnd hle
    unfold processScheduledMessages
    dsimp only
    refine repeats_le_foldl cronNext now _ db ?_ hle ?_
    · have hsub : (((db.scheduled.filter (schedDue now)).zip ids).map Prod.fst).Sublist
          (db.scheduled.filter (schedDue now)) := map_fst_zip_sublist _ _
      have hsub2 := (hsub.trans (List.filter_sublist _)).map
        (fun r => (r.topicId, r.name))
      have hnd2 := List.Sublist.nodup hsub2 hnd
      rw [List.map_map] at hnd2
      exact hnd2
    · intro p hp r hr htop hname k hk
      have hp1 : p.1 ∈ db.scheduled.filter (schedDue now) :=
        List.Sublist.subset (map_fst_zip_sublist _ _)
          (List.mem_map_of_mem Prod.fst hp)
      have hdue := (List.mem_filter.mp hp1).2
      have hrp : r = p.1 := by
        apply List.inj_on_of_nodup_map hnd hr ((List.mem_filter.mp hp1).1)
        simp [htop, hname]
      rw [hrp] at hk ⊢
      unfold schedDue at hdue
      rw [Bool.and_eq_true] at hdue
      have h2 := hdue.2
      rw [hk] at h2
      simpa using h2

/-- The spec's advance rule would move `next_occurrence_at` to the
cron's next occurrence after the stored value; under the occurrence
function `t + 10` the stored value `10` would advance to `20`, but the
source advances from `now = 35` to `45`. -/
def wC7Cron : String → Nat → Nat := fun _ t => t + 10

def wC7Sched : SchedRow :=
  { topicId := 1, name := "s", data := "d", createdAt := 0,
    nextOccurrenceAt := 10, cron := "c", deliverInMs := none,
    deliverAt := none, priority := none, repeats := some 2,
    repeatsMade := 0 }

def wC7DB : DB :=
  { messages := [], subscriptions := [], subMessages := [],
    scheduled := [wC7Sched] }

/-- Counterexample for C7 as stated: after one scheduler pass at
`now = 35`, the stored `next_occurrence_at` is the occurrence after
`now` (`45`), not the spec's occurrence after the stored
`next_occurrence_at` (`20`). -/
theorem claim_C7_cex :
    (processScheduledMessages wC7Cron wC7DB 35 [100]).scheduled.map
        (fun r => r.nextOccurrenceAt)
      ≠ [wC7Cron wC7Sched.cron wC7Sched.nextOccurrenceAt] := by
  decide

/-- Witness for C7 on the one-schedule state at `now = 35` (the row is
due: `10 ≤ 35`, `repeats_made 0 < repeats 2`): the inherited message for
fresh id `100` is inserted, the schedule row advances to
`wC7Cron "c" 35 = 45` with `repeats_made = 1`, and the repeats bound
holds on the resulting row (`1 ≤ 2`). -/
theorem claim_C7_witness :
    mkMessageRow 1 35 none none (100, "d")
        ∈ (processOneSchedule wC7Cron 35 wC7DB (wC7Sched, 100)).messages ∧
      ({ wC7Sched with nextOccurrenceAt := 45, repeatsMade := 1 } : SchedRow)
        ∈ (processOneSchedule wC7Cron 35 wC7DB (wC7Sched, 100)).scheduled ∧
      ({ wC7Sched with nextOccurrenceAt := 45, repeatsMade := 1 } : SchedRow).repeatsMade ≤ 2 := by
  refine ⟨?_, ?_, ?_⟩
  · exact (claim_C7.1 wC7Cron 35 wC7DB wC7Sched 100).1
  · exact (claim_C7.1 wC7Cron 35 wC7DB wC7Sched 100).2.1 wC7Sched (by decide) rfl rfl
  · refine claim_C7.2 wC7Cron wC7DB 35 [100] (by decide) ?_
      ({ wC7Sched with nextOccurrenceAt := 45, repeatsMade := 1 }) (by decide) 2 rfl
    intro r hr k hk
    have hr2 : r ∈ [wC7Sched] := hr
    rw [List.mem_singleton] at hr2
    subst hr2
    have h2 : wC7Sched.repeats = some 2 := rfl
    rw [h2] at hk
    injection hk with h
    have h0 : wC7Sched.repeatsMade = 0 := rfl
    omega

/-! ## Claim C8: the stale detector -/

theorem isEmpty_eq_false_of_mem {α} {l : List α} {a : α} (h : a ∈ l) :
    l.isEmpty = false := by
  cases l with
  | nil => cases h
  | cons b t => rfl

/--
C8 (amended): one `resetStale()` call

* rewrites every stale row (`processing` with
  `last_heartbeat_at ≤ staleAt`) to `waiting` when `stale_count = 0` and
  to `failed` otherwise, incrementing `stale_count` and clearing
  `last_heartbeat_at`, and keeps every non-stale row unchanged;
* clears the `processing` flag of every subscription owning a stale row
  and keeps subscriptions without stale rows unchanged;
* emits one `stale` event per affected row — reopened and failed alike —
  so the event count equals the number of stale rows, not the number of
  reopened ones;
* is a no-op returning no events when no row is stale.
-/
theorem claim_C8 :
    (∀ (db : DB) (staleAt : Nat) (sm : SubMsgRow), sm ∈ db.subMessages →
      (isStale staleAt sm = true → sm.staleCount = 0 →
        { sm with status := MessageStatus.waiting, staleCount := sm.staleCount + 1, lastHeartbeatAt := none }
          ∈ (resetStaleMessages db staleAt).1.subMessages) ∧
      (isStale staleAt sm = true → sm.staleCount ≠ 0 →
        { sm with status := MessageStatus.failed, staleCount := sm.staleCount + 1, lastHeartbeatAt := none }
          ∈ (resetStaleMessages db staleAt).1.subMessages) ∧
      (isStale staleAt sm = false →
        sm ∈ (resetStaleMessages db staleAt).1.subMessages)) ∧
    (∀ (db : DB) (staleAt : Nat) (s : SubscriptionRow), s ∈ db.subscriptions →
      ((∃ sm ∈ db.subMessages, isStale staleAt sm = true ∧ sm.subscriptionId = s.id) →
        { s with processing := false } ∈ (resetStaleMessages db staleAt).1.subscriptions) ∧
      ((∀ sm ∈ db.subMessages, isStale staleAt sm = true → sm.subscriptionId ≠ s.id) →
        s ∈ (resetStaleMessages db staleAt).1.subscriptions)) ∧
    (∀ (db : DB) (staleAt : Nat),
      (resetStaleMessages db staleAt).2
          = (db.subMessages.filter (isStale staleAt)).map
              (fun sm => (sm.messageId, sm.subscriptionId)) ∧
        (resetStaleMessages db staleAt).2.length
          = db.subMessages.countP (isStale staleAt)) ∧
    (∀ (db : DB) (staleAt : Nat),
      db.subMessages.countP (isStale staleAt) = 0 →
      resetStaleMessages db staleAt = (db, [])) := by
  refine ⟨?_, ?_, ?_, ?_⟩
  · intro db staleAt sm hsm
    refine ⟨?_, ?_, ?_⟩
    · intro hstale h0
      have hmemf : sm ∈ db.subMessages.filter (isStale staleAt) :=
        List.mem_filter.mpr ⟨hsm, hstale⟩
      unfold resetStaleMessages
      dsimp only
      rw [if_neg (by simp [isEmpty_eq_false_of_mem hmemf])]
      dsimp only
      refine List.mem_map.mpr ⟨sm, hsm, ?_⟩
      rw [if_pos hstale]
      unfold staleUpdate
      rw [h0]
      simp
    · intro hstale h0
      have hmemf : sm ∈ db.subMessages.filter (isStale staleAt) :=
        List.mem_filter.mpr ⟨hsm, hstale⟩
      unfold resetStaleMessages
      dsimp only
      rw [if_neg (by simp [isEmpty_eq_false_of_mem hmemf])]
      dsimp only
      refine List.mem_map.mpr ⟨sm, hsm, ?_⟩
      rw [if_pos hstale]
      unfold staleUpdate
      have hb : (sm.staleCount == 0) = false := by simpa using h0
      rw [hb]
      simp
    · intro hstale
      unfold resetStaleMessages
      dsimp only
      by_cases hE : (db.subMessages.filter (isStale staleAt)).isEmpty = true
      · rw [if_pos hE]
        exact hsm
      · rw [if_neg hE]
        dsimp only
        refine List.mem_map.mpr ⟨sm, hsm, ?_⟩
        rw [if_neg (by simp [hstale])]
  · intro db staleAt s hs
    constructor
    · rintro ⟨sm, hsm, hstale, hsid⟩
      have hmemf : sm ∈ db.subMessages.filter (isStale staleAt) :=
        List.mem_filter.mpr ⟨hsm, hstale⟩
      unfold resetStaleMessages
      dsimp only
      rw [if_neg (by simp [isEmpty_eq_false_of_mem hmemf])]
      dsimp only
      refine List.mem_map.mpr ⟨s, hs, ?_⟩
      rw [if_pos (List.any_eq_true.mpr ⟨sm, hmemf, by simp [hsid]⟩)]
    · intro hnone
      unfold resetStaleMessages
      dsimp only
      by_cases hE : (db.subMessages.filter (isStale staleAt)).isEmpty = true
      · rw [if_pos hE]
        exact hs
      · rw [if_neg hE]
        dsimp only
        refine List.mem_map.mpr ⟨s, hs, ?_⟩
        rw [if_neg ?_]
        intro hany
        obtain ⟨sm, hmemf, hbeq⟩ := List.any_eq_true.mp hany
        obtain ⟨hsm, hstale⟩ := List.mem_filter.mp hmemf
        exact hnone sm hsm hstale (by simpa using hbeq)
  · intro db staleAt
    unfold resetStaleMessages
    dsimp only
    by_cases hE : (db.subMessages.filter (isStale staleAt)).isEmpty = true
    · rw [if_pos hE]
      have hnil : db.subMessages.filter (isStale staleAt) = [] := by
        cases hl : db.subMessages.filter (isStale staleAt) with
        | nil => rfl
        | cons a t =>
          rw [hl] at hE
          simp at hE
      rw [hnil]
      exact ⟨rfl, by rw [List.countP_eq_length_filter, hnil]; rfl⟩
    · rw [if_neg hE]
      dsimp only
      exact ⟨rfl, by rw [List.length_map, List.countP_eq_length_filter]⟩
  · intro db staleAt h0
    unfold resetStaleMessages
    dsimp only
    have hnil : db.subMessages.filter (isStale staleAt) = [] := by
      rw [List.countP_eq_length_filter] at h0
      exact List.length_eq_zero.mp h0
    rw [if_pos (by rw [hnil]; rfl)]

/-- A single once-stale `processing` row: the sweep fails it (second
stale strike) yet still emits an event for it. -/
def c8Row : SubMsgRow :=
  { subscriptionId := 10, messageId := 100, status := .processing,
    attempts := 1, availableAt := none, errorStack := none,
    lastHeartbeatAt := some 3, progress := none, staleCount := 1 }

def c8DB : DB :=
  { messages := [], subscriptions := [], subMessages := [c8Row],
    scheduled := [] }

/-- Counterexample for C8 as stated: the sweep emits one `stale` event
although zero rows were reopened (the only affected row moves to
`failed`), so the events are per affected row, not per reopened row. -/
theorem claim_C8_cex :
    (resetStaleMessages c8DB 10).2.length = 1 ∧
      (resetStaleMessages c8DB 10).1.subMessages.countP
        (fun sm => sm.status == MessageStatus.waiting) = 0 := by
  decide

def wC8RowA : SubMsgRow :=
  { subscriptionId := 10, messageId := 100, status := .processing,
    attempts := 1, availableAt := none, errorStack := none,
    lastHeartbeatAt := some 3, progress := none, staleCount := 0 }

def wC8RowB : SubMsgRow :=
  { subscriptionId := 10, messageId := 101, status := .processing,
    attempts := 1, availableAt := none, errorStack := none,
    lastHeartbeatAt := some 2, progress := none, staleCount := 1 }

def wC8RowC : SubMsgRow :=
  { subscriptionId := 10, messageId := 102, status := .waiting,
    attempts := 0, availableAt := none, errorStack := none,
    lastHeartbeatAt := none, progress := none, staleCount := 0 }

def wC8Sub : SubscriptionRow :=
  { id := 10, topicId := 1, name := "jobs", processing := true,
    consumptionMode := .sequential, startPosition := .latest,
    maxAttempts := 2, retryStrategy := .linear, retryDelay := 0 }

def wC8Sub2 : SubscriptionRow :=
  { id := 20, topicId := 1, name := "other", processing := true,
    consumptionMode := .sequential, startPosition := .latest,
    maxAttempts := 2, retryStrategy := .linear, retryDelay := 0 }

def wC8DB : DB :=
  { messages := [], subscriptions := [wC8Sub, wC8Sub2],
    subMessages := [wC8RowA, wC8RowB, wC8RowC], scheduled := [] }

/-- Witness for C8 at `staleAt = 10`: the fresh-strike row reopens, the
second-strike row fails, the waiting row is untouched, the owning
subscription's gate clears while the other subscription is untouched,
two events are emitted for the two stale rows, and the sweep at
`staleAt = 0` (no stale rows) is a no-op. -/
theorem claim_C8_witness :
    { wC8RowA with status := MessageStatus.waiting, staleCount := wC8RowA.staleCount + 1, lastHeartbeatAt := none }
        ∈ (resetStaleMessages wC8DB 10).1.subMessages ∧
      { wC8RowB with status := MessageStatus.failed, staleCount := wC8RowB.staleCount + 1, lastHeartbeatAt := none }
        ∈ (resetStaleMessages wC8DB 10).1.subMessages ∧
      wC8RowC ∈ (resetStaleMessages wC8DB 10).1.subMessages ∧
      { wC8Sub with processing := false }
        ∈ (resetStaleMessages wC8DB 10).1.subscriptions ∧
      wC8Sub2 ∈ (resetStaleMessages wC8DB 10).1.subscriptions ∧
      (resetStaleMessages wC8DB 10).2.length
        = wC8DB.subMessages.countP (isStale 10) ∧
      resetStaleMessages wC8DB 0 = (wC8DB, []) := by
  refine ⟨?_, ?_, ?_, ?_, ?_, ?_, ?_⟩
  · exact ((claim_C8.1 wC8DB 10 wC8RowA (by decide)).1) (by decide) rfl
  · exact ((claim_C8.1 wC8DB 10 wC8RowB (by decide)).2.1) (by decide) (by decide)
  · exact ((claim_C8.1 wC8DB 10 wC8RowC (by decide)).2.2) (by decide)
  · exact ((claim_C8.2.1 wC8DB 10 wC8Sub (by decide)).1)
      ⟨wC8RowA, by decide, by decide, rfl⟩
  · exact ((claim_C8.2.1 wC8DB 10 wC8Sub2 (by decide)).2) (by decide)
  · exact (claim_C8.2.2.1 wC8DB 10).2
  · exact claim_C8.2.2.2 wC8DB 0 (by decide)

/-! ## Claim C9: idempotence of subscribe -/

def c9Opts : SubscriptionOptions := {}

/-- First `subscribe("dup")` on topic `1` (fresh id `100`). -/
def c9DB1 : DB := (subscribeInit DB.empty 1 "dup" 100 c9Opts).1

/-- First `subscribe("dup")` on topic `2` (fresh id `200`). -/
def c9DB2 : DB := (subscribeInit c9DB1 2 "dup" 200 c9Opts).1

/-- Second `subscribe("dup")` on topic `2` with identical options. -/
def c9Res : DB × Option SubscriptionRow × Bool :=
  subscribeInit c9DB2 2 "dup" 300 c9Opts

/--
C9: a second `subscribe` with identical options leaves the database
unchanged, but it does NOT reliably return the existing subscription:
the conflict lookup selects by `name` alone (`WHERE name = $name`,
no `topic_id` filter), so with a same-named subscription on another
topic it adopts that other topic's row — here id `100` of topic `1` —
although the subscription of `(topic 2, "dup")` is id `200`. The
returned id and configuration are those of the wrong row, refuting
"returns the existing subscription — same id".
-/
theorem claim_C9 :
    c9Res.1 = c9DB2 ∧
      c9Res.2.1.map (fun s => (s.id, s.topicId)) = some (100, 1) ∧
      c9DB2.subscriptions.any
        (fun s => s.topicId == 2 && s.name == "dup" && s.id == 200) = true := by
  decide

/-! ## Claim C10: the earliest backfill ignores deliver-at -/

/--
C10: a subscription created with `start_position = 'earliest'` backfills
one row per existing message of the topic with `available_at = NULL`
(`mkBackfillRow` — the insert names only `(subscription_id, message_id)`,
so `available_at` takes its `NULL` default regardless of the message's
`deliver_at`), making the message immediately reservable; a fan-out row
written at send time copies `deliver_at` into `available_at` and is not
a reservation candidate before that time.
-/
theorem claim_C10 :
    (∀ (db : DB) (tid : Nat) (name : String) (fid : Nat)
        (o : SubscriptionOptions) (m : MessageRow),
      db.subscriptions.any (fun s => s.topicId == tid && s.name == name) = false →
      o.startPosition = StartPosition.earliest →
      m ∈ db.messages → m.topicId = tid →
      mkBackfillRow fid m.id ∈ (subscribeInit db tid name fid o).1.subMessages) ∧
    (∀ fid mid : Nat, (mkBackfillRow fid mid).availableAt = none) ∧
    (∀ fid mid now : Nat, isCandidate fid now (mkBackfillRow fid mid) = true) ∧
    (∀ sid mid d now : Nat, now < d →
      isCandidate sid now (mkFanoutRow (some d) sid mid) = false) := by
  refine ⟨?_, fun fid mid => rfl, ?_, ?_⟩
  · intro db tid name fid o m hconf ho hm htid
    unfold subscribeInit
    rw [if_neg (by simp [hconf])]
    dsimp only
    rw [if_pos (by simp [ho])]
    refine List.mem_append_right _ ?_
    exact List.mem_map.mpr
      ⟨m, List.mem_filter.mpr ⟨hm, by simp [htid]⟩, rfl⟩
  · intro fid mid now
    simp [isCandidate, mkBackfillRow, availOk]
  · intro sid mid d now h
    have hn : ¬ (d ≤ now) := by omega
    simp [isCandidate, mkFanoutRow, availOk, hn]

/-- A message with a far `deliver_at` already sent into topic `1`. -/
def wC10Msg : MessageRow :=
  { id := 50, topicId := 1, data := "late", createdAt := 0,
    deliverAt := some 90, priority := none }

def wC10DB : DB :=
  { messages := [wC10Msg], subscriptions := [], subMessages := [],
    scheduled := [] }

/-- Witness for C10: an `earliest` subscription (fresh id `77`) on the
topic backfills message `50` with `available_at = NULL` and can reserve
it at `now = 0`, while the send-time fan-out row carrying
`deliver_at = 90` is no candidate at `now = 0`. -/
theorem claim_C10_witness :
    mkBackfillRow 77 50
        ∈ (subscribeInit wC10DB 1 "late" 77
            { startPosition := .earliest }).1.subMessages ∧
      (mkBackfillRow 77 50).availableAt = none ∧
      isCandidate 77 0 (mkBackfillRow 77 50) = true ∧
      isCandidate 77 0 (mkFanoutRow (some 90) 77 50) = false := by
  refine ⟨?_, claim_C10.2.1 77 50, claim_C10.2.2.1 77 50 0,
    claim_C10.2.2.2 77 50 90 0 (by decide)⟩
  exact claim_C10.1 wC10DB 1 "late" 77 { startPosition := .earliest } wC10Msg
    (by decide) rfl (by decide) rfl

end PgTransit
